import Mathlib

/-!
# vpn-leak-identifier: probe engine, baseline/delta/verdict state machine, STUN reflection parser

A shallow embedding of `internal/report/run.go`, `internal/app/test.go`,
`internal/leaks/stun.go`, `internal/leaks/ident_json.go`, `internal/monitor/monitor.go` and
the options built in `internal/cli/cli.go`, followed by theorems about the embedded
functions.

Conventions of the embedding:
* Go `string` is `String`, Go `int` is `Int`, `[]T` is `List T`, a nilable pointer `*T` is `Option T`.
* `time.Time` and `time.Duration` values are carried as integers (nanoseconds); the zero
  value of a struct has every field at its Go zero value.
* A Go method with a pointer receiver that mutates the receiver is a function returning
  the updated value.
* A Go `error` of which only the message is read is the `Option` of that message (`none`
  is nil); what the network and the standard library return is an input of the function.
* A byte is `Fin 256`; 16 and 32 bit words are natural numbers below `2^16` and `2^32`.
* A function with slice or index expressions runs in `Except Fault`: `Except.error` is a
  run-time panic (or an exhausted loop budget), `Except.ok` carries the Go return value,
  which for a `(string, error)` result is a `Ret`.
-/

namespace VpnLeak

/-! ## internal/report/run.go: data model -/

/-- Go `type RunMode string`. -/
abbrev RunMode := String

/-- Constant `RunModeKillSwitch`. -/
def RunModeKillSwitch : RunMode := "kill-switch"

/-- Constant `RunModeVPNOnly`. -/
def RunModeVPNOnly : RunMode := "vpn-only"

/-- Struct `GeoInfo`. -/
structure GeoInfo where
  Country : String := ""
  CountryCode : String := ""
  Region : String := ""
  City : String := ""
  ISP : String := ""
  ASN : String := ""
  Timezone : String := ""
deriving DecidableEq, Repr

/-- Struct `ExitInfo`. -/
structure ExitInfo where
  Family : String := ""
  IP : String := ""
  Geo : GeoInfo := {}
  Source : String := ""
  Error : String := ""
deriving DecidableEq, Repr

/-- Struct `ProbeSet` (one sample). `AtUTC` is a `time.Time`, carried as a number. -/
structure ProbeSet where
  AtUTC : Int := 0
  AtSec : Int := 0
  ExitV4 : ExitInfo := {}
  ExitV6 : ExitInfo := {}
  DNSRecursors : List String := []
  StunObserved : List String := []
  Online : Bool := false
  Notes : List String := []
deriving DecidableEq, Repr

/-- Struct `ExitDelta`. -/
structure ExitDelta where
  Family : String := ""
  From : ExitInfo := {}
  To : ExitInfo := {}
  AtSec : Int := 0
deriving DecidableEq, Repr

/-- Struct `DNSDelta`. -/
structure DNSDelta where
  From : List String := []
  To : List String := []
  AtSec : Int := 0
deriving DecidableEq, Repr

/-- Struct `Verdict`. -/
structure Verdict where
  Overall : String := ""
  KillSwitch : String := ""
  Reason : String := ""
deriving DecidableEq, Repr

/-- Struct `RunReport`. `DNSDelta` and `OfflineAtSec` are nilable pointers in the source. -/
structure RunReport where
  RunID : String := ""
  StartedUTC : Int := 0
  Mode : RunMode := ""
  Duration : Int := 0
  Interval : Int := 0
  BaselineWin : Int := 0
  Baseline : ProbeSet := {}
  End : ProbeSet := {}
  ExitDeltas : List ExitDelta := []
  DNSDelta : Option DNSDelta := none
  OfflineAtSec : Option Int := none
  Notes : List String := []
  Probes : List ProbeSet := []
  Verdict : Verdict := {}
deriving DecidableEq, Repr

/-- Function `NewRunReport`; the two readings of the clock (`RunID` is the formatted
time, `StartedUTC` the time itself) are parameters. -/
def NewRunReport (runID : String) (startedUTC : Int) (mode : RunMode)
    (duration interval baselineWin : Int) : RunReport :=
  { RunID := runID, StartedUTC := startedUTC, Mode := mode, Duration := duration,
    Interval := interval, BaselineWin := baselineWin }

/-! ## internal/report/run.go: operations -/

/-- Method `(*ProbeSet).DeriveOnline`. -/
def ProbeSet.DeriveOnline (ps : ProbeSet) : ProbeSet :=
  if ps.ExitV4.IP ≠ "" ∧ ps.ExitV4.Error = "" then
    { ps with Online := true }
  else if ps.ExitV6.IP ≠ "" ∧ ps.ExitV6.Error = "" then
    { ps with Online := true }
  else if ps.StunObserved.length > 0 then
    { ps with Online := true }
  else
    { ps with Online := false }

/-- Method `(*RunReport).hasExitDelta`: the range loop with its early `return true`. -/
def hasExitDeltaLoop (family : String) : List ExitDelta → Bool
  | [] => false
  | d :: rest => if d.Family = family then true else hasExitDeltaLoop family rest

/-- Method `(*RunReport).hasExitDelta`. -/
def RunReport.hasExitDelta (r : RunReport) (family : String) : Bool :=
  hasExitDeltaLoop family r.ExitDeltas

/-- Method `(*RunReport).MaybeRecordExitDelta`: the ipv4 block, then the ipv6 block (which
sees the list as the ipv4 block left it). -/
def RunReport.MaybeRecordExitDelta (r : RunReport) (baseline current : ProbeSet) : RunReport :=
  let r1 : RunReport :=
    if baseline.ExitV4.IP ≠ "" ∧ current.ExitV4.IP ≠ "" ∧ baseline.ExitV4.IP ≠ current.ExitV4.IP then
      if !r.hasExitDelta "ipv4" then
        { r with ExitDeltas := r.ExitDeltas ++
            [{ Family := "ipv4", From := baseline.ExitV4, To := current.ExitV4,
               AtSec := current.AtSec }] }
      else r
    else r
  if baseline.ExitV6.IP ≠ "" ∧ current.ExitV6.IP ≠ "" ∧ baseline.ExitV6.IP ≠ current.ExitV6.IP then
    if !r1.hasExitDelta "ipv6" then
      { r1 with ExitDeltas := r1.ExitDeltas ++
          [{ Family := "ipv6", From := baseline.ExitV6, To := current.ExitV6,
             AtSec := current.AtSec }] }
    else r1
  else r1

/-- A Go `map[string]int` as an association list; a missing key reads as `0`. -/
abbrev CountMap := List (String × Int)

/-- Map read `m[k]` (zero value when absent). -/
def CountMap.get (m : CountMap) (k : String) : Int :=
  match m with
  | [] => 0
  | (k', v) :: rest => if k' = k then v else CountMap.get rest k

/-- Map write `m[k] = v`. -/
def CountMap.set (m : CountMap) (k : String) (v : Int) : CountMap :=
  match m with
  | [] => [(k, v)]
  | (k', v') :: rest => if k' = k then (k', v) :: rest else (k', v') :: CountMap.set rest k v

/-- First loop of `equalStringSets`: `ma[s]++` for every `s` of `a`. -/
def countUp (ma : CountMap) : List String → CountMap
  | [] => ma
  | s :: rest => countUp (ma.set s (ma.get s + 1)) rest

/-- Second loop of `equalStringSets`: `ma[s]--`, returning early (`none`) as soon as a
count goes below zero; `some ma` is the map after the loop ran to its end. -/
def countDown (ma : CountMap) : List String → Option CountMap
  | [] => some ma
  | s :: rest =>
    let ma1 := ma.set s (ma.get s - 1)
    if ma1.get s < 0 then none else countDown ma1 rest

/-- Function `equalStringSets`. -/
def equalStringSets (a b : List String) : Bool :=
  if a.length ≠ b.length then false
  else
    match countDown (countUp [] a) b with
    | none => false
    | some ma => ma.all (fun kv => kv.2 == 0)

/-- Method `(*RunReport).MaybeRecordDNSDelta`. -/
def RunReport.MaybeRecordDNSDelta (r : RunReport) (baseline current : ProbeSet) : RunReport :=
  if baseline.DNSRecursors.length = 0 ∨ current.DNSRecursors.length = 0 then r
  else if (!equalStringSets baseline.DNSRecursors current.DNSRecursors) ∧ r.DNSDelta = none then
    { r with DNSDelta := some { From := baseline.DNSRecursors, To := current.DNSRecursors,
                                AtSec := current.AtSec } }
  else r

/-- Method `(*RunReport).Finish`. -/
def RunReport.Finish (r : RunReport) : RunReport :=
  if r.Mode = RunModeKillSwitch ∧ !r.Baseline.Online then
    { r with Verdict :=
        { Overall := "INCONCLUSIVE", KillSwitch := "INCONCLUSIVE",
          Reason := "Baseline connectivity could not be established during the baseline window." } }
  else if r.Mode = RunModeVPNOnly then
    { r with Verdict :=
        { Overall := "OK", Reason := "VPN test completed (no kill-switch validation)." } }
  else if r.ExitDeltas.length > 0 then
    { r with Verdict :=
        { Overall := "FAIL", KillSwitch := "FAIL",
          Reason := "Exit IP changed during the test window (traffic observed outside the initial VPN exit)." } }
  else if r.OfflineAtSec ≠ none then
    { r with Verdict :=
        { Overall := "PASS", KillSwitch := "PASS",
          Reason := "Connectivity dropped during the test window (consistent with kill-switch behavior)." } }
  else
    { r with Verdict :=
        { Overall := "NOT TESTED", KillSwitch := "NOT TESTED",
          Reason := "No VPN drop/leak was observed during the test window. Disable VPN during the run to validate kill-switch behavior." } }

/-! ## internal/app/test.go: the run loop

`RunTest` reads the clock and the network. The embedding takes what those reads
produced as inputs: the identifier and start time given by the clock, the samples that
`takeProbeSet` returned in the iterations of the baseline loop, and those it returned in
the iterations of the main loop. -/

/-- Struct `TestOptions`; durations in nanoseconds. -/
structure TestOptions where
  Mode : RunMode := ""
  Duration : Int := 0
  Baseline : Int := 0
  Interval : Int := 0
  EnableSTUN : Bool := false
  StunServers : List String := []
deriving DecidableEq, Repr

/-- Go `time.Second`, in nanoseconds. -/
def timeSecond : Int := 1000000000

/-- The defaulting of the options at the start of `RunTest`. -/
def TestOptions.withDefaults (opt : TestOptions) : TestOptions :=
  let opt := if opt.Duration ≤ 0 then { opt with Duration := 30 * timeSecond } else opt
  let opt := if opt.Baseline ≤ 0 then { opt with Baseline := 5 * timeSecond } else opt
  if opt.Interval ≤ 0 then { opt with Interval := 1 * timeSecond } else opt

/-- One iteration of the baseline loop of `RunTest`, on the pair of the report `r` and the
local variable `baseline`; `ps` is the sample the iteration took. -/
def baselineStep (st : RunReport × ProbeSet) (ps : ProbeSet) : RunReport × ProbeSet :=
  let r : RunReport := { st.1 with Probes := st.1.Probes ++ [ps] }
  if ps.Online then ({ r with Baseline := ps }, ps) else (r, st.2)

/-- The baseline loop of `RunTest` over the samples it took. -/
def baselinePhase (r : RunReport) (baseline : ProbeSet) (samples : List ProbeSet) :
    RunReport × ProbeSet :=
  samples.foldl baselineStep (r, baseline)

/-- The block after the baseline loop: `if !baseline.Online { ... }`. -/
def markBaseline (r : RunReport) (baseline : ProbeSet) : RunReport :=
  if !baseline.Online then
    { r with Notes := r.Notes ++ ["baseline probes did not succeed (no connectivity or blocked)"],
             Baseline := baseline }
  else r

/-- The variables the main loop of `RunTest` updates. -/
structure MainState where
  r : RunReport := {}
  last : ProbeSet := {}
  consecutiveOffline : Int := 0
deriving DecidableEq, Repr

/-- One iteration of the main loop of `RunTest`; `ps` is the sample the iteration took. -/
def mainStep (baseline : ProbeSet) (st : MainState) (ps : ProbeSet) : MainState :=
  let r : RunReport := { st.r with Probes := st.r.Probes ++ [ps] }
  let last := ps
  let r := r.MaybeRecordExitDelta baseline ps
  let r := r.MaybeRecordDNSDelta baseline ps
  if baseline.Online ∧ !ps.Online then
    let consecutiveOffline := st.consecutiveOffline + 1
    if consecutiveOffline = 2 ∧ r.OfflineAtSec = none then
      { r := { r with OfflineAtSec := some ps.AtSec }, last := last,
        consecutiveOffline := consecutiveOffline }
    else
      { r := r, last := last, consecutiveOffline := consecutiveOffline }
  else
    { r := r, last := last, consecutiveOffline := 0 }

/-- The main loop of `RunTest` over the samples it took. -/
def mainPhase (baseline : ProbeSet) (st : MainState) (samples : List ProbeSet) : MainState :=
  samples.foldl (mainStep baseline) st

/-- Function `RunTest`. `runID` and `startedUTC` are the clock readings of `NewRunReport`,
`B` the samples of the baseline loop and `M` those of the main loop, in order. -/
def RunTest (runID : String) (startedUTC : Int) (opt : TestOptions) (B M : List ProbeSet) :
    RunReport :=
  let opt := opt.withDefaults
  let r := NewRunReport runID startedUTC opt.Mode opt.Duration opt.Interval opt.Baseline
  let (r, baseline) := baselinePhase r {} B
  let r := markBaseline r baseline
  let st := mainPhase baseline { r := r, last := {}, consecutiveOffline := 0 } M
  let r : RunReport := { st.r with End := st.last }
  r.Finish

/-! ## internal/leaks/stun.go: bytes, slices and the standard library pieces it uses -/

/-- Go `byte`. -/
abbrev Byte := Fin 256

/-- Go `[12]byte`, the transaction id. -/
abbrev TxID := Fin 12 → Byte

/-- Abnormal ends of a Go function: the two run-time panics of slice and index expressions,
and the exhaustion of the iteration budget of a modelled loop. -/
inductive Fault where
  | sliceBounds
  | indexRange
  | outOfFuel
deriving DecidableEq, Repr

/-- A Go `(string, error)` result: `addr ip` is `return ip, nil` and `fail msg` is
`return "", errors.New(msg)`. -/
inductive Ret where
  | addr (ip : String)
  | fail (msg : String)
deriving DecidableEq, Repr

deriving instance DecidableEq for Except

/-- Go slice expression `s[lo:hi]`, with its bounds check `lo <= hi <= len(s)`. -/
def slice (s : List Byte) (lo hi : Nat) : Except Fault (List Byte) :=
  if lo ≤ hi ∧ hi ≤ s.length then .ok ((s.drop lo).take (hi - lo)) else .error .sliceBounds

/-- Go slice expression `s[lo:]`, with its bounds check `lo <= len(s)`. -/
def sliceFrom (s : List Byte) (lo : Nat) : Except Fault (List Byte) :=
  if lo ≤ s.length then .ok (s.drop lo) else .error .sliceBounds

/-- Go index expression `s[i]`, with its bounds check. -/
def index (s : List Byte) (i : Nat) : Except Fault Byte :=
  match s[i]? with
  | some b => .ok b
  | none => .error .indexRange

/-- Go `binary.BigEndian.Uint16`. -/
def beUint16 (b : List Byte) : Except Fault Nat :=
  match b with
  | b0 :: b1 :: _ => .ok (b0.val * 256 + b1.val)
  | _ => .error .indexRange

/-- Go `binary.BigEndian.Uint32`. -/
def beUint32 (b : List Byte) : Except Fault Nat :=
  match b with
  | b0 :: b1 :: b2 :: b3 :: _ =>
    .ok (b0.val * 16777216 + b1.val * 65536 + b2.val * 256 + b3.val)
  | _ => .error .indexRange

/-- Go conversion `byte(x)` of an unsigned integer. -/
def toByte (x : Nat) : Byte := ⟨x % 256, Nat.mod_lt _ (by decide)⟩

/-- Go `binary.BigEndian.PutUint16` into a fresh 2-byte buffer. -/
def putUint16 (v : Nat) : List Byte := [toByte (v >>> 8), toByte v]

/-- Go `binary.BigEndian.PutUint32` into a fresh 4-byte buffer. -/
def putUint32 (v : Nat) : List Byte :=
  [toByte (v >>> 24), toByte (v >>> 16), toByte (v >>> 8), toByte v]

/-- Lower-case hexadecimal of a 16-bit field without leading zeros (`appendHex` of the Go
standard library). -/
def hexField (x : Nat) : String := String.mk (Nat.toDigits 16 x)

/-- The eight 16-bit fields of a 16-byte address. -/
def v6Fields : List Byte → List Nat
  | b0 :: b1 :: rest => (b0.val * 256 + b1.val) :: v6Fields rest
  | _ => []

/-- Length of the run of zero fields starting at the head. -/
def zeroRun : List Nat → Nat
  | 0 :: rest => zeroRun rest + 1
  | _ => 0

/-- The first longest run of at least two zero fields, as `(start, end)`; `(255, 255)` when
there is none: the search loop of the Go standard library's IPv6 formatting, `i` being
the index of the head of `fields`. -/
def longestZeroRun (i : Nat) (fields : List Nat) (best : Nat × Nat) : Nat × Nat :=
  match fields with
  | [] => best
  | f :: rest =>
    let l := zeroRun (f :: rest)
    let best := if l ≥ 2 ∧ l > best.2 - best.1 then (i, i + l) else best
    longestZeroRun (i + 1) rest best

/-- The output loop of the Go standard library's IPv6 formatting: fields in hexadecimal
separated by colons, the run `zs..ze` replaced by a double colon. -/
def appendFields (fields : List Nat) (zs ze : Nat) : Nat → Nat → String → String
  | 0, _, ret => ret
  | fuel + 1, i, ret =>
    if i < 8 then
      if i = zs then
        let ret := ret ++ "::"
        if ze ≥ 8 then ret
        else appendFields fields zs ze fuel (ze + 1) (ret ++ hexField (fields.getD ze 0))
      else
        let ret := if i > 0 then ret ++ ":" else ret
        appendFields fields zs ze fuel (i + 1) (ret ++ hexField (fields.getD i 0))
    else ret

/-- Dotted-decimal text of four bytes. -/
def dottedQuad (a b c d : Byte) : String :=
  toString a.val ++ "." ++ toString b.val ++ "." ++ toString c.val ++ "." ++ toString d.val

/-- Go `net.IP.String` of the standard library, for the two lengths `stun.go` builds:
a 4-byte address is dotted decimal; a 16-byte address that is IPv4-mapped
(`::ffff:a.b.c.d`) is printed as its dotted-decimal IPv4 form, any other 16-byte address
in the RFC 5952 text form. -/
def ipString (ip : List Byte) : String :=
  match ip with
  | [] => "<nil>"
  | [a, b, c, d] => dottedQuad a b c d
  | _ =>
    if ip.length = 16 then
      if ip.take 12 = [0, 0, 0, 0, 0, 0, 0, 0, 0, 0, 255, 255] then
        dottedQuad (ip.getD 12 0) (ip.getD 13 0) (ip.getD 14 0) (ip.getD 15 0)
      else
        let fields := v6Fields ip
        let z := longestZeroRun 0 fields (255, 255)
        appendFields fields z.1 z.2 8 0 ""
    else
      "?" ++ String.join (ip.map (fun b =>
        String.mk (Nat.toDigits 16 (b.val / 16) ++ Nat.toDigits 16 (b.val % 16))))

/-! ## internal/leaks/stun.go -/

/-- Constant `stunBindingRequest`. -/
def stunBindingRequest : Nat := 0x0001

/-- Constant `stunBindingResponse`. -/
def stunBindingResponse : Nat := 0x0101

/-- Constant `stunMagicCookie`. -/
def stunMagicCookie : Nat := 0x2112A442

/-- Constant `stunAttrXORMappedAddress`. -/
def stunAttrXORMappedAddress : Nat := 0x0020

/-- Constant `stunFamilyIPv4`. -/
def stunFamilyIPv4 : Byte := 0x01

/-- Constant `stunFamilyIPv6`. -/
def stunFamilyIPv6 : Byte := 0x02

/-- Function `buildBindingRequest`. -/
def buildBindingRequest (txid : TxID) : List Byte :=
  putUint16 stunBindingRequest ++ putUint16 0 ++ putUint32 stunMagicCookie ++ List.ofFn txid

/-- The IPv6 branch of `decodeXORMappedAddress` after its length check: the 16 bytes the
two loops write into `ip`. -/
def decodeIPv6Bytes (val : List Byte) (txid : TxID) : Except Fault (List Byte) := do
  let head ← (List.range 4).mapM (fun i => do
    let v ← index val (4 + i)
    pure (v ^^^ toByte (stunMagicCookie >>> (24 - 8 * i))))
  let tail ← (List.finRange 12).mapM (fun i => do
    let v ← index val (8 + i.val)
    pure (v ^^^ txid i))
  pure (head ++ tail)

/-- Function `decodeXORMappedAddress`. -/
def decodeXORMappedAddress (val : List Byte) (txid : TxID) : Except Fault Ret := do
  if val.length < 4 then
    return .fail "stun: xor-mapped-address too short"
  let fam ← index val 1
  let xport ← beUint16 (← slice val 2 4)
  let _port := (xport ^^^ (stunMagicCookie >>> 16)) % 65536
  if fam = stunFamilyIPv4 then
    if val.length < 8 then
      return .fail "stun: ipv4 addr too short"
    let xaddr ← beUint32 (← slice val 4 8)
    let addr := xaddr ^^^ stunMagicCookie
    let ip := putUint32 addr
    return .addr (ipString ip)
  else if fam = stunFamilyIPv6 then
    if val.length < 20 then
      return .fail "stun: ipv6 addr too short"
    let ip ← decodeIPv6Bytes val txid
    return .addr (ipString ip)
  else
    return .fail "stun: unsupported family"

/-- The attribute loop of `parseXORMappedAddress`; `fuel` bounds the number of
iterations. Leaving the loop (by its condition or by `break`) reaches the final
`return "", errors.New("stun: xor-mapped-address not found")`. -/
def scanAttrs (txid : TxID) : Nat → List Byte → Except Fault Ret
  | 0, attrs =>
    if attrs.length ≥ 4 then .error .outOfFuel
    else .ok (.fail "stun: xor-mapped-address not found")
  | fuel + 1, attrs => do
    if attrs.length ≥ 4 then
      let typ ← beUint16 (← slice attrs 0 2)
      let l ← beUint16 (← slice attrs 2 4)
      if 4 + l > attrs.length then
        return .fail "stun: xor-mapped-address not found"
      let val ← slice attrs 4 (4 + l)
      if typ = stunAttrXORMappedAddress then
        decodeXORMappedAddress val txid
      else
        let adv := 4 + l
        let adv := if adv % 4 ≠ 0 then adv + (4 - adv % 4) else adv
        let attrs ← sliceFrom attrs adv
        scanAttrs txid fuel attrs
    else
      return .fail "stun: xor-mapped-address not found"

/-- Function `parseXORMappedAddress`. -/
def parseXORMappedAddress (pkt : List Byte) (txid : TxID) : Except Fault Ret := do
  if pkt.length < 20 then
    return .fail "stun: short packet"
  let _msgType ← beUint16 (← slice pkt 0 2)
  let msgLen ← beUint16 (← slice pkt 2 4)
  if 20 + msgLen > pkt.length then
    return .fail "stun: invalid length"
  let cookie ← beUint32 (← slice pkt 4 8)
  if cookie ≠ stunMagicCookie then
    return .fail "stun: bad magic cookie"
  let attrs ← slice pkt 20 (20 + msgLen)
  scanAttrs txid attrs.length attrs

/-! ## internal/leaks/stun.go: the reflection client

`StunObservedIPs` talks to the network. The embedding takes, for each server of the list,
what the calls of one loop iteration produced. -/

/-- What one iteration of the loop of `StunObservedIPs` gets from its environment: the
server name, whether `DialContext`, `newTxID`, `Write` and `Read` returned an error, the
transaction id `newTxID` produced, and the bytes `buf[:n]` that `Read` delivered. -/
structure ServerTrace where
  server : String := ""
  dialErr : Bool := false
  txid : TxID := fun _ => 0
  txidErr : Bool := false
  writeErr : Bool := false
  readErr : Bool := false
  recv : List Byte := []

/-- The body of the loop of `StunObservedIPs` up to the parse: `none` is a `continue`,
`some ip` the address `parseXORMappedAddress` returned with a nil error. A panic of the
parser is a panic of the iteration. -/
def stunAttempt (io : ServerTrace) : Except Fault (Option String) :=
  if io.server = "" then .ok none
  else if io.dialErr then .ok none
  else if io.txidErr then .ok none
  else if io.writeErr then .ok none
  else if io.readErr ∨ io.recv.length < 20 then .ok none
  else
    match parseXORMappedAddress io.recv io.txid with
    | .error f => .error f
    | .ok (.fail _) => .ok none
    | .ok (.addr ip) => .ok (some ip)

/-- The loop of `StunObservedIPs` on the pair of `out` and the keys of `seen`. -/
def stunLoop : List ServerTrace → List String × List String → Except Fault (List String × List String)
  | [], st => .ok st
  | io :: rest, (out, seen) =>
    match stunAttempt io with
    | .error f => .error f
    | .ok none => stunLoop rest (out, seen)
    | .ok (some ip) =>
      if ip ≠ "" ∧ ip ∉ seen then stunLoop rest (out ++ [ip], ip :: seen)
      else stunLoop rest (out, seen)

/-- Function `StunObservedIPs`: `.ok (.ok out)` is `return out, nil`, `.ok (.error msg)` is
`return nil, errors.New(msg)`. -/
def StunObservedIPs (ios : List ServerTrace) : Except Fault (Except String (List String)) :=
  match stunLoop ios ([], []) with
  | .error f => .error f
  | .ok (out, _) =>
    if out.length = 0 then .ok (.error "no STUN responses") else .ok (.ok out)

/-! ## internal/app/test.go and internal/cli/cli.go: timeouts and options -/

/-- The timeout `takeProbeSet` gives the IPv4 exit lookup: `context.WithTimeout(ctx,
3*time.Second)`, in nanoseconds. -/
def exitV4Timeout : Int := 3 * timeSecond

/-- The timeout `takeProbeSet` gives the IPv6 exit lookup: `context.WithTimeout(ctx,
3*time.Second)`. -/
def exitV6Timeout : Int := 3 * timeSecond

/-- The timeout `takeProbeSet` gives the STUN reflection: `context.WithTimeout(ctx,
6*time.Second)`. -/
def stunTimeout : Int := 6 * timeSecond

/-- The options `runTest` of `cli.go` builds for `RunTest`: `nks` is the flag of that name,
`enableSTUN` and `stunServers` come from the common flags. -/
def cliTestOptions (nks : Bool) (enableSTUN : Bool) (stunServers : List String) : TestOptions :=
  let opt : TestOptions :=
    { Mode := RunModeKillSwitch, Duration := 30 * timeSecond, Baseline := 5 * timeSecond,
      Interval := 1 * timeSecond, EnableSTUN := enableSTUN, StunServers := stunServers }
  if nks then { opt with Mode := RunModeVPNOnly, Duration := 5 * timeSecond } else opt

/-! ## internal/leaks/ident_json.go: the ident lookup -/

/-- A value of Go type `any` as `encoding/json` puts it into a `map[string]any`: a string,
a `float64` (carried as the text `fmt.Sprintf("%.0f", t)` gives for it), or anything else
(bool, nil, array, object). -/
inductive JsonAny where
  | str (s : String)
  | num (rendered : String)
  | other
deriving DecidableEq, Repr

/-- A Go `map[string]any` as an association list. -/
abbrev AnyMap := List (String × JsonAny)

/-- Map read `v, ok := m[k]`: `none` is `ok == false`. -/
def AnyMap.get? (m : AnyMap) (k : String) : Option JsonAny :=
  match m with
  | [] => none
  | (k', v) :: rest => if k' = k then some v else AnyMap.get? rest k

/-- Go `unicode.IsSpace` of the standard library: the characters with the Unicode White
Space property. -/
def isSpace (c : Char) : Bool :=
  let n := c.toNat
  (9 ≤ n ∧ n ≤ 13) ∨ n = 0x20 ∨ n = 0x85 ∨ n = 0xA0 ∨ n = 0x1680 ∨ (0x2000 ≤ n ∧ n ≤ 0x200A)
    ∨ n = 0x2028 ∨ n = 0x2029 ∨ n = 0x202F ∨ n = 0x205F ∨ n = 0x3000

/-- Go `strings.TrimSpace` of the standard library: the string without its leading and
trailing white space. -/
def trimSpace (s : String) : String :=
  String.mk ((s.data.dropWhile isSpace).reverse.dropWhile isSpace).reverse

/-- Function `pickString` (its variadic `keys` as a list): the range loop with its
`continue` and its two `return`s. -/
def pickString (m : AnyMap) : List String → String
  | [] => ""
  | k :: keys =>
    match m.get? k with
    | none => pickString m keys
    | some (.str t) => if trimSpace t ≠ "" then trimSpace t else pickString m keys
    | some (.num rendered) => rendered
    | some .other => pickString m keys

/-- Struct `IdentInfo`, without its field `Raw` (the decoded JSON object), which no code
reads after `fetchIdentInfoFromHost` has filled the other fields from it. -/
structure IdentInfo where
  IP : String := ""
  Country : String := ""
  CountryCode : String := ""
  Region : String := ""
  City : String := ""
  ISP : String := ""
  ASN : String := ""
  Timezone : String := ""
deriving DecidableEq, Repr

/-- What one call of `fetchIdentInfoFromHost` gets from the standard library. A Go `error`
is the `Option` of its message (`none` is nil): `reqErr` is the error of
`http.NewRequestWithContext`, `doErr` that of `client.Do`, `readErr` that of `io.ReadAll`;
`statusCode` and `body` are the status and the bytes read from the response (as text), and
`unmarshal` is `json.Unmarshal` into a `map[string]any`. -/
structure HostTrace where
  reqErr : Option String := none
  doErr : Option String := none
  readErr : Option String := none
  statusCode : Int := 200
  body : String := ""
  unmarshal : String → Except String AnyMap := fun _ => .ok []

/-- Function `isLikelyIP`: `strings.Count(s, ".") == 3`, else `strings.Contains(s, ":")`. -/
def isLikelyIP (s : String) : Bool :=
  let s := trimSpace s
  if s.data.count '.' = 3 then true
  else if s.data.contains ':' then true
  else false

/-- The field extraction of `fetchIdentInfoFromHost`: the eight calls of `pickString` on
the decoded object and the block that fills an empty `ASN` from the key "as". -/
def identFields (raw : AnyMap) : IdentInfo :=
  let info : IdentInfo :=
    { IP := pickString raw ["ip", "ip_address", "address", "query"]
      Country := pickString raw ["country", "country_name"]
      CountryCode := pickString raw ["cc", "country_code", "countryCode"]
      Region := pickString raw ["region", "region_name", "regionName", "state"]
      City := pickString raw ["city", "town"]
      ISP := pickString raw ["isp", "org", "organization", "as_org"]
      ASN := pickString raw ["asn", "as", "as_number", "asNumber"]
      Timezone := pickString raw ["tz", "timezone", "time_zone", "timeZone"] }
  if info.ASN = "" then
    if pickString raw ["as"] ≠ "" then { info with ASN := pickString raw ["as"] } else info
  else info

/-- Function `fetchIdentInfoFromHost`, on what the calls for its URL returned. -/
def fetchIdentInfoFromHost (t : HostTrace) : IdentInfo × Option String :=
  match t.reqErr with
  | some e => ({}, some e)
  | none =>
    match t.doErr with
    | some e => ({}, some e)
    | none =>
      match t.readErr with
      | some e => ({}, some e)
      | none =>
        if t.statusCode < 200 ∨ t.statusCode > 299 then
          ({}, some ("http status " ++ toString t.statusCode))
        else
          let trimmed := trimSpace t.body
          if trimmed = "" then ({}, some "empty response body")
          else if trimmed.data.head? ≠ some '\x7b' then
            if isLikelyIP trimmed then ({ IP := trimmed }, none)
            else ({}, some "unexpected non-json response")
          else
            match t.unmarshal trimmed with
            | .error e => ({}, some e)
            | .ok raw =>
              let info := identFields raw
              if info.IP = "" then ({}, some "missing ip field in ident JSON")
              else (info, none)

/-- Go `strings.ToLower` of the standard library on ASCII text (`takeProbeSet` passes the
literals "ipv4" and "ipv6"); Go also lowers the letters outside ASCII. -/
def toLowerASCII (s : String) : String :=
  String.mk (s.data.map (fun c =>
    if 65 ≤ c.toNat ∧ c.toNat ≤ 90 then Char.ofNat (c.toNat + 32) else c))

/-- The `switch` of `FetchIdentInfo`: the hosts to ask, in order. -/
def identHosts (family : String) : List String :=
  if toLowerASCII family = "ipv4" then ["4.ident.me", "4.tnedi.me"]
  else if toLowerASCII family = "ipv6" then ["6.ident.me", "6.tnedi.me"]
  else ["ident.me", "tnedi.me"]

/-- The loop of `FetchIdentInfo` over the hosts and the lines after it; `client` gives, for
a URL, what the request to it returned, and `lastErr` is the variable of that name. -/
def fetchIdentLoop (client : String → HostTrace) :
    List String → Option String → IdentInfo × Option String
  | [], lastErr => ({}, some (lastErr.getD "ident fetch failed"))
  | host :: rest, _ =>
    match fetchIdentInfoFromHost (client ("https://" ++ host ++ "/json")) with
    | (info, none) => (info, none)
    | (_, some e) => fetchIdentLoop client rest (some e)

/-- Function `FetchIdentInfo`. -/
def FetchIdentInfo (client : String → HostTrace) (family : String) :
    IdentInfo × Option String :=
  fetchIdentLoop client (identHosts family) none

/-! ## internal/app/test.go: one sampling tick -/

/-- Function `NewProbeSet`; the reading of the clock is a parameter. -/
def NewProbeSet (now : Int) : ProbeSet :=
  { AtUTC := now }

/-- Function `exitFromIdent`. A Go `error` is the `Option` of its message: `none` is nil. -/
def exitFromIdent (family : String) (info : IdentInfo) (err : Option String) : ExitInfo :=
  let out : ExitInfo := { Family := family, Source := "ident.me/json" }
  match err with
  | some msg => { out with Error := msg }
  | none =>
    { out with
      IP := info.IP
      Geo := { Country := info.Country, CountryCode := info.CountryCode, Region := info.Region,
               City := info.City, ISP := info.ISP, ASN := info.ASN, Timezone := info.Timezone } }

/-- What one call of `takeProbeSet` gets from its environment: the two readings of the
clock, what the requests of `ipv4Client` and of `ipv6Client` returned for each URL (the
second client is only used when the host has global IPv6), the result of
`LookupRecursorIPsViaIdentMe`, and the result of `StunObservedIPs` for the server list it is
called with. -/
structure TickInputs where
  atUTC : Int := 0
  atSec : Int := 0
  client4 : String → HostTrace := fun _ => {}
  client6 : String → HostTrace := fun _ => {}
  recursors : Except String (List String) := .ok []
  stun : List String → Except String (List String) := fun _ => .ok []

/-- Function `takeProbeSet`. -/
def takeProbeSet (hasIPv6 : Bool) (opt : TestOptions) (io : TickInputs) : ProbeSet :=
  let ps := NewProbeSet io.atUTC
  let ps := { ps with AtSec := io.atSec }
  let ps :=
    { ps with ExitV4 := exitFromIdent "ipv4" (FetchIdentInfo io.client4 "ipv4").1
                          (FetchIdentInfo io.client4 "ipv4").2 }
  let ps :=
    if hasIPv6 then
      { ps with ExitV6 := exitFromIdent "ipv6" (FetchIdentInfo io.client6 "ipv6").1
                            (FetchIdentInfo io.client6 "ipv6").2 }
    else { ps with ExitV6 := { Family := "ipv6", Source := "ident.me/json", Error := "disabled" } }
  let ps :=
    match io.recursors with
    | .ok ips => { ps with DNSRecursors := ips }
    | .error e => { ps with Notes := ps.Notes ++ ["ns.ident.me lookup failed: " ++ e] }
  let ps :=
    if opt.EnableSTUN then
      let servers := opt.StunServers
      let servers :=
        if servers.length = 0 then
          ["stun.l.google.com:19302", "stun1.l.google.com:19302", "stun2.l.google.com:19302"]
        else servers
      match io.stun servers with
      | .ok ips => { ps with StunObserved := ips }
      | .error e => { ps with Notes := ps.Notes ++ ["stun failed: " ++ e] }
    else ps
  ps.DeriveOnline

/-- Function `RunTest` with its samples taken by `takeProbeSet`: `iosB` is what the ticks of
the baseline loop got from the environment, `iosM` what those of the main loop got. -/
def RunTestTicks (runID : String) (startedUTC : Int) (hasIPv6 : Bool) (opt : TestOptions)
    (iosB iosM : List TickInputs) : RunReport :=
  RunTest runID startedUTC opt
    (iosB.map (takeProbeSet hasIPv6 opt.withDefaults))
    (iosM.map (takeProbeSet hasIPv6 opt.withDefaults))

/-! ## internal/report/model.go and internal/monitor/monitor.go: snapshots -/

/-- Struct `PublicIPResult`. -/
structure PublicIPResult where
  Source : String := ""
  Family : String := ""
  IP : String := ""
  Error : String := ""
deriving DecidableEq, Repr

/-- Struct `DnsLeakServer`. -/
structure DnsLeakServer where
  IPAddress : String := ""
  Hostname : String := ""
  ISP : String := ""
  City : String := ""
  Country : String := ""
deriving DecidableEq, Repr

/-- Struct `Snapshot`; `TimestampUTC` is a `time.Time`, carried as a number. -/
structure Snapshot where
  TimestampUTC : Int := 0
  PublicIPs : List PublicIPResult := []
  DnsRecursors : List String := []
  DnsLeak : List DnsLeakServer := []
  StunObserved : List String := []
  Notes : List String := []
deriving DecidableEq, Repr

/-- The loop of `samePublicIPs`: it walks `a` and reads `b` at the same index (the lists
have equal length when it runs). -/
def samePublicIPsLoop : List PublicIPResult → List PublicIPResult → Bool
  | x :: xs, y :: ys =>
    if x.Family ≠ y.Family ∨ x.IP ≠ y.IP ∨ x.Error ≠ y.Error then false
    else samePublicIPsLoop xs ys
  | _, _ => true

/-- Function `samePublicIPs`. -/
def samePublicIPs (a b : List PublicIPResult) : Bool :=
  if a.length ≠ b.length then false else samePublicIPsLoop a b

/-- Second loop of `sameStringSet`: return early (`none`) when the count of `s` is zero,
else `ma[s]--`; `some ma` is the map after the loop ran to its end. -/
def sameStringSetDown (ma : CountMap) : List String → Option CountMap
  | [] => some ma
  | s :: rest =>
    if ma.get s = 0 then none else sameStringSetDown (ma.set s (ma.get s - 1)) rest

/-- Function `sameStringSet` of `monitor.go`. -/
def sameStringSet (a b : List String) : Bool :=
  if a.length ≠ b.length then false
  else
    match sameStringSetDown (countUp [] a) b with
    | none => false
    | some ma => ma.all (fun kv => kv.2 == 0)

/-- The two loops of `sameDNSLeakIPs`: the non-empty `IPAddress` values, in order. -/
def leakIPs : List DnsLeakServer → List String
  | [] => []
  | s :: rest => if s.IPAddress ≠ "" then s.IPAddress :: leakIPs rest else leakIPs rest

/-- Function `sameDNSLeakIPs`. -/
def sameDNSLeakIPs (a b : List DnsLeakServer) : Bool :=
  sameStringSet (leakIPs a) (leakIPs b)

/-- Function `changed`. -/
def changed (a b : Snapshot) : Bool :=
  if !samePublicIPs a.PublicIPs b.PublicIPs then true
  else if !sameStringSet a.DnsRecursors b.DnsRecursors then true
  else if !sameStringSet a.StunObserved b.StunObserved then true
  else if !sameDNSLeakIPs a.DnsLeak b.DnsLeak then true
  else false

/-! ## Specification-side definitions

The functions below are not in the source: they say, in the words of the specification,
what the loops above are expected to compute, and the theorems compare the two. -/

/-- A sequence of calls `r.MaybeRecordExitDelta(baseline, s)`, one per sample, in order. -/
def recordExitDeltas (r : RunReport) (baseline : ProbeSet) (samples : List ProbeSet) : RunReport :=
  samples.foldl (fun r s => r.MaybeRecordExitDelta baseline s) r

/-- Both addresses are non-empty and they differ. -/
def ipDiffers (b c : ExitInfo) : Bool :=
  decide (b.IP ≠ "" ∧ c.IP ≠ "" ∧ b.IP ≠ c.IP)

/-- The entries of the report's `ExitDeltas` for one family. -/
def deltasOf (family : String) (r : RunReport) : List ExitDelta :=
  r.ExitDeltas.filter (fun d => decide (d.Family = family))

/-- What first-wins recording expects for one family: one delta, built from the first
sample whose address for the family (read by `sel`) differs from the baseline's, and no
delta when there is no such sample. -/
def firstDelta (family : String) (sel : ProbeSet → ExitInfo) (baseline : ProbeSet)
    (samples : List ProbeSet) : List ExitDelta :=
  match samples.find? (fun s => ipDiffers (sel baseline) (sel s)) with
  | some s => [{ Family := family, From := sel baseline, To := sel s, AtSec := s.AtSec }]
  | none => []

/-- The `AtSec` of the second sample of the first pair of adjacent offline samples, if
there is such a pair. -/
def firstOfflinePair : List ProbeSet → Option Int
  | a :: b :: rest =>
    if a.Online = false ∧ b.Online = false then some b.AtSec else firstOfflinePair (b :: rest)
  | _ => none

/-- No two adjacent samples are both offline. -/
def NoOfflinePair (samples : List ProbeSet) : Prop :=
  List.Chain' (fun a b => ¬ (a.Online = false ∧ b.Online = false)) samples

/-- The last online sample of a sequence, if any. -/
def lastOnline (samples : List ProbeSet) : Option ProbeSet :=
  (samples.filter (fun s => s.Online)).getLast?

/-- The last online sample of a sequence, or `d` when no sample is online. -/
def lastOnlineOr (d : ProbeSet) (samples : List ProbeSet) : ProbeSet :=
  (lastOnline samples).getD d

/-- The body length a packet declares in bytes 2..3 of its header. -/
def declaredLen (pkt : List Byte) : Nat :=
  (pkt.getD 2 0).val * 256 + (pkt.getD 3 0).val

/-- The declared body of a packet: the `declaredLen` bytes after the 20-byte header. -/
def declaredBody (pkt : List Byte) : List Byte :=
  (pkt.drop 20).take (declaredLen pkt)

/-- An attribute of the wire format: 2-byte type, 2-byte length, the value, and the bytes
that pad the value to a multiple of 4. -/
structure Attr where
  typ : Nat
  val : List Byte
  pad : List Byte
deriving DecidableEq, Repr

/-- Type and length fit their 16-bit fields and the padding completes the value to a multiple
of 4 bytes. -/
def Attr.WellFormed (a : Attr) : Prop :=
  a.typ < 65536 ∧ a.val.length < 65536 ∧ a.pad.length = (4 - a.val.length % 4) % 4

/-- The bytes of an attribute on the wire. -/
def Attr.encode (a : Attr) : List Byte :=
  putUint16 a.typ ++ putUint16 a.val.length ++ a.val ++ a.pad

/-- The bytes of a sequence of attributes on the wire. -/
def encodeAttrs : List Attr → List Byte
  | [] => []
  | a :: rest => a.encode ++ encodeAttrs rest

/-- The 16 address bytes of the IPv6 branch of `decodeXORMappedAddress`, written without
bounds checks: bytes 4..7 of the value XOR the cookie bytes, bytes 8..19 XOR the
transaction id. -/
def xorV6Bytes (val : List Byte) (txid : TxID) : List Byte :=
  (List.range 4).map (fun i => val.getD (4 + i) 0 ^^^ toByte (stunMagicCookie >>> (24 - 8 * i)))
    ++ (List.finRange 12).map (fun i => val.getD (8 + i.val) 0 ^^^ txid i)

/-- The result of `decodeXORMappedAddress` written without bounds checks; the theorem
`decodeXORMappedAddress_eq` shows that the source function returns exactly this, so none
of its slice and index expressions can fail. -/
def decodeClosed (val : List Byte) (txid : TxID) : Ret :=
  if val.length < 4 then .fail "stun: xor-mapped-address too short"
  else if val.getD 1 0 = stunFamilyIPv4 then
    if val.length < 8 then .fail "stun: ipv4 addr too short"
    else .addr (ipString (putUint32
      (((val.getD 4 0).val * 16777216 + (val.getD 5 0).val * 65536
          + (val.getD 6 0).val * 256 + (val.getD 7 0).val) ^^^ stunMagicCookie)))
  else if val.getD 1 0 = stunFamilyIPv6 then
    if val.length < 20 then .fail "stun: ipv6 addr too short"
    else .addr (ipString (xorV6Bytes val txid))
  else .fail "stun: unsupported family"

/-- Each distinct element once, at its first occurrence. -/
def keepFirst : List String → List String
  | [] => []
  | x :: xs => x :: (keepFirst xs).filter (fun y => decide (y ≠ x))

/-- The address one server contributes: the address its attempt decoded, if it did. -/
def attemptAddr (io : ServerTrace) : Option String :=
  match stunAttempt io with
  | .ok o => o
  | .error _ => none

/-- The report has at most one exit delta for every family. -/
def AtMostOnePerFamily (r : RunReport) : Prop :=
  ∀ family : String, (deltasOf family r).length ≤ 1

/-- Exactly one of the address and the error of an `ExitInfo` is non-empty. -/
def ExitInfo.ExactlyOne (e : ExitInfo) : Prop :=
  (e.IP ≠ "" ∧ e.Error = "") ∨ (e.IP = "" ∧ e.Error ≠ "")

/-- Whether exactly one of the address and the error is non-empty can be computed. -/
instance (e : ExitInfo) : Decidable e.ExactlyOne := by
  unfold ExitInfo.ExactlyOne
  infer_instance

/-- The non-empty addresses the servers contribute, in server order. -/
def contributed (ios : List ServerTrace) : List String :=
  (ios.filterMap attemptAddr).filter (fun ip => decide (ip ≠ ""))

/-- What the attribute scan is expected to return on a sequence of attributes: the decoding
of the value of the first attribute of type XOR-MAPPED-ADDRESS, and the error 'not found'
when there is none. -/
def scanSpec (txid : TxID) (attrs : List Attr) : Except Fault Ret :=
  match attrs.find? (fun a => decide (a.typ = stunAttrXORMappedAddress)) with
  | some a => decodeXORMappedAddress a.val txid
  | none => .ok (.fail "stun: xor-mapped-address not found")

/-- The value a key contributes to `pickString` on a map of strings: the trimmed string
when the key is present with a value that is not blank after trimming. -/
def pickCandidate (m : AnyMap) (k : String) : Option String :=
  match m.get? k with
  | some (.str t) => if trimSpace t ≠ "" then some (trimSpace t) else none
  | _ => none

/-- Two public-IP results agree on `Family`, `IP` and `Error`. -/
def PublicIPResult.Agrees (x y : PublicIPResult) : Prop :=
  x.Family = y.Family ∧ x.IP = y.IP ∧ x.Error = y.Error

/-- The fields of a `PublicIPResult` that `samePublicIPs` reads. -/
def PublicIPResult.compared (x : PublicIPResult) : String × String × String :=
  (x.Family, x.IP, x.Error)

/-- A sample's address for a family differs from the baseline's, in one of the two
families. -/
def leaks (b m : ProbeSet) : Bool :=
  ipDiffers b.ExitV4 m.ExitV4 || ipDiffers b.ExitV6 m.ExitV6


/-- The errors that the standard library calls of one request returned
(`http.NewRequestWithContext`, `client.Do`, `io.ReadAll`, `json.Unmarshal`) have non-empty
messages. -/
def HostTrace.LibErrorsNamed (t : HostTrace) : Prop :=
  t.reqErr ≠ some "" ∧ t.doErr ≠ some "" ∧ t.readErr ≠ some ""
    ∧ ∀ s, t.unmarshal s ≠ .error ""

/-- The eight 16-bit groups of a 16-byte address, most significant byte first. -/
def groupsOf (A : Fin 16 → Byte) : List Nat :=
  List.ofFn (fun i : Fin 8 =>
    (A ⟨2 * i.val, by omega⟩).val * 256 + (A ⟨2 * i.val + 1, by omega⟩).val)

/-- The address is IPv4-mapped: ten zero bytes, then two bytes `0xff`. -/
def IsV4Mapped (A : Fin 16 → Byte) : Prop :=
  (∀ i : Fin 16, i.val < 10 → A i = 0) ∧ A 10 = 255 ∧ A 11 = 255

/-- Whether an address is IPv4-mapped can be computed. -/
instance (A : Fin 16 → Byte) : Decidable (IsV4Mapped A) := by
  unfold IsV4Mapped
  infer_instance

/-- Lower-case hexadecimal text of a group, without leading zeros. -/
def hexGroup (x : Nat) : String := String.mk (Nat.toDigits 16 x)

/-- The groups in hexadecimal, separated by colons. -/
def colonJoined (gs : List Nat) : String := ":".intercalate (gs.map hexGroup)

/-- Every group with index in `s..e-1` exists and is zero. -/
def ZeroOn (gs : List Nat) (s e : Nat) : Prop :=
  ∀ i < e, s ≤ i → gs[i]? = some 0

/-- No run of at least two zero groups beats the run `s..e-1`: each is shorter, or as long
and not to its left. -/
def NoBetterRun (gs : List Nat) (s e : Nat) : Prop :=
  ∀ e2 ≤ gs.length, ∀ s2 < e2, s2 + 2 ≤ e2 → ZeroOn gs s2 e2 →
    e2 - s2 < e - s ∨ (e2 - s2 = e - s ∧ s ≤ s2)

/-- The groups `s..e-1` are the run that the text form of an IPv6 address replaces by a
double colon: the leftmost of the longest runs of at least two zero groups. -/
def CompressedRun (gs : List Nat) (s e : Nat) : Prop :=
  s + 2 ≤ e ∧ e ≤ gs.length ∧ ZeroOn gs s e ∧ NoBetterRun gs s e

/-- Whether a range of groups is zero can be computed. -/
instance (gs : List Nat) (s e : Nat) : Decidable (ZeroOn gs s e) := by
  unfold ZeroOn
  infer_instance

/-- Whether a run is unbeaten can be computed. -/
instance (gs : List Nat) (s e : Nat) : Decidable (NoBetterRun gs s e) := by
  unfold NoBetterRun
  infer_instance

/-- Whether a run is the compressed one can be computed. -/
instance (gs : List Nat) (s e : Nat) : Decidable (CompressedRun gs s e) := by
  unfold CompressedRun
  infer_instance

/-- What the search loop `longestZeroRun` knows after it has looked at the starts before
`i`: either it has found no run of at least two zero groups, or `best` is the leftmost of
the longest such runs that start before `i`. -/
def RunInv (gs : List Nat) (i : Nat) (best : Nat × Nat) : Prop :=
  (best = (255, 255)
    ∧ ∀ e2 ≤ gs.length, ∀ s2 < e2, s2 < i → s2 + 2 ≤ e2 → ¬ ZeroOn gs s2 e2)
  ∨ (best.1 + 2 ≤ best.2 ∧ best.2 ≤ gs.length ∧ best.1 < i ∧ ZeroOn gs best.1 best.2
    ∧ ∀ e2 ≤ gs.length, ∀ s2 < e2, s2 < i → s2 + 2 ≤ e2 → ZeroOn gs s2 e2 →
        e2 - s2 < best.2 - best.1 ∨ (e2 - s2 = best.2 - best.1 ∧ best.1 ≤ s2))

/-! ## Lemmas on the report operations -/

/-- The loop of `hasExitDelta` answers false exactly when the list has no entry of the family. -/
theorem hasExitDeltaLoop_eq_false (family : String) (ds : List ExitDelta) :
    hasExitDeltaLoop family ds = false ↔ ds.filter (fun d => decide (d.Family = family)) = [] := by
  induction ds with
  | nil => simp [hasExitDeltaLoop]
  | cons d ds ih =>
    by_cases h : d.Family = family
    · simp [hasExitDeltaLoop, h]
    · simp [hasExitDeltaLoop, h, ih]

/-- The loop of `hasExitDelta` on an appended list. -/
theorem hasExitDeltaLoop_append (family : String) (ds es : List ExitDelta) :
    hasExitDeltaLoop family (ds ++ es) = (hasExitDeltaLoop family ds || hasExitDeltaLoop family es) := by
  induction ds with
  | nil => simp [hasExitDeltaLoop]
  | cons d ds ih =>
    by_cases h : d.Family = family
    · simp [hasExitDeltaLoop, h]
    · simp [hasExitDeltaLoop, h, ih]

/-- The list of exit deltas after one call of `MaybeRecordExitDelta`: the old list, then
the ipv4 entry when it is due, then the ipv6 entry when it is due. -/
theorem maybeRecordExitDelta_list (r : RunReport) (b s : ProbeSet) :
    (r.MaybeRecordExitDelta b s).ExitDeltas =
      r.ExitDeltas
        ++ (if ipDiffers b.ExitV4 s.ExitV4 = true ∧ deltasOf "ipv4" r = [] then
              [{ Family := "ipv4", From := b.ExitV4, To := s.ExitV4, AtSec := s.AtSec }] else [])
        ++ (if ipDiffers b.ExitV6 s.ExitV6 = true ∧ deltasOf "ipv6" r = [] then
              [{ Family := "ipv6", From := b.ExitV6, To := s.ExitV6, AtSec := s.AtSec }] else []) := by
  have hf4 := hasExitDeltaLoop_eq_false "ipv4" r.ExitDeltas
  have hf6 := hasExitDeltaLoop_eq_false "ipv6" r.ExitDeltas
  have h46 : ("ipv4" : String) ≠ "ipv6" := by decide
  unfold RunReport.MaybeRecordExitDelta deltasOf ipDiffers RunReport.hasExitDelta
  by_cases h4 : b.ExitV4.IP ≠ "" ∧ s.ExitV4.IP ≠ "" ∧ b.ExitV4.IP ≠ s.ExitV4.IP <;>
  by_cases h6 : b.ExitV6.IP ≠ "" ∧ s.ExitV6.IP ≠ "" ∧ b.ExitV6.IP ≠ s.ExitV6.IP <;>
  cases hh4 : hasExitDeltaLoop "ipv4" r.ExitDeltas <;>
  cases hh6 : hasExitDeltaLoop "ipv6" r.ExitDeltas <;>
  simp only [hh4, hh6, Bool.true_eq_false, false_iff, true_iff] at hf4 hf6 <;>
  simp [h4, h6, hh4, hh6, hf4, hf6, hasExitDeltaLoop_append, hasExitDeltaLoop, h46]

/-- The ipv4 entries after one call of `MaybeRecordExitDelta`. -/
theorem deltasOf_ipv4_step (r : RunReport) (b s : ProbeSet) :
    deltasOf "ipv4" (r.MaybeRecordExitDelta b s) =
      if deltasOf "ipv4" r = [] then
        (if ipDiffers b.ExitV4 s.ExitV4 = true then
          [{ Family := "ipv4", From := b.ExitV4, To := s.ExitV4, AtSec := s.AtSec }] else [])
      else deltasOf "ipv4" r := by
  have h := maybeRecordExitDelta_list r b s
  unfold deltasOf at *
  rw [h]
  by_cases h4 : ipDiffers b.ExitV4 s.ExitV4 = true <;>
  by_cases h6 : ipDiffers b.ExitV6 s.ExitV6 = true <;>
  by_cases e4 : List.filter (fun d => decide (d.Family = "ipv4")) r.ExitDeltas = [] <;>
  by_cases e6 : List.filter (fun d => decide (d.Family = "ipv6")) r.ExitDeltas = [] <;>
  simp [h4, h6, e4, e6, List.filter_append]

/-- The ipv6 entries after one call of `MaybeRecordExitDelta`. -/
theorem deltasOf_ipv6_step (r : RunReport) (b s : ProbeSet) :
    deltasOf "ipv6" (r.MaybeRecordExitDelta b s) =
      if deltasOf "ipv6" r = [] then
        (if ipDiffers b.ExitV6 s.ExitV6 = true then
          [{ Family := "ipv6", From := b.ExitV6, To := s.ExitV6, AtSec := s.AtSec }] else [])
      else deltasOf "ipv6" r := by
  have h := maybeRecordExitDelta_list r b s
  unfold deltasOf at *
  rw [h]
  by_cases h4 : ipDiffers b.ExitV4 s.ExitV4 = true <;>
  by_cases h6 : ipDiffers b.ExitV6 s.ExitV6 = true <;>
  by_cases e4 : List.filter (fun d => decide (d.Family = "ipv4")) r.ExitDeltas = [] <;>
  by_cases e6 : List.filter (fun d => decide (d.Family = "ipv6")) r.ExitDeltas = [] <;>
  simp [h4, h6, e4, e6, List.filter_append]

/-- The ipv4 entries after a sequence of calls of `MaybeRecordExitDelta`. -/
theorem deltasOf_ipv4_fold (b : ProbeSet) (samples : List ProbeSet) (r : RunReport) :
    deltasOf "ipv4" (recordExitDeltas r b samples) =
      if deltasOf "ipv4" r = [] then firstDelta "ipv4" ProbeSet.ExitV4 b samples
      else deltasOf "ipv4" r := by
  induction samples generalizing r with
  | nil =>
    simp only [recordExitDeltas, firstDelta, List.foldl_nil, List.find?_nil]
    split <;> simp_all
  | cons s rest ih =>
    have ih1 := ih (r.MaybeRecordExitDelta b s)
    simp only [recordExitDeltas, List.foldl_cons] at ih1 ⊢
    rw [ih1, deltasOf_ipv4_step]
    by_cases e4 : deltasOf "ipv4" r = [] <;>
    by_cases h4 : ipDiffers b.ExitV4 s.ExitV4 = true <;>
    simp [e4, h4, firstDelta, List.find?_cons]

/-- The ipv6 entries after a sequence of calls of `MaybeRecordExitDelta`. -/
theorem deltasOf_ipv6_fold (b : ProbeSet) (samples : List ProbeSet) (r : RunReport) :
    deltasOf "ipv6" (recordExitDeltas r b samples) =
      if deltasOf "ipv6" r = [] then firstDelta "ipv6" ProbeSet.ExitV6 b samples
      else deltasOf "ipv6" r := by
  induction samples generalizing r with
  | nil =>
    simp only [recordExitDeltas, firstDelta, List.foldl_nil, List.find?_nil]
    split <;> simp_all
  | cons s rest ih =>
    have ih1 := ih (r.MaybeRecordExitDelta b s)
    simp only [recordExitDeltas, List.foldl_cons] at ih1 ⊢
    rw [ih1, deltasOf_ipv6_step]
    by_cases e6 : deltasOf "ipv6" r = [] <;>
    by_cases h6 : ipDiffers b.ExitV6 s.ExitV6 = true <;>
    simp [e6, h6, firstDelta, List.find?_cons]

/-- Method `MaybeRecordExitDelta` changes no field but `ExitDeltas`. -/
theorem maybeRecordExitDelta_frame (r : RunReport) (b s : ProbeSet) :
    r.MaybeRecordExitDelta b s = { r with ExitDeltas := (r.MaybeRecordExitDelta b s).ExitDeltas } := by
  unfold RunReport.MaybeRecordExitDelta
  by_cases h4 : b.ExitV4.IP ≠ "" ∧ s.ExitV4.IP ≠ "" ∧ b.ExitV4.IP ≠ s.ExitV4.IP <;>
  by_cases h6 : b.ExitV6.IP ≠ "" ∧ s.ExitV6.IP ≠ "" ∧ b.ExitV6.IP ≠ s.ExitV6.IP <;>
  simp only [h4, h6, if_true, if_false] <;>
  split_ifs <;> rfl

/-- Method `MaybeRecordDNSDelta` changes no field but `DNSDelta`. -/
theorem maybeRecordDNSDelta_frame (r : RunReport) (b s : ProbeSet) :
    r.MaybeRecordDNSDelta b s = { r with DNSDelta := (r.MaybeRecordDNSDelta b s).DNSDelta } := by
  unfold RunReport.MaybeRecordDNSDelta
  split_ifs <;> rfl

/-- Method `Finish` changes no field but `Verdict`. -/
theorem finish_frame (r : RunReport) : r.Finish = { r with Verdict := r.Finish.Verdict } := by
  unfold RunReport.Finish
  split_ifs <;> rfl

/-- The report after one iteration of the main loop differs from the one before only in
`Probes`, `ExitDeltas`, `DNSDelta` and `OfflineAtSec`. -/
theorem mainStep_frame (b : ProbeSet) (st : MainState) (ps : ProbeSet) :
    (mainStep b st ps).r =
      { st.r with Probes := (mainStep b st ps).r.Probes,
                  ExitDeltas := (mainStep b st ps).r.ExitDeltas,
                  DNSDelta := (mainStep b st ps).r.DNSDelta,
                  OfflineAtSec := (mainStep b st ps).r.OfflineAtSec } := by
  unfold mainStep
  simp only
  generalize hr0 : ({ st.r with Probes := st.r.Probes ++ [ps] } : RunReport) = r0
  have h1 := maybeRecordExitDelta_frame r0 b ps
  generalize hr1 : r0.MaybeRecordExitDelta b ps = r1 at h1
  have h2 := maybeRecordDNSDelta_frame r1 b ps
  generalize hr2 : r1.MaybeRecordDNSDelta b ps = r2 at h2
  have : r2 = { st.r with Probes := r2.Probes, ExitDeltas := r2.ExitDeltas, DNSDelta := r2.DNSDelta,
                          OfflineAtSec := r2.OfflineAtSec } := by
    rw [h2, h1, ← hr0]
  split_ifs <;> simp only <;> rw [this]

/-- The main loop changes no field of the report but `Probes`, `ExitDeltas`, `DNSDelta` and
`OfflineAtSec`. -/
theorem mainPhase_frame (b : ProbeSet) (M : List ProbeSet) (st : MainState) :
    (mainPhase b st M).r =
      { st.r with Probes := (mainPhase b st M).r.Probes,
                  ExitDeltas := (mainPhase b st M).r.ExitDeltas,
                  DNSDelta := (mainPhase b st M).r.DNSDelta,
                  OfflineAtSec := (mainPhase b st M).r.OfflineAtSec } := by
  induction M generalizing st with
  | nil => rfl
  | cons s rest ih =>
    have h := ih (mainStep b st s)
    simp only [mainPhase, List.foldl_cons] at h ⊢
    rw [h, mainStep_frame b st s]

/-- Method `MaybeRecordExitDelta` leaves `OfflineAtSec` as it was. -/
theorem maybeRecordExitDelta_offline (r : RunReport) (b s : ProbeSet) :
    (r.MaybeRecordExitDelta b s).OfflineAtSec = r.OfflineAtSec := by
  rw [maybeRecordExitDelta_frame]

/-- Method `MaybeRecordDNSDelta` leaves `OfflineAtSec` as it was. -/
theorem maybeRecordDNSDelta_offline (r : RunReport) (b s : ProbeSet) :
    (r.MaybeRecordDNSDelta b s).OfflineAtSec = r.OfflineAtSec := by
  rw [maybeRecordDNSDelta_frame]

/-- The offline onset and the counter after one iteration of the main loop. -/
theorem mainStep_offline (b : ProbeSet) (st : MainState) (ps : ProbeSet) :
    (mainStep b st ps).r.OfflineAtSec =
        (if b.Online = true ∧ ps.Online = false then
          (if st.consecutiveOffline + 1 = 2 ∧ st.r.OfflineAtSec = none then some ps.AtSec
           else st.r.OfflineAtSec)
         else st.r.OfflineAtSec)
      ∧ (mainStep b st ps).consecutiveOffline =
        (if b.Online = true ∧ ps.Online = false then st.consecutiveOffline + 1 else 0) := by
  cases hb : b.Online <;> cases hp : ps.Online <;>
    simp [mainStep, hb, hp, maybeRecordDNSDelta_offline, maybeRecordExitDelta_offline]
  split_ifs <;> simp_all [maybeRecordDNSDelta_offline, maybeRecordExitDelta_offline]

/-- Once set, the offline onset is never changed by the main loop. -/
theorem mainPhase_latched (b : ProbeSet) (M : List ProbeSet) (st : MainState) (v : Int)
    (h : st.r.OfflineAtSec = some v) : (mainPhase b st M).r.OfflineAtSec = some v := by
  induction M generalizing st with
  | nil => exact h
  | cons s rest ih =>
    simp only [mainPhase, List.foldl_cons]
    apply ih
    rw [(mainStep_offline b st s).1]
    split_ifs <;> simp_all

/-- An online sample at the head is in no adjacent offline pair. -/
theorem firstOfflinePair_cons_online (s : ProbeSet) (rest : List ProbeSet) (h : s.Online = true) :
    firstOfflinePair (s :: rest) = firstOfflinePair rest := by
  cases rest with
  | nil => rfl
  | cons t rest => simp [firstOfflinePair, h]

/-- The offline onset after the main loop, from a state with no onset yet: with the counter at 0
it is the first adjacent offline pair of the samples, with the counter at 1 that of the
samples preceded by one offline sample. -/
theorem mainPhase_offline_aux (b : ProbeSet) (hb : b.Online = true) (M : List ProbeSet) :
    ∀ st : MainState, st.r.OfflineAtSec = none →
      (st.consecutiveOffline = 0 → (mainPhase b st M).r.OfflineAtSec = firstOfflinePair M)
      ∧ (st.consecutiveOffline = 1 → ∀ p : ProbeSet, p.Online = false →
          (mainPhase b st M).r.OfflineAtSec = firstOfflinePair (p :: M)) := by
  induction M with
  | nil =>
    intro st h
    exact ⟨fun _ => by simpa [mainPhase, firstOfflinePair] using h,
           fun _ p _ => by simpa [mainPhase, firstOfflinePair] using h⟩
  | cons s rest ih =>
    intro st h
    have hs := mainStep_offline b st s
    simp only [mainPhase, List.foldl_cons]
    cases hon : s.Online
    · -- the sample is offline
      simp only [hb, hon, h, and_self, and_true, if_true] at hs
      constructor
      · intro h0
        rw [h0] at hs
        have := ih (mainStep b st s) (by rw [hs.1]; simp)
        exact (this.2 (by rw [hs.2]; rfl)) s hon
      · intro h1 p hp
        rw [h1] at hs
        have hl := mainPhase_latched b rest (mainStep b st s) s.AtSec (by rw [hs.1]; simp)
        simp only [mainPhase] at hl
        rw [hl]
        simp [firstOfflinePair, hp, hon]
    · -- the sample is online
      simp only [hb, hon, and_false, if_false, Bool.true_eq_false] at hs
      have := (ih (mainStep b st s) (by rw [hs.1]; exact h)).1 hs.2
      simp only [mainPhase] at this
      constructor
      · intro _
        rw [this, firstOfflinePair_cons_online s rest hon]
      · intro _ p _
        rw [this]
        simp [firstOfflinePair, hon, firstOfflinePair_cons_online s rest hon]

/-- There is no first adjacent offline pair exactly when no two adjacent samples are offline. -/
theorem firstOfflinePair_none_iff (M : List ProbeSet) :
    firstOfflinePair M = none ↔ NoOfflinePair M := by
  unfold NoOfflinePair
  induction M with
  | nil => simp [firstOfflinePair]
  | cons a rest ih =>
    cases rest with
    | nil => simp [firstOfflinePair]
    | cons c rest =>
      rw [List.chain'_cons, ← ih]
      by_cases h : a.Online = false ∧ c.Online = false
      · simp [firstOfflinePair, h]
      · simp only [firstOfflinePair, h, if_false, not_false_eq_true, true_and]

/-- The first adjacent offline pair splits the sequence: before its second sample no two
adjacent samples are offline. -/
theorem firstOfflinePair_some (M : List ProbeSet) (v : Int) (h : firstOfflinePair M = some v) :
    ∃ pre a c post, M = pre ++ a :: c :: post ∧ a.Online = false ∧ c.Online = false
      ∧ v = c.AtSec ∧ NoOfflinePair (pre ++ [a]) := by
  induction M with
  | nil => simp [firstOfflinePair] at h
  | cons a rest ih =>
    cases rest with
    | nil => simp [firstOfflinePair] at h
    | cons c rest =>
      by_cases hac : a.Online = false ∧ c.Online = false
      · simp only [firstOfflinePair, hac, and_self, if_true, Option.some.injEq] at h
        exact ⟨[], a, c, rest, rfl, hac.1, hac.2, h.symm, by simp [NoOfflinePair]⟩
      · simp only [firstOfflinePair, hac, if_false] at h
        obtain ⟨pre, a', c', post, hM, ha, hc, hv, hno⟩ := ih h
        refine ⟨a :: pre, a', c', post, by rw [hM]; rfl, ha, hc, hv, ?_⟩
        unfold NoOfflinePair at hno ⊢
        cases pre with
        | nil =>
          simp only [List.nil_append, List.cons.injEq] at hM
          simp only [List.nil_append, List.cons_append, List.chain'_cons, List.chain'_singleton, and_true]
          rw [← hM.1]; exact hac
        | cons p pre =>
          simp only [List.cons_append, List.cons.injEq] at hM
          simp only [List.cons_append, List.chain'_cons]
          refine ⟨?_, ?_⟩
          · rw [← hM.1]; exact hac
          · simpa using hno

/-- Further samples do not change the first adjacent offline pair. -/
theorem firstOfflinePair_append (M M' : List ProbeSet) (v : Int) (h : firstOfflinePair M = some v) :
    firstOfflinePair (M ++ M') = some v := by
  induction M with
  | nil => simp [firstOfflinePair] at h
  | cons a rest ih =>
    cases rest with
    | nil => simp [firstOfflinePair] at h
    | cons c rest =>
      by_cases hac : a.Online = false ∧ c.Online = false
      · simp only [firstOfflinePair, hac, and_self, if_true] at h
        simp [firstOfflinePair, hac, h]
      · simp only [firstOfflinePair, hac, if_false] at h
        have := ih h
        simp only [List.cons_append, firstOfflinePair, hac, if_false] at this ⊢
        exact this

/-- The last online sample of a sequence, by its first element. -/
theorem lastOnline_cons (s : ProbeSet) (rest : List ProbeSet) (d : ProbeSet) :
    lastOnlineOr d (s :: rest) = lastOnlineOr (if s.Online = true then s else d) rest := by
  unfold lastOnlineOr lastOnline
  cases hs : s.Online
  · simp [List.filter_cons, hs]
  · simp only [List.filter_cons, hs, if_true]
    cases hf : List.filter (fun s => s.Online) rest with
    | nil => simp
    | cons x xs => simp [List.getLast?_eq_getLast _ (List.cons_ne_nil x xs)]

/-- The baseline loop appends its samples to `Probes` and leaves `r.Baseline` and the local
`baseline` at the last online sample, or as they were when no sample is online. -/
theorem baselinePhase_eq (B : List ProbeSet) (r : RunReport) (b0 : ProbeSet) :
    baselinePhase r b0 B =
      ({ r with Probes := r.Probes ++ B, Baseline := lastOnlineOr r.Baseline B },
       lastOnlineOr b0 B) := by
  induction B generalizing r b0 with
  | nil => simp [baselinePhase, lastOnlineOr, lastOnline]
  | cons s rest ih =>
    simp only [baselinePhase, List.foldl_cons] at ih ⊢
    rw [lastOnline_cons, lastOnline_cons]
    cases hs : s.Online
    · simp only [baselineStep, hs, Bool.false_eq_true, if_false]
      rw [ih]
      simp
    · simp only [baselineStep, hs, if_true]
      rw [ih]
      simp

/-- A sequence with an online sample has a last online sample, which is online and in it. -/
theorem lastOnline_isSome (B : List ProbeSet) (h : ∃ s ∈ B, s.Online = true) :
    ∃ b, lastOnline B = some b ∧ b.Online = true ∧ b ∈ B := by
  unfold lastOnline
  obtain ⟨s, hs, hon⟩ := h
  have hne : B.filter (fun s => s.Online) ≠ [] := by
    intro h0
    have : s ∈ B.filter (fun s => s.Online) := List.mem_filter.mpr ⟨hs, hon⟩
    rw [h0] at this; simp at this
  refine ⟨(B.filter (fun s => s.Online)).getLast hne, List.getLast?_eq_getLast _ hne, ?_, ?_⟩
  · have := List.getLast_mem hne
    exact (List.mem_filter.mp this).2
  · have := List.getLast_mem hne
    exact (List.mem_filter.mp this).1

/-- A sequence of offline samples has no last online sample. -/
theorem lastOnline_none (B : List ProbeSet) (h : ∀ s ∈ B, s.Online = false) :
    lastOnline B = none := by
  unfold lastOnline
  have : B.filter (fun s => s.Online) = [] := by
    rw [List.filter_eq_nil_iff]
    intro s hs
    simp [h s hs]
  rw [this]; rfl

/-! ## Lemmas on the run loop -/

/-- `RunTest` with its baseline loop replaced by what the loop computes. -/
theorem runTest_eq (runID : String) (startedUTC : Int) (opt : TestOptions) (B M : List ProbeSet) :
    RunTest runID startedUTC opt B M =
      let o := opt.withDefaults
      let baseline := lastOnlineOr {} B
      let r0 := NewRunReport runID startedUTC o.Mode o.Duration o.Interval o.Baseline
      let r1 := markBaseline { r0 with Probes := B, Baseline := baseline } baseline
      let st := mainPhase baseline { r := r1, last := {}, consecutiveOffline := 0 } M
      ({ st.r with End := st.last } : RunReport).Finish := by
  simp only [RunTest, baselinePhase_eq, NewRunReport, List.nil_append]

/-- With an online baseline the block after the baseline loop changes nothing. -/
theorem markBaseline_online (r : RunReport) (b : ProbeSet) (h : b.Online = true) :
    markBaseline r b = r := by
  simp [markBaseline, h]

/-- One iteration of the main loop appends its sample to `Probes`. -/
theorem mainStep_probes (b : ProbeSet) (st : MainState) (ps : ProbeSet) :
    (mainStep b st ps).r.Probes = st.r.Probes ++ [ps] := by
  unfold mainStep
  simp only
  split_ifs <;> simp only <;> rw [maybeRecordDNSDelta_frame, maybeRecordExitDelta_frame]

/-- The main loop appends its samples to `Probes`, in order. -/
theorem mainPhase_probes (b : ProbeSet) (M : List ProbeSet) (st : MainState) :
    (mainPhase b st M).r.Probes = st.r.Probes ++ M := by
  induction M generalizing st with
  | nil => simp [mainPhase]
  | cons s rest ih =>
    have h := ih (mainStep b st s)
    simp only [mainPhase, List.foldl_cons] at h ⊢
    rw [h, mainStep_probes]
    simp

/-- The fields of the report returned by `RunTest` that the main loop and `Finish` leave
as the baseline phase set them. -/
theorem runTest_baseline_notes (runID : String) (startedUTC : Int) (opt : TestOptions)
    (B M : List ProbeSet) :
    (RunTest runID startedUTC opt B M).Baseline = lastOnlineOr {} B
    ∧ (RunTest runID startedUTC opt B M).Notes =
        (if (lastOnlineOr {} B).Online = true then []
         else ["baseline probes did not succeed (no connectivity or blocked)"])
    ∧ (RunTest runID startedUTC opt B M).Probes = B ++ M := by
  rw [runTest_eq]
  simp only
  rw [finish_frame, mainPhase_frame]
  simp only [mainPhase_probes]
  cases h : (lastOnlineOr {} B).Online <;> simp [markBaseline, h, NewRunReport]

/-- With an online sample in the baseline window, the offline onset of the report is the
second sample of the first adjacent offline pair of the main phase. -/
theorem runTest_offline (runID : String) (startedUTC : Int) (opt : TestOptions)
    (B M : List ProbeSet) (hB : ∃ s ∈ B, s.Online = true) :
    (RunTest runID startedUTC opt B M).OfflineAtSec = firstOfflinePair M := by
  obtain ⟨b, hb, hon, -⟩ := lastOnline_isSome B hB
  have hb' : lastOnlineOr {} B = b := by simp [lastOnlineOr, hb]
  rw [runTest_eq]
  simp only
  rw [finish_frame]
  simp only [hb', markBaseline_online _ _ hon]
  exact (mainPhase_offline_aux b hon M _ rfl).1 rfl

/-- A further online sample becomes the last online sample. -/
theorem lastOnline_append_online (B : List ProbeSet) (s : ProbeSet) (h : s.Online = true) :
    lastOnline (B ++ [s]) = some s := by
  simp [lastOnline, List.filter_append, h]

/-- A further offline sample leaves the last online sample as it was. -/
theorem lastOnline_append_offline (B : List ProbeSet) (s : ProbeSet) (h : s.Online = false) :
    lastOnline (B ++ [s]) = lastOnline B := by
  simp [lastOnline, List.filter_append, h]

/-! ## Lemmas on the STUN parser -/

/-- A loop whose body succeeds at every element succeeds with the mapped list. -/
theorem mapM_ok {α β ε : Type} (f : α → Except ε β) (g : α → β) (xs : List α)
    (h : ∀ x ∈ xs, f x = .ok (g x)) : xs.mapM f = .ok (xs.map g) := by
  induction xs with
  | nil => rfl
  | cons x xs ih =>
    rw [List.mapM_cons, h x (List.mem_cons_self x xs),
      ih (fun y hy => h y (List.mem_cons_of_mem x hy))]
    rfl

/-- An index expression within bounds reads the element. -/
theorem index_ok (s : List Byte) (i : Nat) (h : i < s.length) : index s i = .ok (s.getD i 0) := by
  simp [index, List.getD, List.getElem?_eq_getElem h]

/-- With at least 20 bytes of value the two IPv6 loops read within bounds. -/
theorem decodeIPv6Bytes_eq (val : List Byte) (txid : TxID) (h : 20 ≤ val.length) :
    decodeIPv6Bytes val txid = .ok (xorV6Bytes val txid) := by
  unfold decodeIPv6Bytes xorV6Bytes
  rw [mapM_ok _ (fun i => val.getD (4 + i) 0 ^^^ toByte (stunMagicCookie >>> (24 - 8 * i)))
        (List.range 4)
        (by intro i hi
            have : i < 4 := List.mem_range.mp hi
            rw [index_ok val (4 + i) (by omega)]; rfl),
      mapM_ok _ (fun i : Fin 12 => val.getD (8 + i.val) 0 ^^^ txid i) (List.finRange 12)
        (by intro i _
            rw [index_ok val (8 + i.val) (by omega)]; rfl)]
  rfl

/-- The function `decodeXORMappedAddress` never panics: it returns `decodeClosed`. -/
theorem decodeXORMappedAddress_eq (val : List Byte) (txid : TxID) :
    decodeXORMappedAddress val txid = .ok (decodeClosed val txid) := by
  unfold decodeXORMappedAddress decodeClosed
  by_cases h4 : val.length < 4
  · simp [h4]; rfl
  · obtain ⟨v0, v1, v2, v3, rest, rfl⟩ : ∃ v0 v1 v2 v3 rest, val = v0 :: v1 :: v2 :: v3 :: rest := by
      match val, h4 with
      | v0 :: v1 :: v2 :: v3 :: rest, _ => exact ⟨v0, v1, v2, v3, rest, rfl⟩
      | [], h | [_], h | [_, _], h | [_, _, _], h => simp at h
    have e4 : ¬ (rest.length + 1 + 1 + 1 + 1 < 4) := by omega
    have e64 : ¬ (stunFamilyIPv6 = stunFamilyIPv4) := by decide
    by_cases hf4 : v1 = stunFamilyIPv4
    · by_cases h8 : rest.length + 1 + 1 + 1 + 1 < 8
      · simp [index, slice, beUint16, bind, Except.bind, pure, Except.pure, hf4, h8, e4]
      · obtain ⟨v4, v5, v6, v7, rest', rfl⟩ :
            ∃ v4 v5 v6 v7 rest', rest = v4 :: v5 :: v6 :: v7 :: rest' := by
          match rest, h8 with
          | v4 :: v5 :: v6 :: v7 :: rest', _ => exact ⟨v4, v5, v6, v7, rest', rfl⟩
          | [], h | [_], h | [_, _], h | [_, _, _], h => simp at h
        have e8 : ¬ (rest'.length + 1 + 1 + 1 + 1 + 1 + 1 + 1 + 1 < 8) := by omega
        have e4' : ¬ (rest'.length + 1 + 1 + 1 + 1 + 1 + 1 + 1 + 1 < 4) := by omega
        simp [index, slice, beUint16, beUint32, bind, Except.bind, pure, Except.pure, hf4, e8, e4']
    · by_cases hf6 : v1 = stunFamilyIPv6
      · by_cases h20 : rest.length + 1 + 1 + 1 + 1 < 20
        · simp [index, slice, beUint16, bind, Except.bind, pure, Except.pure, hf6, h20, e4, e64]
        · have := decodeIPv6Bytes_eq (v0 :: stunFamilyIPv6 :: v2 :: v3 :: rest) txid
            (by simp only [List.length_cons]; omega)
          simp [index, slice, beUint16, bind, Except.bind, pure, Except.pure, hf6, h20, e4, e64,
            this]
      · simp [index, slice, beUint16, bind, Except.bind, pure, Except.pure, hf4, hf6, e4]

/-- XOR with the same byte twice gives the byte back. -/
theorem byte_xor_cancel (x k : Byte) : (x ^^^ k) ^^^ k = x := by
  apply Fin.ext
  have hx : x.val < 256 := x.isLt
  have hk : k.val < 256 := k.isLt
  have h1 : x.val ^^^ k.val < 256 := Nat.xor_lt_two_pow (n := 8) hx hk
  show ((x.val ^^^ k.val) % 256 ^^^ k.val) % 256 = x.val
  rw [Nat.mod_eq_of_lt h1, Nat.xor_assoc, Nat.xor_self, Nat.xor_zero, Nat.mod_eq_of_lt hx]

/-- Reading big-endian the four bytes `PutUint32` wrote gives the word back. -/
theorem be32_putUint32 (x : Nat) (h : x < 2 ^ 32) :
    (toByte (x >>> 24)).val * 16777216 + (toByte (x >>> 16)).val * 65536
      + (toByte (x >>> 8)).val * 256 + (toByte x).val = x := by
  simp only [toByte, Nat.shiftRight_eq_div_pow]
  omega

/-- Writing big-endian the word read from four bytes gives the bytes back. -/
theorem putUint32_be32 (a b c d : Byte) :
    putUint32 (a.val * 16777216 + b.val * 65536 + c.val * 256 + d.val) = [a, b, c, d] := by
  have ha := a.isLt
  have hb := b.isLt
  have hc := c.isLt
  have hd := d.isLt
  simp only [putUint32, toByte, Nat.shiftRight_eq_div_pow]
  refine congrArg₂ _ (Fin.ext ?_) (congrArg₂ _ (Fin.ext ?_) (congrArg₂ _ (Fin.ext ?_)
    (congrArg₂ _ (Fin.ext ?_) rfl))) <;> simp only <;> omega

/-- A big-endian word of four bytes is below `2^32`. -/
theorem be32_lt (a b c d : Byte) :
    a.val * 16777216 + b.val * 65536 + c.val * 256 + d.val < 2 ^ 32 := by
  have ha := a.isLt
  have hb := b.isLt
  have hc := c.isLt
  have hd := d.isLt
  omega

/-- The IPv6 loops undo the XOR encoding of a 16-byte address. -/
theorem xorV6Bytes_encoded (b0 b1 p1 p2 : Byte) (A : Fin 16 → Byte) (T : TxID) :
    xorV6Bytes
        ([b0, b1, p1, p2, A 0 ^^^ 0x21, A 1 ^^^ 0x12, A 2 ^^^ 0xA4, A 3 ^^^ 0x42]
          ++ List.ofFn (fun i : Fin 12 => A ⟨4 + i.val, by omega⟩ ^^^ T i)) T
      = List.ofFn A := by
  have c0 : toByte (stunMagicCookie >>> 24) = 0x21 := by decide
  have c1 : toByte (stunMagicCookie >>> 16) = 0x12 := by decide
  have c2 : toByte (stunMagicCookie >>> 8) = 0xA4 := by decide
  have c3 : toByte stunMagicCookie = 0x42 := by decide
  simp [xorV6Bytes, List.range, List.range.loop, List.finRange, List.ofFn_succ, c0, c1, c2, c3,
    byte_xor_cancel]
  repeat' apply And.intro
  all_goals rfl

/-- The padded advance of the attribute loop: `4 + l` rounded up to a multiple of 4. -/
theorem padded_advance (l : Nat) :
    (if l % 4 = 0 then 4 + l else 4 + l + (4 - l % 4)) = 4 + (l + 3) / 4 * 4 := by
  split_ifs <;> omega

/-- One iteration of the attribute loop on at least four bytes, with its slice expressions
resolved: the only one that can fail is the padded advance. -/
theorem scanAttrs_cons (txid : TxID) (fuel : Nat) (t0 t1 l0 l1 : Byte) (rest : List Byte) :
    scanAttrs txid (fuel + 1) (t0 :: t1 :: l0 :: l1 :: rest) =
      if l0.val * 256 + l1.val > rest.length then
        .ok (.fail "stun: xor-mapped-address not found")
      else if t0.val * 256 + t1.val = stunAttrXORMappedAddress then
        decodeXORMappedAddress (rest.take (l0.val * 256 + l1.val)) txid
      else if (l0.val * 256 + l1.val + 3) / 4 * 4 ≤ rest.length then
        scanAttrs txid fuel (rest.drop ((l0.val * 256 + l1.val + 3) / 4 * 4))
      else .error .sliceBounds := by
  rw [scanAttrs]
  simp [slice, beUint16, sliceFrom, bind, Except.bind, pure, Except.pure]
  simp only [padded_advance]
  generalize l0.val * 256 + l1.val = l
  by_cases h1 : rest.length < l
  · have : rest.length + 1 + 1 + 1 + 1 < 4 + l := by omega
    simp [h1, this]
  · have h1' : ¬ (rest.length + 1 + 1 + 1 + 1 < 4 + l) := by omega
    have h1'' : 4 + l ≤ rest.length + 1 + 1 + 1 + 1 := by omega
    simp only [h1, h1', h1'', if_true, if_false]
    by_cases h2 : t0.val * 256 + t1.val = stunAttrXORMappedAddress
    · simp [h2]
    · simp only [h2, if_false]
      by_cases h3 : (l + 3) / 4 * 4 ≤ rest.length
      · have : 4 + (l + 3) / 4 * 4 ≤ rest.length + 1 + 1 + 1 + 1 := by omega
        simp only [h3, this, if_true]
        rw [Nat.add_comm 4]
        rfl
      · have : ¬ (4 + (l + 3) / 4 * 4 ≤ rest.length + 1 + 1 + 1 + 1) := by omega
        simp only [h3, this, if_false]

/-- Fewer than four bytes end the loop, whatever the budget. -/
theorem scanAttrs_short (txid : TxID) (fuel : Nat) (attrs : List Byte) (h : attrs.length < 4) :
    scanAttrs txid fuel attrs = .ok (.fail "stun: xor-mapped-address not found") := by
  have h' : ¬ (attrs.length ≥ 4) := by omega
  cases fuel with
  | zero => simp [scanAttrs, h']
  | succ n => rw [scanAttrs]; simp [h']; rfl

/-- A list of at least four bytes starts with four bytes. -/
theorem exists_cons4 (attrs : List Byte) (h : 4 ≤ attrs.length) :
    ∃ t0 t1 l0 l1 rest, attrs = t0 :: t1 :: l0 :: l1 :: rest := by
  match attrs, h with
  | t0 :: t1 :: l0 :: l1 :: rest, _ => exact ⟨t0, t1, l0, l1, rest, rfl⟩

/-- Any two iteration budgets that cover the attribute bytes give the same result. -/
theorem scanAttrs_fuel (txid : TxID) (fuel1 : Nat) :
    ∀ (fuel2 : Nat) (attrs : List Byte), attrs.length < 4 * (fuel1 + 1) →
      attrs.length < 4 * (fuel2 + 1) → scanAttrs txid fuel1 attrs = scanAttrs txid fuel2 attrs := by
  induction fuel1 with
  | zero =>
    intro fuel2 attrs h1 _
    rw [scanAttrs_short txid 0 attrs (by omega), scanAttrs_short txid fuel2 attrs (by omega)]
  | succ n ih =>
    intro fuel2 attrs h1 h2
    by_cases hs : attrs.length < 4
    · rw [scanAttrs_short txid _ attrs hs, scanAttrs_short txid fuel2 attrs hs]
    · obtain ⟨t0, t1, l0, l1, rest, rfl⟩ := exists_cons4 attrs (by omega)
      cases fuel2 with
      | zero => simp at h2; omega
      | succ m =>
        rw [scanAttrs_cons, scanAttrs_cons]
        simp only [List.length_cons] at h1 h2
        have := ih m (rest.drop ((l0.val * 256 + l1.val + 3) / 4 * 4))
          (by rw [List.length_drop]; omega) (by rw [List.length_drop]; omega)
        rw [this]

/-- A list of at least eight bytes starts with eight bytes. -/
theorem exists_cons8 (l : List Byte) (h : 8 ≤ l.length) :
    ∃ a0 a1 a2 a3 a4 a5 a6 a7 rest, l = a0 :: a1 :: a2 :: a3 :: a4 :: a5 :: a6 :: a7 :: rest := by
  obtain ⟨a0, a1, a2, a3, r1, rfl⟩ := exists_cons4 l (by omega)
  obtain ⟨a4, a5, a6, a7, r2, rfl⟩ := exists_cons4 r1 (by simp only [List.length_cons] at h; omega)
  exact ⟨a0, a1, a2, a3, a4, a5, a6, a7, r2, rfl⟩

/-- `parseXORMappedAddress` with the header reads written out: none of them can fail once
the length guard has passed. -/
theorem parseXORMappedAddress_eq (pkt : List Byte) (txid : TxID) :
    parseXORMappedAddress pkt txid =
      if pkt.length < 20 then .ok (.fail "stun: short packet")
      else if pkt.length < 20 + declaredLen pkt then .ok (.fail "stun: invalid length")
      else if (pkt.drop 4).take 4 ≠ [0x21, 0x12, 0xA4, 0x42] then
        .ok (.fail "stun: bad magic cookie")
      else scanAttrs txid (declaredBody pkt).length (declaredBody pkt) := by
  unfold parseXORMappedAddress declaredBody declaredLen
  by_cases h20 : pkt.length < 20
  · simp [h20]; rfl
  · obtain ⟨a0, a1, a2, a3, a4, a5, a6, a7, rest, rfl⟩ := exists_cons8 pkt (by omega)
    simp only [List.length_cons] at h20
    have e20 : ¬ (rest.length + 1 + 1 + 1 + 1 + 1 + 1 + 1 + 1 < 20) := h20
    have hck : (a4.val * 16777216 + a5.val * 65536 + a6.val * 256 + a7.val = stunMagicCookie)
        ↔ (a4 = 33 ∧ a5 = 18 ∧ a6 = 164 ∧ a7 = 66) := by
      have h4 := a4.isLt
      have h5 := a5.isLt
      have h6 := a6.isLt
      have h7 := a7.isLt
      constructor
      · intro h
        simp only [stunMagicCookie] at h
        refine ⟨Fin.ext ?_, Fin.ext ?_, Fin.ext ?_, Fin.ext ?_⟩
        · change a4.val = 33; omega
        · change a5.val = 18; omega
        · change a6.val = 164; omega
        · change a7.val = 66; omega
      · rintro ⟨rfl, rfl, rfl, rfl⟩
        rfl
    simp [slice, beUint16, beUint32, bind, Except.bind, pure, Except.pure, e20]
    by_cases hl : rest.length + 1 + 1 + 1 + 1 + 1 + 1 + 1 + 1 < 20 + (a2.val * 256 + a3.val)
    · simp [hl]
    · have hl' : 20 + (a2.val * 256 + a3.val) ≤ rest.length + 1 + 1 + 1 + 1 + 1 + 1 + 1 + 1 := by
        omega
      simp only [hl, hl', if_true, if_false]
      by_cases hc : a4.val * 16777216 + a5.val * 65536 + a6.val * 256 + a7.val = stunMagicCookie
      · have hP : ¬ (a4 = 33 → a5 = 18 → a6 = 164 → ¬a7 = 66) := by
          obtain ⟨e4, e5, e6, e7⟩ := hck.mp hc
          intro h
          exact h e4 e5 e6 e7
        simp only [hc, hP, if_true, if_false]
        congr 1
        simp [List.length_take, List.length_drop]
      · have hP : a4 = 33 → a5 = 18 → a6 = 164 → ¬a7 = 66 :=
          fun e4 e5 e6 e7 => hc (hck.mpr ⟨e4, e5, e6, e7⟩)
        rw [if_neg hc, if_pos hP]

/-- Reading big-endian the two bytes `PutUint16` wrote gives the word back. -/
theorem be16_putUint16 (x : Nat) (h : x < 65536) :
    (toByte (x >>> 8)).val * 256 + (toByte x).val = x := by
  simp only [toByte, Nat.shiftRight_eq_div_pow]
  omega

/-- One iteration of the attribute loop steps over a well-formed attribute of another
type. -/
theorem scanAttrs_skip (txid : TxID) (fuel : Nat) (a : Attr) (more : List Byte)
    (hw : a.WellFormed) (ht : a.typ ≠ stunAttrXORMappedAddress) :
    scanAttrs txid (fuel + 1) (a.encode ++ more) = scanAttrs txid fuel more := by
  obtain ⟨h1, h2, h3⟩ := hw
  have e : a.encode ++ more =
      toByte (a.typ >>> 8) :: toByte a.typ :: toByte (a.val.length >>> 8) :: toByte a.val.length
        :: (a.val ++ a.pad ++ more) := by
    simp [Attr.encode, putUint16]
  rw [e, scanAttrs_cons, be16_putUint16 _ h1, be16_putUint16 _ h2]
  have hlen : (a.val ++ a.pad ++ more).length = a.val.length + a.pad.length + more.length := by
    simp only [List.length_append]
  have hadv : (a.val.length + 3) / 4 * 4 = a.val.length + a.pad.length := by omega
  rw [if_neg (by rw [hlen]; omega), if_neg ht, if_pos (by rw [hlen, hadv]; omega), hadv]
  congr 1
  rw [← List.length_append, List.drop_left]

/-- Every encoded attribute takes at least four bytes. -/
theorem encodeAttrs_length (pre : List Attr) : 4 * pre.length ≤ (encodeAttrs pre).length := by
  induction pre with
  | nil => simp [encodeAttrs]
  | cons a pre ih =>
    simp only [encodeAttrs, Attr.encode, putUint16, List.length_append, List.length_cons,
      List.length_nil]
    omega

/-- The attribute loop steps over a sequence of well-formed attributes of other types, one
iteration each. -/
theorem scanAttrs_skip_all (txid : TxID) (pre : List Attr) :
    ∀ (fuel : Nat) (more : List Byte), pre.length ≤ fuel →
      (∀ a ∈ pre, a.WellFormed ∧ a.typ ≠ stunAttrXORMappedAddress) →
      scanAttrs txid fuel (encodeAttrs pre ++ more) = scanAttrs txid (fuel - pre.length) more := by
  induction pre with
  | nil => intro fuel more _ _; simp [encodeAttrs]
  | cons a pre ih =>
    intro fuel more hf hp
    cases fuel with
    | zero => simp at hf
    | succ f =>
      have ha := hp a (List.mem_cons_self a pre)
      rw [encodeAttrs, List.append_assoc, scanAttrs_skip txid f a _ ha.1 ha.2,
        ih f more (by simpa using hf) (fun x hx => hp x (List.mem_cons_of_mem a hx))]
      simp

/-- With a budget covering the bytes, the loop returns or panics at the padded advance; it
never exhausts the budget. -/
theorem scanAttrs_ok_or_sliceBounds (txid : TxID) (fuel : Nat) :
    ∀ attrs : List Byte, attrs.length < 4 * (fuel + 1) →
      (∃ r, scanAttrs txid fuel attrs = .ok r) ∨ scanAttrs txid fuel attrs = .error .sliceBounds := by
  induction fuel with
  | zero =>
    intro attrs h
    exact Or.inl ⟨_, scanAttrs_short txid 0 attrs (by omega)⟩
  | succ n ih =>
    intro attrs h
    by_cases hs : attrs.length < 4
    · exact Or.inl ⟨_, scanAttrs_short txid _ attrs hs⟩
    · obtain ⟨t0, t1, l0, l1, rest, rfl⟩ := exists_cons4 attrs (by omega)
      rw [scanAttrs_cons]
      simp only [List.length_cons] at h
      split_ifs
      · exact Or.inl ⟨_, rfl⟩
      · exact Or.inl ⟨_, decodeXORMappedAddress_eq _ _⟩
      · exact ih _ (by rw [List.length_drop]; omega)
      · exact Or.inr rfl

/-- On a body whose length is a multiple of 4 the loop returns. -/
theorem scanAttrs_aligned (txid : TxID) (fuel : Nat) :
    ∀ attrs : List Byte, attrs.length < 4 * (fuel + 1) → attrs.length % 4 = 0 →
      ∃ r, scanAttrs txid fuel attrs = .ok r := by
  induction fuel with
  | zero =>
    intro attrs h _
    exact ⟨_, scanAttrs_short txid 0 attrs (by omega)⟩
  | succ n ih =>
    intro attrs h h4
    by_cases hs : attrs.length < 4
    · exact ⟨_, scanAttrs_short txid _ attrs hs⟩
    · obtain ⟨t0, t1, l0, l1, rest, rfl⟩ := exists_cons4 attrs (by omega)
      rw [scanAttrs_cons]
      simp only [List.length_cons] at h h4
      split_ifs with c1 c2 c3
      · exact ⟨_, rfl⟩
      · exact ⟨_, decodeXORMappedAddress_eq _ _⟩
      · exact ih _ (by rw [List.length_drop]; omega) (by rw [List.length_drop]; omega)
      · exfalso; omega

/-- The only run-time panic of `parseXORMappedAddress` is the slice expression of the padded
advance; the loop budget is never exhausted, and a declared body length that is a multiple
of 4 excludes the panic. -/
theorem parse_ok_or_sliceBounds (pkt : List Byte) (txid : TxID) :
    ((∃ r, parseXORMappedAddress pkt txid = .ok r)
        ∨ parseXORMappedAddress pkt txid = .error .sliceBounds)
    ∧ (declaredLen pkt % 4 = 0 → ∃ r, parseXORMappedAddress pkt txid = .ok r) := by
  rw [parseXORMappedAddress_eq]
  by_cases h1 : pkt.length < 20
  · simp [h1]
  by_cases h2 : pkt.length < 20 + declaredLen pkt
  · simp [h1, h2]
  by_cases h3 : (pkt.drop 4).take 4 ≠ [0x21, 0x12, 0xA4, 0x42]
  · simp only [if_neg h1, if_neg h2, if_pos h3]; simp
  simp only [if_neg h1, if_neg h2, if_neg h3]
  have hlen : (declaredBody pkt).length = declaredLen pkt := by
    simp [declaredBody, List.length_take, List.length_drop]; omega
  refine ⟨scanAttrs_ok_or_sliceBounds txid _ _ (by omega), fun h4 => ?_⟩
  exact scanAttrs_aligned txid _ _ (by omega) (by rw [hlen]; exact h4)

/-! ## Lemmas on the exit-delta invariant -/

/-- The entries of a family other than ipv4 and ipv6 are never touched. -/
theorem deltasOf_other_step (r : RunReport) (b s : ProbeSet) (family : String)
    (h4 : family ≠ "ipv4") (h6 : family ≠ "ipv6") :
    deltasOf family (r.MaybeRecordExitDelta b s) = deltasOf family r := by
  have h := maybeRecordExitDelta_list r b s
  have h4' : ¬ ("ipv4" = family) := fun e => h4 e.symm
  have h6' : ¬ ("ipv6" = family) := fun e => h6 e.symm
  unfold deltasOf at *
  rw [h]
  simp only [List.filter_append]
  split_ifs <;> simp [h4', h6']

/-- One call of `MaybeRecordExitDelta` keeps at most one entry per family. -/
theorem atMostOnePerFamily_step (r : RunReport) (b s : ProbeSet) (h : AtMostOnePerFamily r) :
    AtMostOnePerFamily (r.MaybeRecordExitDelta b s) := by
  intro family
  by_cases h4 : family = "ipv4"
  · subst h4
    rw [deltasOf_ipv4_step]
    split_ifs
    · simp
    · simp
    · exact h "ipv4"
  · by_cases h6 : family = "ipv6"
    · subst h6
      rw [deltasOf_ipv6_step]
      split_ifs
      · simp
      · simp
      · exact h "ipv6"
    · rw [deltasOf_other_step r b s family h4 h6]
      exact h family

/-- The exit deltas after the call depend on the report through its exit deltas only. -/
theorem maybeRecordExitDelta_congr (r r' : RunReport) (b s : ProbeSet)
    (h : r.ExitDeltas = r'.ExitDeltas) :
    (r.MaybeRecordExitDelta b s).ExitDeltas = (r'.MaybeRecordExitDelta b s).ExitDeltas := by
  rw [maybeRecordExitDelta_list, maybeRecordExitDelta_list]
  unfold deltasOf
  rw [h]

/-- The exit deltas after one iteration of the main loop. -/
theorem mainStep_exitDeltas (b : ProbeSet) (st : MainState) (ps : ProbeSet) :
    (mainStep b st ps).r.ExitDeltas = (st.r.MaybeRecordExitDelta b ps).ExitDeltas := by
  have e : (mainStep b st ps).r.ExitDeltas
      = (({ st.r with Probes := st.r.Probes ++ [ps] } : RunReport).MaybeRecordExitDelta b
          ps).ExitDeltas := by
    unfold mainStep
    simp only
    split_ifs <;> simp only <;> rw [maybeRecordDNSDelta_frame]
  rw [e]
  exact maybeRecordExitDelta_congr _ _ b ps rfl

/-- The exit deltas after the main loop are those of the calls of `MaybeRecordExitDelta`,
one per sample. -/
theorem mainPhase_exitDeltas (b : ProbeSet) (M : List ProbeSet) (st : MainState) :
    (mainPhase b st M).r.ExitDeltas = (recordExitDeltas st.r b M).ExitDeltas := by
  have key : ∀ (M : List ProbeSet) (st : MainState) (r : RunReport),
      st.r.ExitDeltas = r.ExitDeltas →
      (mainPhase b st M).r.ExitDeltas = (recordExitDeltas r b M).ExitDeltas := by
    intro M
    induction M with
    | nil => intro st r h; exact h
    | cons s rest ih =>
      intro st r h
      simp only [mainPhase, recordExitDeltas, List.foldl_cons] at ih ⊢
      apply ih
      rw [mainStep_exitDeltas]
      exact maybeRecordExitDelta_congr _ _ b s h
  exact key M st st.r rfl

/-- A sequence of calls of `MaybeRecordExitDelta` keeps at most one entry per family. -/
theorem atMostOnePerFamily_fold (b : ProbeSet) (M : List ProbeSet) (r : RunReport)
    (h : AtMostOnePerFamily r) : AtMostOnePerFamily (recordExitDeltas r b M) := by
  induction M generalizing r with
  | nil => exact h
  | cons s rest ih =>
    simp only [recordExitDeltas, List.foldl_cons] at ih ⊢
    exact ih _ (atMostOnePerFamily_step r b s h)

/-- The exit deltas of the report `RunTest` returns. -/
theorem runTest_exitDeltas (runID : String) (startedUTC : Int) (opt : TestOptions)
    (B M : List ProbeSet) :
    (RunTest runID startedUTC opt B M).ExitDeltas
      = (recordExitDeltas {} (lastOnlineOr {} B) M).ExitDeltas := by
  rw [runTest_eq]
  simp only
  rw [finish_frame]
  simp only
  rw [mainPhase_exitDeltas]
  have key : ∀ (M : List ProbeSet) (r r' : RunReport), r.ExitDeltas = r'.ExitDeltas →
      (recordExitDeltas r (lastOnlineOr {} B) M).ExitDeltas
        = (recordExitDeltas r' (lastOnlineOr {} B) M).ExitDeltas := by
    intro M
    induction M with
    | nil => intro r r' h; exact h
    | cons s rest ih =>
      intro r r' h
      simp only [recordExitDeltas, List.foldl_cons] at ih ⊢
      exact ih _ _ (maybeRecordExitDelta_congr _ _ _ s h)
  apply key
  unfold markBaseline NewRunReport
  split_ifs <;> rfl

/-! ## Lemmas on `equalStringSets` -/

/-- Reading a map after a write. -/
theorem CountMap.get_set (m : CountMap) (k : String) (v : Int) (k' : String) :
    (CountMap.set m k v).get k' = if k' = k then v else m.get k' := by
  induction m with
  | nil =>
    by_cases h : k' = k
    · simp [CountMap.set, CountMap.get, h]
    · have h' : ¬ k = k' := fun e => h e.symm
      simp [CountMap.set, CountMap.get, h, h']
  | cons e rest ih =>
    obtain ⟨ke, ve⟩ := e
    by_cases h1 : ke = k
    · by_cases h2 : k' = k
      · simp [CountMap.set, CountMap.get, h1, h2]
      · have h2' : ¬ k = k' := fun e => h2 e.symm
        simp [CountMap.set, CountMap.get, h1, h2, h2']
    · by_cases h2 : k' = k
      · subst h2
        simp [CountMap.set, CountMap.get, h1, ih]
      · by_cases h3 : ke = k'
        · simp [CountMap.set, CountMap.get, h1, h2, h3]
        · simp [CountMap.set, CountMap.get, h1, h2, h3, ih]

/-- The keys of a map after a write: a new key goes to the end. -/
theorem CountMap.keys_set (m : CountMap) (k : String) (v : Int) :
    (CountMap.set m k v).map Prod.fst
      = if k ∈ m.map Prod.fst then m.map Prod.fst else m.map Prod.fst ++ [k] := by
  induction m with
  | nil => simp [CountMap.set]
  | cons e rest ih =>
    obtain ⟨ke, ve⟩ := e
    by_cases h1 : ke = k
    · simp [CountMap.set, h1]
    · have h1' : ¬ k = ke := fun e => h1 e.symm
      by_cases h2 : k ∈ rest.map Prod.fst
      · simp only [CountMap.set, h1, if_false, List.map_cons, ih, h2, if_true, List.mem_cons,
          or_true]
      · simp only [CountMap.set, h1, if_false, List.map_cons, ih, h2, List.mem_cons, h1',
          or_self, List.cons_append]

/-- A write keeps the keys distinct. -/
theorem CountMap.nodup_set (m : CountMap) (k : String) (v : Int)
    (h : (m.map Prod.fst).Nodup) : ((CountMap.set m k v).map Prod.fst).Nodup := by
  rw [CountMap.keys_set]
  split_ifs with hk
  · exact h
  · rw [List.nodup_append]
    refine ⟨h, List.nodup_singleton k, ?_⟩
    intro x hx hx'
    rw [List.mem_singleton] at hx'
    subst hx'
    exact hk hx

/-- After the first loop of `equalStringSets` every count has grown by the occurrences in `a`. -/
theorem countUp_get (a : List String) : ∀ (m : CountMap) (k : String),
    (countUp m a).get k = m.get k + (a.count k : Int) := by
  induction a with
  | nil => intro m k; simp [countUp]
  | cons s rest ih =>
    intro m k
    rw [countUp, ih, CountMap.get_set, List.count_cons]
    by_cases h : k = s
    · subst h; simp; omega
    · have h' : ¬ s = k := fun e => h e.symm
      simp [h, h']

/-- The first loop of `equalStringSets` keeps the keys distinct. -/
theorem countUp_nodup (a : List String) : ∀ m : CountMap,
    (m.map Prod.fst).Nodup → ((countUp m a).map Prod.fst).Nodup := by
  induction a with
  | nil => intro m h; exact h
  | cons s rest ih =>
    intro m h
    rw [countUp]
    exact ih _ (CountMap.nodup_set m s _ h)

/-- When the second loop of `equalStringSets` runs to its end, every count has dropped by the
occurrences in `b`, and the keys are still distinct. -/
theorem countDown_some (b : List String) : ∀ (m m' : CountMap), countDown m b = some m' →
    (∀ k, m'.get k = m.get k - (b.count k : Int))
    ∧ ((m.map Prod.fst).Nodup → (m'.map Prod.fst).Nodup) := by
  induction b with
  | nil =>
    intro m m' h
    simp only [countDown, Option.some.injEq] at h
    subst h
    simp
  | cons s rest ih =>
    intro m m' h
    simp only [countDown] at h
    split_ifs at h with hneg
    obtain ⟨h1, h2⟩ := ih _ _ h
    constructor
    · intro k
      rw [h1, CountMap.get_set, List.count_cons]
      by_cases hk : k = s
      · subst hk; simp; omega
      · have h' : ¬ s = k := fun e => hk e.symm
        simp [hk, h']
    · intro hn
      exact h2 (CountMap.nodup_set m s _ hn)

/-- The second loop of `equalStringSets` runs to its end when no string occurs more often in `b`
than its count. -/
theorem countDown_ok (b : List String) : ∀ m : CountMap,
    (∀ k, (b.count k : Int) ≤ m.get k) → ∃ m', countDown m b = some m' := by
  induction b with
  | nil => intro m _; exact ⟨m, rfl⟩
  | cons s rest ih =>
    intro m h
    simp only [countDown]
    have hs := h s
    rw [List.count_cons_self] at hs
    have hge : ¬ ((CountMap.set m s (m.get s - 1)).get s < 0) := by
      rw [CountMap.get_set, if_pos rfl]
      push_cast at hs
      omega
    rw [if_neg hge]
    apply ih
    intro k
    rw [CountMap.get_set]
    have hk := h k
    rw [List.count_cons] at hk
    by_cases hks : k = s
    · subst hks
      simp at hk ⊢
      omega
    · have h' : ¬ s = k := fun e => hks e.symm
      simpa [hks, h'] using hk

/-- With distinct keys, an entry of the map is what reading its key returns. -/
theorem CountMap.get_of_mem (m : CountMap) (h : (m.map Prod.fst).Nodup) (k : String) (v : Int)
    (hm : (k, v) ∈ m) : m.get k = v := by
  induction m with
  | nil => simp at hm
  | cons e rest ih =>
    obtain ⟨ke, ve⟩ := e
    rw [List.map_cons, List.nodup_cons] at h
    rcases List.mem_cons.mp hm with heq | hrest
    · simp only [Prod.mk.injEq] at heq
      simp [CountMap.get, heq.1, heq.2]
    · have hne : ¬ ke = k := by
        intro e
        apply h.1
        rw [e]
        exact List.mem_map.mpr ⟨(k, v), hrest, rfl⟩
      simp only [CountMap.get, hne, if_false]
      exact ih h.2 hrest

/-- With distinct keys, the third loop of `equalStringSets` finds no non-zero value exactly when
every key reads as zero. -/
theorem CountMap.all_zero_iff (m : CountMap) (h : (m.map Prod.fst).Nodup) :
    m.all (fun kv => kv.2 == 0) = true ↔ ∀ k, m.get k = 0 := by
  constructor
  · intro hall k
    clear h
    induction m with
    | nil => rfl
    | cons e rest ih =>
      obtain ⟨ke, ve⟩ := e
      simp only [List.all_cons, Bool.and_eq_true, beq_iff_eq] at hall
      by_cases hk : ke = k
      · simp [CountMap.get, hk, hall.1]
      · simp only [CountMap.get, hk, if_false]
        exact ih hall.2
  · intro hz
    rw [List.all_eq_true]
    rintro ⟨k, v⟩ hm
    have := CountMap.get_of_mem m h k v hm
    rw [hz k] at this
    simp [← this]

/-- The function `equalStringSets` decides whether its arguments are permutations of each
other. -/
theorem equalStringSets_eq_true_iff (a b : List String) :
    equalStringSets a b = true ↔ a.Perm b := by
  have hnil : (([] : CountMap).map Prod.fst).Nodup := by simp
  have hup : ∀ k, (countUp [] a).get k = (a.count k : Int) := by
    intro k
    rw [countUp_get]
    simp [CountMap.get]
  constructor
  · intro h
    unfold equalStringSets at h
    split_ifs at h with hlen
    cases hcd : countDown (countUp [] a) b with
    | none => rw [hcd] at h; simp at h
    | some m' =>
      rw [hcd] at h
      simp only at h
      obtain ⟨hget, hnd⟩ := countDown_some b _ _ hcd
      have hz := (CountMap.all_zero_iff m' (hnd (countUp_nodup a [] hnil))).mp h
      rw [List.perm_iff_count]
      intro k
      have := hz k
      rw [hget, hup] at this
      omega
  · intro hp
    unfold equalStringSets
    rw [if_neg (by simp [hp.length_eq])]
    have hcount : ∀ k, a.count k = b.count k := fun k => hp.count_eq k
    obtain ⟨m', hcd⟩ := countDown_ok b (countUp [] a) (by
      intro k
      rw [hup, hcount])
    rw [hcd]
    simp only
    obtain ⟨hget, hnd⟩ := countDown_some b _ _ hcd
    rw [CountMap.all_zero_iff m' (hnd (countUp_nodup a [] hnil))]
    intro k
    rw [hget, hup, hcount]
    omega

/-! ## Lemmas on the attribute scan -/

/-- Reading a byte that is present. -/
theorem getD_of_getElem? (val : List Byte) (i : Nat) (f : Byte) (h : val[i]? = some f) :
    val.getD i 0 = f := by
  simp [List.getD, h]

/-- The loop stops at a well-formed XOR-MAPPED-ADDRESS attribute and decodes its value. -/
theorem scanAttrs_hit (txid : TxID) (fuel : Nat) (a : Attr) (more : List Byte)
    (hw : a.WellFormed) (ht : a.typ = stunAttrXORMappedAddress) :
    scanAttrs txid (fuel + 1) (a.encode ++ more) = decodeXORMappedAddress a.val txid := by
  obtain ⟨h1, h2, h3⟩ := hw
  have e : a.encode ++ more =
      toByte (a.typ >>> 8) :: toByte a.typ :: toByte (a.val.length >>> 8) :: toByte a.val.length
        :: (a.val ++ a.pad ++ more) := by
    simp [Attr.encode, putUint16]
  rw [e, scanAttrs_cons, be16_putUint16 _ h1, be16_putUint16 _ h2]
  have hlen : (a.val ++ a.pad ++ more).length = a.val.length + a.pad.length + more.length := by
    simp only [List.length_append]
  rw [if_neg (by rw [hlen]; omega), if_pos ht, List.append_assoc, List.take_left]

/-- On the bytes of a sequence of well-formed attributes the loop returns what `scanSpec` says. -/
theorem scanAttrs_encodeAttrs (txid : TxID) (attrs : List Attr) :
    ∀ fuel : Nat, attrs.length ≤ fuel → (∀ a ∈ attrs, a.WellFormed) →
      scanAttrs txid fuel (encodeAttrs attrs) = scanSpec txid attrs := by
  induction attrs with
  | nil =>
    intro fuel _ _
    rw [encodeAttrs, scanAttrs_short txid fuel [] (by simp)]
    rfl
  | cons a rest ih =>
    intro fuel hf hw
    cases fuel with
    | zero => simp at hf
    | succ f =>
      have ha := hw a (List.mem_cons_self a rest)
      by_cases ht : a.typ = stunAttrXORMappedAddress
      · rw [encodeAttrs, scanAttrs_hit txid f a _ ha ht]
        simp [scanSpec, List.find?_cons, ht]
      · rw [encodeAttrs, scanAttrs_skip txid f a _ ha ht,
          ih f (by simpa using hf) (fun x hx => hw x (List.mem_cons_of_mem a hx))]
        simp [scanSpec, List.find?_cons, ht]

/-! ## Lemmas on the reflection client -/

/-- The list `keepFirst l` has the elements of `l`. -/
theorem mem_keepFirst (l : List String) (x : String) : x ∈ keepFirst l ↔ x ∈ l := by
  induction l with
  | nil => simp [keepFirst]
  | cons y ys ih =>
    simp only [keepFirst, List.mem_cons, List.mem_filter, ih, decide_eq_true_eq]
    by_cases h : x = y
    · simp [h]
    · simp [h]

/-- The list `keepFirst l` has no duplicates. -/
theorem nodup_keepFirst (l : List String) : (keepFirst l).Nodup := by
  induction l with
  | nil => simp [keepFirst]
  | cons y ys ih =>
    simp only [keepFirst, List.nodup_cons, List.mem_filter, decide_eq_true_eq]
    exact ⟨fun h => h.2 rfl, ih.filter _⟩

/-- The list `keepFirst l` is empty exactly when `l` is. -/
theorem keepFirst_eq_nil (l : List String) : keepFirst l = [] ↔ l = [] := by
  cases l with
  | nil => simp [keepFirst]
  | cons y ys => simp [keepFirst]

/-- The contribution of an attempt that did not panic. -/
theorem attemptAddr_of_ok (io : ServerTrace) (o : Option String) (h : stunAttempt io = .ok o) :
    attemptAddr io = o := by
  simp [attemptAddr, h]

/-- The loop of `StunObservedIPs`, when no attempt panics, appends to `out` the first
occurrences of the contributed addresses that `out` does not hold yet. -/
theorem stunLoop_eq (ios : List ServerTrace) :
    ∀ (out seen : List String), (∀ x, x ∈ seen ↔ x ∈ out) →
      (∀ io ∈ ios, ∃ o, stunAttempt io = .ok o) →
      ∃ seen', stunLoop ios (out, seen)
        = .ok (out ++ (keepFirst (contributed ios)).filter (fun y => decide (y ∉ out)), seen') := by
  induction ios with
  | nil =>
    intro out seen _ _
    exact ⟨seen, by simp [stunLoop, contributed, keepFirst]⟩
  | cons io rest ih =>
    intro out seen hs h
    obtain ⟨o, ho⟩ := h io (List.mem_cons_self io rest)
    have hrest : ∀ io' ∈ rest, ∃ o, stunAttempt io' = .ok o :=
      fun io' hio => h io' (List.mem_cons_of_mem io hio)
    have hadr := attemptAddr_of_ok io o ho
    cases o with
    | none =>
      obtain ⟨seen', e⟩ := ih out seen hs hrest
      refine ⟨seen', ?_⟩
      simp only [stunLoop, ho]
      rw [e]
      simp [contributed, List.filterMap_cons, hadr]
    | some ip =>
      by_cases hip : ip = ""
      · obtain ⟨seen', e⟩ := ih out seen hs hrest
        refine ⟨seen', ?_⟩
        simp only [stunLoop, ho, hip, ne_eq, not_true_eq_false, false_and, if_false]
        rw [e]
        simp [contributed, List.filterMap_cons, hadr, hip]
      · have hc : contributed (io :: rest) = ip :: contributed rest := by
          simp [contributed, List.filterMap_cons, hadr, hip]
        by_cases hseen : ip ∈ seen
        · obtain ⟨seen', e⟩ := ih out seen hs hrest
          refine ⟨seen', ?_⟩
          have hout : ip ∈ out := (hs ip).mp hseen
          simp only [stunLoop, ho, hseen, not_true_eq_false, and_false, if_false]
          rw [e, hc]
          simp only [keepFirst, List.filter_cons, hout, not_true_eq_false, decide_False,
            Bool.false_eq_true, if_false, List.filter_filter]
          have hf : List.filter (fun a => decide (a ∉ out) && decide (a ≠ ip))
                (keepFirst (contributed rest))
              = List.filter (fun y => decide (y ∉ out)) (keepFirst (contributed rest)) := by
            apply List.filter_congr
            intro y _
            by_cases hy : y ∈ out
            · simp [hy]
            · have : y ≠ ip := fun e => hy (e ▸ hout)
              simp [hy, this]
          rw [hf]
        · have hout : ip ∉ out := fun e => hseen ((hs ip).mpr e)
          obtain ⟨seen', e⟩ := ih (out ++ [ip]) (ip :: seen)
            (by intro x; simp [hs x, or_comm]) hrest
          refine ⟨seen', ?_⟩
          simp only [stunLoop, ho, hseen, not_false_eq_true, and_true, ne_eq, hip, if_true]
          rw [e, hc]
          simp only [keepFirst, List.filter_cons, hout, not_false_eq_true, decide_True, if_true,
            List.filter_filter, List.append_assoc, List.singleton_append]
          have hf : List.filter (fun a => decide (a ∉ out) && decide (a ≠ ip))
                (keepFirst (contributed rest))
              = List.filter (fun y => decide (y ∉ out ++ [ip])) (keepFirst (contributed rest)) := by
            apply List.filter_congr
            intro y _
            by_cases hy : y ∈ out
            · simp [hy]
            · by_cases hyi : y = ip
              · simp [hy, hyi]
              · simp [hy, hyi]
          rw [hf]

/-- The result of `StunObservedIPs` when no attempt panics. -/
theorem stunObservedIPs_eq (ios : List ServerTrace)
    (h : ∀ io ∈ ios, ∃ o, stunAttempt io = .ok o) :
    StunObservedIPs ios =
      .ok (if contributed ios = [] then .error "no STUN responses"
           else .ok (keepFirst (contributed ios))) := by
  obtain ⟨seen', e⟩ := stunLoop_eq ios [] [] (by simp) h
  unfold StunObservedIPs
  rw [e]
  simp only [List.nil_append, List.not_mem_nil, not_false_eq_true, decide_True, List.filter_true]
  by_cases hc : contributed ios = []
  · simp [hc, keepFirst]
  · have : keepFirst (contributed ios) ≠ [] := fun e => hc ((keepFirst_eq_nil _).mp e)
    simp [hc, this]

/-- A parser panic in one iteration is a panic of `StunObservedIPs`. -/
theorem stunLoop_panics (pre : List ServerTrace) (io : ServerTrace) (post : List ServerTrace) (f : Fault)
    (hpre : ∀ x ∈ pre, ∃ o, stunAttempt x = .ok o) (hio : stunAttempt io = .error f) :
    StunObservedIPs (pre ++ io :: post) = .error f := by
  have key : ∀ (pre : List ServerTrace) (st : List String × List String),
      (∀ x ∈ pre, ∃ o, stunAttempt x = .ok o) →
      stunLoop (pre ++ io :: post) st = .error f := by
    intro pre
    induction pre with
    | nil =>
      intro st _
      obtain ⟨out, seen⟩ := st
      simp [stunLoop, hio]
    | cons x rest ih =>
      intro st hx
      obtain ⟨out, seen⟩ := st
      obtain ⟨o, ho⟩ := hx x (List.mem_cons_self x rest)
      have hr : ∀ y ∈ rest, ∃ o, stunAttempt y = .ok o :=
        fun y hy => hx y (List.mem_cons_of_mem x hy)
      cases o with
      | none => simp only [List.cons_append, stunLoop, ho]; exact ih _ hr
      | some ip =>
        simp only [List.cons_append, stunLoop, ho]
        split_ifs
        · exact ih _ hr
        · exact ih _ hr
  unfold StunObservedIPs
  rw [key pre _ hpre]

/-! ## Lemmas on the sampling tick -/

/-- Method `DeriveOnline` changes no field but `Online`. -/
theorem deriveOnline_frame (ps : ProbeSet) :
    ps.DeriveOnline = { ps with Online := ps.DeriveOnline.Online } := by
  unfold ProbeSet.DeriveOnline
  split_ifs <;> rfl

/-- The message of the status error is not empty. -/
theorem httpStatus_ne_empty (n : Int) : "http status " ++ toString n ≠ "" := by
  intro h
  have := congrArg String.length h
  simp only [String.length_append] at this
  have h12 : "http status ".length = 12 := by decide
  rw [h12] at this
  simp at this

/-- A request that `fetchIdentInfoFromHost` reports without error has a non-empty address:
the plain-text branch returns the trimmed body after the check that it is not empty, and
the JSON branch returns an error when the address field is empty. -/
theorem fetchIdentInfoFromHost_ok (t : HostTrace)
    (h : (fetchIdentInfoFromHost t).2 = none) : (fetchIdentInfoFromHost t).1.IP ≠ "" := by
  unfold fetchIdentInfoFromHost at h ⊢
  cases h1 : t.reqErr with
  | some e => simp [h1] at h
  | none =>
    cases h2 : t.doErr with
    | some e => simp [h1, h2] at h
    | none =>
      cases h3 : t.readErr with
      | some e => simp [h1, h2, h3] at h
      | none =>
        simp only [h1, h2, h3] at h ⊢
        by_cases c1 : t.statusCode < 200 ∨ t.statusCode > 299
        · rw [if_pos c1] at h
          simp at h
        · rw [if_neg c1] at h ⊢
          by_cases c2 : trimSpace t.body = ""
          · rw [if_pos c2] at h
            simp at h
          · rw [if_neg c2] at h ⊢
            by_cases c3 : (trimSpace t.body).data.head? ≠ some '\x7b'
            · rw [if_pos c3] at h ⊢
              by_cases c4 : isLikelyIP (trimSpace t.body) = true
              · rw [if_pos c4]
                exact c2
              · rw [if_neg c4] at h
                simp at h
            · rw [if_neg c3] at h ⊢
              generalize h5 : t.unmarshal (trimSpace t.body) = u at h ⊢
              cases u with
              | error e =>
                simp at h
              | ok raw =>
                simp only at h ⊢
                by_cases c6 : (identFields raw).IP = ""
                · simp only [if_pos c6] at h
                  simp at h
                · simp only [if_neg c6]
                  exact c6

/-- A request that `fetchIdentInfoFromHost` reports with an error gives the zero
`IdentInfo`, and the message is non-empty when those of the standard library are. -/
theorem fetchIdentInfoFromHost_err (t : HostTrace) (e : String)
    (h : (fetchIdentInfoFromHost t).2 = some e) :
    (fetchIdentInfoFromHost t).1 = {} ∧ (t.LibErrorsNamed → e ≠ "") := by
  unfold fetchIdentInfoFromHost at h ⊢
  unfold HostTrace.LibErrorsNamed
  cases h1 : t.reqErr with
  | some e1 =>
    simp only [h1, Option.some.injEq] at h ⊢
    subst h
    exact ⟨trivial, fun hl he => hl.1 (by rw [he])⟩
  | none =>
    cases h2 : t.doErr with
    | some e2 =>
      simp only [h1, h2, Option.some.injEq] at h ⊢
      subst h
      exact ⟨trivial, fun hl he => hl.2.1 (by rw [he])⟩
    | none =>
      cases h3 : t.readErr with
      | some e3 =>
        simp only [h1, h2, h3, Option.some.injEq] at h ⊢
        subst h
        exact ⟨trivial, fun hl he => hl.2.2.1 (by rw [he])⟩
      | none =>
        simp only [h1, h2, h3] at h ⊢
        by_cases c1 : t.statusCode < 200 ∨ t.statusCode > 299
        · rw [if_pos c1] at h ⊢
          simp only [Option.some.injEq] at h
          subst h
          exact ⟨rfl, fun _ => httpStatus_ne_empty _⟩
        · rw [if_neg c1] at h ⊢
          by_cases c2 : trimSpace t.body = ""
          · rw [if_pos c2] at h ⊢
            simp only [Option.some.injEq] at h
            subst h
            exact ⟨rfl, fun _ => by decide⟩
          · rw [if_neg c2] at h ⊢
            by_cases c3 : (trimSpace t.body).data.head? ≠ some '\x7b'
            · rw [if_pos c3] at h ⊢
              by_cases c4 : isLikelyIP (trimSpace t.body) = true
              · rw [if_pos c4] at h
                simp at h
              · rw [if_neg c4] at h ⊢
                simp only [Option.some.injEq] at h
                subst h
                exact ⟨rfl, fun _ => by decide⟩
            · rw [if_neg c3] at h ⊢
              generalize h5 : t.unmarshal (trimSpace t.body) = u at h ⊢
              cases u with
              | error e5 =>
                simp only [Option.some.injEq] at h ⊢
                subst h
                exact ⟨trivial, fun hl he => hl.2.2.2 (trimSpace t.body) (by rw [h5, he])⟩
              | ok raw =>
                simp only at h ⊢
                by_cases c6 : (identFields raw).IP = ""
                · simp only [if_pos c6, Option.some.injEq] at h ⊢
                  subst h
                  exact ⟨trivial, fun _ => by decide⟩
                · simp only [if_neg c6] at h
                  simp at h

/-- The loop of `FetchIdentInfo` returns without error only with a non-empty address; an
error it returns comes with the zero `IdentInfo`, and its message is non-empty when those of
the standard library are and the one carried in `lastErr` is. -/
theorem fetchIdentLoop_spec (client : String → HostTrace) (hosts : List String) :
    ∀ lastErr : Option String,
      ((fetchIdentLoop client hosts lastErr).2 = none →
        (fetchIdentLoop client hosts lastErr).1.IP ≠ "")
      ∧ ∀ e, (fetchIdentLoop client hosts lastErr).2 = some e →
          (fetchIdentLoop client hosts lastErr).1 = {}
          ∧ ((∀ url, (client url).LibErrorsNamed) → lastErr ≠ some "" → e ≠ "") := by
  induction hosts with
  | nil =>
    intro lastErr
    simp only [fetchIdentLoop]
    refine ⟨fun h => absurd h (by simp), ?_⟩
    intro e he
    simp only [Option.some.injEq] at he
    subst he
    refine ⟨trivial, fun _ hl => ?_⟩
    cases lastErr with
    | none => decide
    | some m =>
      intro hm
      apply hl
      simpa using hm
  | cons host rest ih =>
    intro lastErr
    simp only [fetchIdentLoop]
    generalize hr : fetchIdentInfoFromHost (client ("https://" ++ host ++ "/json")) = res
    obtain ⟨info, err⟩ := res
    cases err with
    | none =>
      simp only
      refine ⟨fun _ => ?_, fun e he => absurd he (by simp)⟩
      have := fetchIdentInfoFromHost_ok (client ("https://" ++ host ++ "/json")) (by rw [hr])
      rwa [hr] at this
    | some m =>
      simp only
      obtain ⟨a, b⟩ := ih (some m)
      refine ⟨a, fun e he => ⟨(b e he).1, fun hlib _ => (b e he).2 hlib ?_⟩⟩
      have := (fetchIdentInfoFromHost_err (client ("https://" ++ host ++ "/json")) m
        (by rw [hr])).2 (hlib _)
      intro hm
      apply this
      simpa using hm

/-- The result of `FetchIdentInfo`: no error comes with a non-empty address; an error comes
with the zero `IdentInfo`, and with a non-empty message when the messages of the standard
library errors are non-empty. -/
theorem fetchIdentInfo_spec (client : String → HostTrace) (family : String) :
    ((FetchIdentInfo client family).2 = none → (FetchIdentInfo client family).1.IP ≠ "")
    ∧ ∀ e, (FetchIdentInfo client family).2 = some e →
        (FetchIdentInfo client family).1 = {}
        ∧ ((∀ url, (client url).LibErrorsNamed) → e ≠ "") := by
  unfold FetchIdentInfo
  obtain ⟨a, b⟩ := fetchIdentLoop_spec client (identHosts family) none
  exact ⟨a, fun e he => ⟨(b e he).1, fun hlib => (b e he).2 hlib (by simp)⟩⟩

/-- The two exits of the sample `takeProbeSet` returns. -/
theorem takeProbeSet_exits (hasIPv6 : Bool) (opt : TestOptions) (io : TickInputs) :
    (takeProbeSet hasIPv6 opt io).ExitV4
        = exitFromIdent "ipv4" (FetchIdentInfo io.client4 "ipv4").1
            (FetchIdentInfo io.client4 "ipv4").2
    ∧ (takeProbeSet hasIPv6 opt io).ExitV6 =
        (if hasIPv6 = true then
          exitFromIdent "ipv6" (FetchIdentInfo io.client6 "ipv6").1
            (FetchIdentInfo io.client6 "ipv6").2
         else { Family := "ipv6", Source := "ident.me/json", Error := "disabled" }) := by
  unfold takeProbeSet
  simp only
  rw [deriveOnline_frame]
  cases hasIPv6 <;> cases hr : io.recursors <;> cases opt.EnableSTUN <;>
    simp only [Bool.false_eq_true, if_false, if_true, NewProbeSet] <;>
    (try split) <;> simp

/-- What `exitFromIdent` makes of a result of `FetchIdentInfo`: with no error, a non-empty
address and an empty error text; with an error, an empty address and the message of the
error as error text. -/
theorem exitFromIdent_fetch (family fam : String) (client : String → HostTrace) :
    ((FetchIdentInfo client fam).2 = none →
      (exitFromIdent family (FetchIdentInfo client fam).1 (FetchIdentInfo client fam).2).IP ≠ ""
      ∧ (exitFromIdent family (FetchIdentInfo client fam).1
          (FetchIdentInfo client fam).2).Error = "")
    ∧ (∀ msg, (FetchIdentInfo client fam).2 = some msg →
      (exitFromIdent family (FetchIdentInfo client fam).1 (FetchIdentInfo client fam).2).IP = ""
      ∧ (exitFromIdent family (FetchIdentInfo client fam).1
          (FetchIdentInfo client fam).2).Error = msg) := by
  obtain ⟨a, _⟩ := fetchIdentInfo_spec client fam
  constructor
  · intro h
    have := a h
    rw [h]
    exact ⟨this, rfl⟩
  · intro msg h
    rw [h]
    exact ⟨rfl, rfl⟩

/-- When the messages of the standard library errors are non-empty, `exitFromIdent` makes
of a result of `FetchIdentInfo` an `ExitInfo` with exactly one of the address and the error
non-empty. -/
theorem exitFromIdent_exactlyOne (family fam : String) (client : String → HostTrace)
    (hlib : ∀ url, (client url).LibErrorsNamed) :
    (exitFromIdent family (FetchIdentInfo client fam).1
      (FetchIdentInfo client fam).2).ExactlyOne := by
  obtain ⟨a, b⟩ := exitFromIdent_fetch family fam client
  cases h : (FetchIdentInfo client fam).2 with
  | none => exact Or.inl (by rw [← h]; exact a h)
  | some msg =>
    refine Or.inr ?_
    rw [← h]
    obtain ⟨b1, b2⟩ := b msg h
    exact ⟨b1, by rw [b2]; exact ((fetchIdentInfo_spec client fam).2 msg h).2 hlib⟩

/-- The sample `takeProbeSet` returns has two well-formed exits when the messages of the
standard library errors are non-empty. -/
theorem takeProbeSet_exactlyOne (hasIPv6 : Bool) (opt : TestOptions) (io : TickInputs)
    (h4 : ∀ url, (io.client4 url).LibErrorsNamed)
    (h6 : hasIPv6 = true → ∀ url, (io.client6 url).LibErrorsNamed) :
    (takeProbeSet hasIPv6 opt io).ExitV4.ExactlyOne
    ∧ (takeProbeSet hasIPv6 opt io).ExitV6.ExactlyOne := by
  obtain ⟨e4, e6⟩ := takeProbeSet_exits hasIPv6 opt io
  rw [e4, e6]
  refine ⟨exitFromIdent_exactlyOne "ipv4" "ipv4" io.client4 h4, ?_⟩
  cases hv : hasIPv6
  · exact Or.inr ⟨rfl, by simp⟩
  · exact exitFromIdent_exactlyOne "ipv6" "ipv6" io.client6 (h6 hv)

/-- The variable `last` after the main loop is the last sample it took. -/
theorem mainPhase_last (b : ProbeSet) (M : List ProbeSet) (st : MainState) :
    (mainPhase b st M).last = M.getLast?.getD st.last := by
  induction M generalizing st with
  | nil => rfl
  | cons s rest ih =>
    have h := ih (mainStep b st s)
    simp only [mainPhase, List.foldl_cons] at h ⊢
    rw [h]
    have hl : (mainStep b st s).last = s := by
      unfold mainStep
      simp only
      split_ifs <;> rfl
    rw [hl]
    cases rest with
    | nil => rfl
    | cons t rest => simp [List.getLast?_eq_getLast _ (List.cons_ne_nil t rest)]

/-- The `End` of the report `RunTest` returns is the last main-phase sample, or the zero
value when the main loop took none. -/
theorem runTest_end (runID : String) (startedUTC : Int) (opt : TestOptions)
    (B M : List ProbeSet) :
    (RunTest runID startedUTC opt B M).End = M.getLast?.getD {} := by
  rw [runTest_eq]
  simp only
  rw [finish_frame]
  simp only
  rw [mainPhase_last]

/-! ## Lemmas on the field extraction -/

/-- On a map whose values are all strings, a key that is present reads as a string. -/
theorem get?_str_of_strings (m : AnyMap) (h : ∀ kv ∈ m, ∃ s, kv.2 = .str s) (k : String)
    (v : JsonAny) (hv : m.get? k = some v) : ∃ s, v = .str s := by
  induction m with
  | nil => simp [AnyMap.get?] at hv
  | cons e rest ih =>
    obtain ⟨ke, ve⟩ := e
    by_cases hk : ke = k
    · simp only [AnyMap.get?, hk, if_true, Option.some.injEq] at hv
      subst hv
      exact h (ke, ve) (List.mem_cons_self _ _)
    · simp only [AnyMap.get?, hk, if_false] at hv
      exact ih (fun kv hkv => h kv (List.mem_cons_of_mem _ hkv)) hv

/-- One step of `pickString` on a map of strings: the candidate of the first key when
it has one, else the search goes on with the other keys. -/
theorem pickString_cons (m : AnyMap) (h : ∀ kv ∈ m, ∃ s, kv.2 = .str s) (k : String)
    (keys : List String) :
    pickString m (k :: keys) =
      match pickCandidate m k with
      | some v => v
      | none => pickString m keys := by
  unfold pickCandidate
  cases hg : m.get? k with
  | none => simp [pickString, hg]
  | some v =>
    obtain ⟨t, rfl⟩ := get?_str_of_strings m h k v hg
    by_cases ht : trimSpace t = ""
    · simp [pickString, hg, ht]
    · simp [pickString, hg, ht]

/-! ## Lemmas on the snapshot comparison -/

/-- When the second loop of `sameStringSet` runs to its end, every count went down by the
number of occurrences in `b`, and the keys stay distinct. -/
theorem sameStringSetDown_some (b : List String) : ∀ (m m' : CountMap),
    sameStringSetDown m b = some m' →
    (∀ k, m'.get k = m.get k - (b.count k : Int))
    ∧ ((m.map Prod.fst).Nodup → (m'.map Prod.fst).Nodup) := by
  induction b with
  | nil =>
    intro m m' h
    simp only [sameStringSetDown, Option.some.injEq] at h
    subst h
    simp
  | cons s rest ih =>
    intro m m' h
    simp only [sameStringSetDown] at h
    split_ifs at h with hz
    obtain ⟨h1, h2⟩ := ih _ _ h
    constructor
    · intro k
      rw [h1, CountMap.get_set, List.count_cons]
      by_cases hk : k = s
      · subst hk; simp; omega
      · have h' : ¬ s = k := fun e => hk e.symm
        simp [hk, h']
    · intro hn
      exact h2 (CountMap.nodup_set m s _ hn)

/-- The second loop of `sameStringSet` runs to its end when every string occurs in `b` at
most as often as the map counts it. -/
theorem sameStringSetDown_ok (b : List String) : ∀ m : CountMap,
    (∀ k, (b.count k : Int) ≤ m.get k) → ∃ m', sameStringSetDown m b = some m' := by
  induction b with
  | nil => intro m _; exact ⟨m, rfl⟩
  | cons s rest ih =>
    intro m h
    simp only [sameStringSetDown]
    have hs := h s
    rw [List.count_cons_self] at hs
    have hne : ¬ (m.get s = 0) := by
      push_cast at hs
      omega
    rw [if_neg hne]
    apply ih
    intro k
    rw [CountMap.get_set]
    have hk := h k
    rw [List.count_cons] at hk
    by_cases hks : k = s
    · subst hks
      simp at hk ⊢
      omega
    · have h' : ¬ s = k := fun e => hks e.symm
      simpa [hks, h'] using hk

/-- The function `sameStringSet` decides whether its arguments are permutations of each
other. -/
theorem sameStringSet_eq_true_iff (a b : List String) :
    sameStringSet a b = true ↔ a.Perm b := by
  have hnil : (([] : CountMap).map Prod.fst).Nodup := by simp
  have hup : ∀ k, (countUp [] a).get k = (a.count k : Int) := by
    intro k
    rw [countUp_get]
    simp [CountMap.get]
  constructor
  · intro h
    unfold sameStringSet at h
    split_ifs at h with hlen
    cases hcd : sameStringSetDown (countUp [] a) b with
    | none => rw [hcd] at h; simp at h
    | some m' =>
      rw [hcd] at h
      simp only at h
      obtain ⟨hget, hnd⟩ := sameStringSetDown_some b _ _ hcd
      have hz := (CountMap.all_zero_iff m' (hnd (countUp_nodup a [] hnil))).mp h
      rw [List.perm_iff_count]
      intro k
      have := hz k
      rw [hget, hup] at this
      omega
  · intro hp
    unfold sameStringSet
    rw [if_neg (by simp [hp.length_eq])]
    have hcount : ∀ k, a.count k = b.count k := fun k => hp.count_eq k
    obtain ⟨m', hcd⟩ := sameStringSetDown_ok b (countUp [] a) (by
      intro k
      rw [hup, hcount])
    rw [hcd]
    simp only
    obtain ⟨hget, hnd⟩ := sameStringSetDown_some b _ _ hcd
    rw [CountMap.all_zero_iff m' (hnd (countUp_nodup a [] hnil))]
    intro k
    rw [hget, hup, hcount]
    omega

/-- On lists of equal length the loop of `samePublicIPs` decides index-by-index
agreement. -/
theorem samePublicIPsLoop_iff (a : List PublicIPResult) : ∀ b : List PublicIPResult,
    a.length = b.length →
    (samePublicIPsLoop a b = true ↔ List.Forall₂ PublicIPResult.Agrees a b) := by
  induction a with
  | nil =>
    intro b hlen
    cases b with
    | nil => simp [samePublicIPsLoop]
    | cons y ys => simp at hlen
  | cons x xs ih =>
    intro b hlen
    cases b with
    | nil => simp at hlen
    | cons y ys =>
      simp only [List.length_cons, Nat.add_right_cancel_iff] at hlen
      rw [List.forall₂_cons, ← ih ys hlen]
      unfold PublicIPResult.Agrees
      by_cases h1 : x.Family = y.Family <;> by_cases h2 : x.IP = y.IP <;>
        by_cases h3 : x.Error = y.Error <;> simp [samePublicIPsLoop, h1, h2, h3]

/-- The function `samePublicIPs` decides whether the lists have equal length and agree
index by index. -/
theorem samePublicIPs_eq_true_iff (a b : List PublicIPResult) :
    samePublicIPs a b = true ↔ List.Forall₂ PublicIPResult.Agrees a b := by
  unfold samePublicIPs
  by_cases hlen : a.length = b.length
  · rw [if_neg (by simpa using hlen)]
    exact samePublicIPsLoop_iff a b hlen
  · rw [if_pos hlen]
    constructor
    · intro h; exact absurd h (by simp)
    · intro h; exact absurd h.length_eq hlen

/-- The two loops of `sameDNSLeakIPs` keep the non-empty `IPAddress` values. -/
theorem leakIPs_eq (l : List DnsLeakServer) :
    leakIPs l = (l.map DnsLeakServer.IPAddress).filter (fun s => decide (s ≠ "")) := by
  induction l with
  | nil => rfl
  | cons x xs ih =>
    by_cases h : x.IPAddress = ""
    · simp [leakIPs, h, ih]
    · simp [leakIPs, h, ih]

/-- The function `changed` is false exactly when its four comparisons succeed. -/
theorem changed_eq_false_iff (a b : Snapshot) :
    changed a b = false ↔
      List.Forall₂ PublicIPResult.Agrees a.PublicIPs b.PublicIPs
      ∧ a.DnsRecursors.Perm b.DnsRecursors
      ∧ a.StunObserved.Perm b.StunObserved
      ∧ (leakIPs a.DnsLeak).Perm (leakIPs b.DnsLeak) := by
  rw [← samePublicIPs_eq_true_iff, ← sameStringSet_eq_true_iff, ← sameStringSet_eq_true_iff,
    ← sameStringSet_eq_true_iff]
  unfold changed sameDNSLeakIPs
  cases samePublicIPs a.PublicIPs b.PublicIPs <;>
    cases sameStringSet a.DnsRecursors b.DnsRecursors <;>
    cases sameStringSet a.StunObserved b.StunObserved <;>
    cases sameStringSet (leakIPs a.DnsLeak) (leakIPs b.DnsLeak) <;> simp

/-- Index-by-index agreement is equality of the lists of compared fields. -/
theorem forall₂_agrees_iff (a : List PublicIPResult) : ∀ b : List PublicIPResult,
    List.Forall₂ PublicIPResult.Agrees a b
      ↔ a.map PublicIPResult.compared = b.map PublicIPResult.compared := by
  induction a with
  | nil =>
    intro b
    cases b with
    | nil => simp
    | cons y ys => simp
  | cons x xs ih =>
    intro b
    cases b with
    | nil => simp
    | cons y ys =>
      rw [List.forall₂_cons, ih ys]
      simp [PublicIPResult.Agrees, PublicIPResult.compared, and_assoc]

/-! ## Lemmas on the end-to-end verdict -/

/-- The test `ipDiffers` spelled out. -/
theorem ipDiffers_iff (b c : ExitInfo) :
    ipDiffers b c = true ↔ b.IP ≠ "" ∧ c.IP ≠ "" ∧ b.IP ≠ c.IP := by
  simp [ipDiffers]

/-- The test `leaks` spelled out. -/
theorem leaks_eq_true_iff (b m : ProbeSet) :
    leaks b m = true ↔
      (b.ExitV4.IP ≠ "" ∧ m.ExitV4.IP ≠ "" ∧ b.ExitV4.IP ≠ m.ExitV4.IP)
      ∨ (b.ExitV6.IP ≠ "" ∧ m.ExitV6.IP ≠ "" ∧ b.ExitV6.IP ≠ m.ExitV6.IP) := by
  simp [leaks, ipDiffers]

/-- One call of `MaybeRecordExitDelta` leaves the list empty exactly when it was empty and
the sample does not leak. -/
theorem maybeRecordExitDelta_nil_iff (r : RunReport) (b s : ProbeSet) :
    (r.MaybeRecordExitDelta b s).ExitDeltas = [] ↔ r.ExitDeltas = [] ∧ leaks b s = false := by
  rw [maybeRecordExitDelta_list]
  constructor
  · intro h
    rw [List.append_eq_nil, List.append_eq_nil] at h
    obtain ⟨⟨h0, h4⟩, h6⟩ := h
    have d4 : deltasOf "ipv4" r = [] := by simp [deltasOf, h0]
    have d6 : deltasOf "ipv6" r = [] := by simp [deltasOf, h0]
    refine ⟨h0, ?_⟩
    cases e4 : ipDiffers b.ExitV4 s.ExitV4
    · cases e6 : ipDiffers b.ExitV6 s.ExitV6
      · simp [leaks, e4, e6]
      · simp [e6, d6] at h6
    · simp [e4, d4] at h4
  · rintro ⟨h0, hl⟩
    simp only [leaks, Bool.or_eq_false_iff] at hl
    simp [h0, hl.1, hl.2]

/-- A sequence of calls of `MaybeRecordExitDelta` leaves the list empty exactly when it
was empty and no sample leaks. -/
theorem recordExitDeltas_nil_iff (b : ProbeSet) (M : List ProbeSet) : ∀ r : RunReport,
    (recordExitDeltas r b M).ExitDeltas = [] ↔
      r.ExitDeltas = [] ∧ ∀ m ∈ M, leaks b m = false := by
  induction M with
  | nil => intro r; simp [recordExitDeltas]
  | cons s rest ih =>
    intro r
    have hstep : recordExitDeltas r b (s :: rest)
        = recordExitDeltas (r.MaybeRecordExitDelta b s) b rest := rfl
    rw [hstep, ih, maybeRecordExitDelta_nil_iff]
    simp only [List.mem_cons, forall_eq_or_imp]
    tauto

/-- The verdict of `Finish` in kill-switch mode with an online baseline. -/
theorem finish_overall_online (r : RunReport) (h : r.Mode = RunModeKillSwitch)
    (hb : r.Baseline.Online = true) :
    r.Finish.Verdict.Overall =
        (if r.ExitDeltas ≠ [] then "FAIL"
         else if r.OfflineAtSec ≠ none then "PASS"
         else "NOT TESTED")
      ∧ r.Finish.Verdict.KillSwitch = r.Finish.Verdict.Overall := by
  have hne : ¬ (RunModeKillSwitch = RunModeVPNOnly) := by decide
  unfold RunReport.Finish
  cases hd : r.ExitDeltas with
  | nil =>
    cases ho : r.OfflineAtSec <;> simp [h, hne, hb]
  | cons d ds => simp [h, hne, hb]

/-- The defaults do not touch `Mode`. -/
theorem withDefaults_mode (opt : TestOptions) : opt.withDefaults.Mode = opt.Mode := by
  unfold TestOptions.withDefaults
  simp only
  split_ifs <;> rfl

/-- The report of `RunTest` carries the mode of the options. -/
theorem runTest_mode (runID : String) (startedUTC : Int) (opt : TestOptions)
    (B M : List ProbeSet) :
    (RunTest runID startedUTC opt B M).Mode = opt.Mode := by
  rw [runTest_eq]
  simp only
  rw [finish_frame]
  simp only
  rw [mainPhase_frame]
  simp only [markBaseline, NewRunReport]
  split_ifs <;> exact withDefaults_mode opt

/-- The verdict of the report of `RunTest` is the one `Finish` computes from the other
fields of that report. -/
theorem runTest_verdict (runID : String) (startedUTC : Int) (opt : TestOptions)
    (B M : List ProbeSet) :
    (RunTest runID startedUTC opt B M).Verdict
      = ({ (RunTest runID startedUTC opt B M) with Verdict := {} } : RunReport).Finish.Verdict := by
  rw [runTest_eq]
  simp only
  generalize (mainPhase _ _ M) = st
  unfold RunReport.Finish
  simp only
  split_ifs <;> rfl

/-- There is a first adjacent offline pair exactly when two adjacent samples are offline. -/
theorem offlinePair_iff (M : List ProbeSet) :
    firstOfflinePair M ≠ none ↔
      ∃ pre x y post, M = pre ++ x :: y :: post ∧ x.Online = false ∧ y.Online = false := by
  constructor
  · intro h
    cases hv : firstOfflinePair M with
    | none => exact absurd hv h
    | some v =>
      obtain ⟨pre, a, c, post, hM, ha, hc, _, _⟩ := firstOfflinePair_some M v hv
      exact ⟨pre, a, c, post, hM, ha, hc⟩
  · rintro ⟨pre, x, y, post, hM, hx, hy⟩ hnone
    have hno := (firstOfflinePair_none_iff M).mp hnone
    unfold NoOfflinePair at hno
    rw [hM, List.chain'_split] at hno
    have := hno.2
    rw [List.chain'_cons] at this
    exact this.1 ⟨hx, hy⟩

/-- The last online sample of a sequence is one of its samples and is online. -/
theorem lastOnline_some (B : List ProbeSet) (b : ProbeSet) (h : lastOnline B = some b) :
    b ∈ B ∧ b.Online = true := by
  unfold lastOnline at h
  have hm := List.mem_of_getLast?_eq_some h
  rw [List.mem_filter] at hm
  exact hm

/-- With a baseline that has no address, no resolver and is not online, one iteration of
the main loop records nothing. -/
theorem mainStep_unconfirmed (b : ProbeSet) (h4 : b.ExitV4.IP = "") (h6 : b.ExitV6.IP = "")
    (hd : b.DNSRecursors = []) (ho : b.Online = false) (st : MainState) (ps : ProbeSet) :
    (mainStep b st ps).r.ExitDeltas = st.r.ExitDeltas
    ∧ (mainStep b st ps).r.DNSDelta = st.r.DNSDelta
    ∧ (mainStep b st ps).r.OfflineAtSec = st.r.OfflineAtSec := by
  simp [mainStep, RunReport.MaybeRecordExitDelta, RunReport.MaybeRecordDNSDelta, h4, h6, hd, ho]

/-- With a baseline that has no address, no resolver and is not online, the main loop
records nothing. -/
theorem mainPhase_unconfirmed (b : ProbeSet) (h4 : b.ExitV4.IP = "") (h6 : b.ExitV6.IP = "")
    (hd : b.DNSRecursors = []) (ho : b.Online = false) (M : List ProbeSet) :
    ∀ st : MainState,
      (mainPhase b st M).r.ExitDeltas = st.r.ExitDeltas
      ∧ (mainPhase b st M).r.DNSDelta = st.r.DNSDelta
      ∧ (mainPhase b st M).r.OfflineAtSec = st.r.OfflineAtSec := by
  induction M with
  | nil => intro st; exact ⟨rfl, rfl, rfl⟩
  | cons s rest ih =>
    intro st
    have hstep : mainPhase b st (s :: rest) = mainPhase b (mainStep b st s) rest := rfl
    rw [hstep]
    obtain ⟨a1, a2, a3⟩ := ih (mainStep b st s)
    obtain ⟨b1, b2, b3⟩ := mainStep_unconfirmed b h4 h6 hd ho st s
    exact ⟨a1.trans b1, a2.trans b2, a3.trans b3⟩

/-! ## Lemmas on the text form of IPv6 addresses -/

/-- The function `zeroRun` counts the zero groups at the head: they are zero, and the
group after them is not. -/
theorem zeroRun_spec (fields : List Nat) :
    (∀ k < zeroRun fields, fields[k]? = some 0) ∧ fields[zeroRun fields]? ≠ some 0 := by
  induction fields with
  | nil => simp [zeroRun]
  | cons f rest ih =>
    cases f with
    | zero =>
      simp only [zeroRun]
      constructor
      · intro k hk
        cases k with
        | zero => simp
        | succ j =>
          simp only [List.getElem?_cons_succ]
          exact ih.1 j (by omega)
      · simpa using ih.2
    | succ n => simp [zeroRun]

/-- The zero groups from index `i` on: `zeroRun` of the rest of the list gives the longest
range of zero groups that starts at `i`. -/
theorem zeroRun_drop (gs : List Nat) (i : Nat) :
    ZeroOn gs i (i + zeroRun (gs.drop i))
    ∧ ∀ e, i < e → ZeroOn gs i e → e ≤ i + zeroRun (gs.drop i) := by
  obtain ⟨h1, h2⟩ := zeroRun_spec (gs.drop i)
  constructor
  · intro k hk hik
    have := h1 (k - i) (by omega)
    rw [List.getElem?_drop] at this
    rwa [show i + (k - i) = k by omega] at this
  · intro e hie hz
    by_contra hlt
    apply h2
    rw [List.getElem?_drop]
    exact hz _ (by omega) (by omega)

/-- A non-empty range of zero groups lies within the list. -/
theorem zeroOn_length (gs : List Nat) (s e : Nat) (hse : s < e) (h : ZeroOn gs s e) :
    e ≤ gs.length := by
  have := h (e - 1) (by omega) (by omega)
  have hlt : e - 1 < gs.length := by
    by_contra hc
    rw [List.getElem?_eq_none (by omega)] at this
    exact absurd this (by simp)
  omega

/-- The search loop keeps its invariant, so it ends with the invariant for the whole
list. -/
theorem longestZeroRun_inv (gs : List Nat) : ∀ (fields : List Nat) (i : Nat) (best : Nat × Nat),
    gs.drop i = fields → RunInv gs i best →
    RunInv gs gs.length (longestZeroRun i fields best) := by
  intro fields
  induction fields with
  | nil =>
    intro i best hdrop hinv
    have hlen : gs.length ≤ i := by
      simpa using hdrop
    simp only [longestZeroRun]
    rcases hinv with ⟨hb, hno⟩ | ⟨h1, h2, h3, h4, h5⟩
    · exact Or.inl ⟨hb, fun e2 he2 s2 hs2 _ h => hno e2 he2 s2 hs2 (by omega) h⟩
    · exact Or.inr ⟨h1, h2, by omega, h4, fun e2 he2 s2 hs2 _ h => h5 e2 he2 s2 hs2 (by omega) h⟩
  | cons f rest ih =>
    intro i best hdrop hinv
    have hdrop1 : gs.drop (i + 1) = rest := by
      have := congrArg (List.drop 1) hdrop
      simpa [List.drop_drop, Nat.add_comm] using this
    have hi : i < gs.length := by
      by_contra hc
      rw [List.drop_eq_nil_of_le (by omega)] at hdrop
      exact absurd hdrop (by simp)
    simp only [longestZeroRun]
    apply ih (i + 1) _ hdrop1
    rw [← hdrop]
    obtain ⟨hz1, hz2⟩ := zeroRun_drop gs i
    generalize zeroRun (gs.drop i) = l at hz1 hz2
    have hle : i + l ≤ gs.length := by
      by_cases hl : l = 0
      · omega
      · exact zeroOn_length gs i (i + l) (by omega) hz1
    -- runs that start at `i`
    have hat : ∀ e2, i + 2 ≤ e2 → ZeroOn gs i e2 → e2 - i ≤ l := by
      intro e2 h2 hz
      have := hz2 e2 (by omega) hz
      omega
    by_cases hc : l ≥ 2 ∧ l > best.2 - best.1
    · rw [if_pos hc]
      refine Or.inr ⟨by simp; omega, by simpa using hle, by simp, hz1, ?_⟩
      intro e2 he2 s2 hs2 hsi h2 hz
      simp only
      by_cases hs : s2 = i
      · subst hs
        have := hat e2 h2 hz
        omega
      · have hlt : s2 < i := by omega
        rcases hinv with ⟨hb, hno⟩ | ⟨h1, _, _, _, h5⟩
        · exact absurd hz (hno e2 he2 s2 hs2 hlt h2)
        · have := h5 e2 he2 s2 hs2 hlt h2 hz
          omega
    · rw [if_neg hc]
      rcases hinv with ⟨hb, hno⟩ | ⟨h1, h2', h3, h4, h5⟩
      · refine Or.inl ⟨hb, ?_⟩
        intro e2 he2 s2 hs2 hsi h2 hz
        by_cases hs : s2 = i
        · subst hs
          have := hat e2 h2 hz
          rw [hb] at hc
          simp at hc
          omega
        · exact hno e2 he2 s2 hs2 (by omega) h2 hz
      · refine Or.inr ⟨h1, h2', by omega, h4, ?_⟩
        intro e2 he2 s2 hs2 hsi h2 hz
        by_cases hs : s2 = i
        · subst hs
          have := hat e2 h2 hz
          omega
        · exact h5 e2 he2 s2 hs2 (by omega) h2 hz

/-- The search loop finds the run that is to be compressed, and `(255, 255)` when no two
adjacent groups are zero. -/
theorem longestZeroRun_spec (gs : List Nat) :
    (∀ s e, CompressedRun gs s e → longestZeroRun 0 gs (255, 255) = (s, e))
    ∧ ((∀ i, ¬ (gs[i]? = some 0 ∧ gs[i + 1]? = some 0)) →
        longestZeroRun 0 gs (255, 255) = (255, 255)) := by
  have hinv := longestZeroRun_inv gs gs 0 (255, 255) rfl
    (Or.inl ⟨rfl, fun e2 _ s2 _ h => absurd h (by omega)⟩)
  constructor
  · rintro s e ⟨hse, hel, hz, hmax⟩
    rcases hinv with ⟨_, hno⟩ | ⟨h1, h2, _, h4, h5⟩
    · exact absurd hz (hno e hel s (by omega) (by omega) hse)
    · have a := h5 e hel s (by omega) (by omega) hse hz
      have b := hmax _ h2 _ (by omega) h1 h4
      apply Prod.ext <;> simp only <;> omega
  · intro hno
    rcases hinv with ⟨hb, _⟩ | ⟨h1, h2, _, h4, _⟩
    · exact hb
    · exfalso
      apply hno (longestZeroRun 0 gs (255, 255)).1
      exact ⟨h4 _ (by omega) (by omega), h4 _ (by omega) (by omega)⟩

/-- A list with two adjacent zero groups has a run to compress. -/
theorem compressedRun_exists (gs : List Nat) (i : Nat)
    (h : gs[i]? = some 0 ∧ gs[i + 1]? = some 0) : ∃ s e, CompressedRun gs s e := by
  have hz : ZeroOn gs i (i + 2) := by
    intro k hk hik
    have : k = i ∨ k = i + 1 := by omega
    rcases this with rfl | rfl
    · exact h.1
    · exact h.2
  have hlen := zeroOn_length gs i (i + 2) (by omega) hz
  have hinv := longestZeroRun_inv gs gs 0 (255, 255) rfl
    (Or.inl ⟨rfl, fun e2 _ s2 _ h => absurd h (by omega)⟩)
  rcases hinv with ⟨_, hno⟩ | ⟨h1, h2, _, h4, h5⟩
  · exact absurd hz (hno (i + 2) hlen i (by omega) (by omega) (by omega))
  · exact ⟨_, _, h1, h2, h4, fun e2 he2 s2 hs2 h22 hz2 => h5 e2 he2 s2 hs2 (by omega) h22 hz2⟩

/-- The output loop without a run to compress writes the eight groups separated by
colons. -/
theorem appendFields_plain (g0 g1 g2 g3 g4 g5 g6 g7 : Nat) :
    appendFields [g0, g1, g2, g3, g4, g5, g6, g7] 255 255 8 0 ""
      = colonJoined [g0, g1, g2, g3, g4, g5, g6, g7] := by
  simp [appendFields, colonJoined, hexGroup, hexField, String.intercalate, String.intercalate.go,
    String.append_assoc]

/-- The output loop with a run `s..e-1` to compress writes the groups before the run, a
double colon, and the groups after the run. -/
theorem appendFields_run (g0 g1 g2 g3 g4 g5 g6 g7 : Nat) (s e : Nat) (hse : s + 2 ≤ e)
    (he : e ≤ 8) :
    appendFields [g0, g1, g2, g3, g4, g5, g6, g7] s e 8 0 ""
      = colonJoined ([g0, g1, g2, g3, g4, g5, g6, g7].take s) ++ "::"
          ++ colonJoined ([g0, g1, g2, g3, g4, g5, g6, g7].drop e) := by
  have hs : s ≤ 6 := by omega
  interval_cases s <;> interval_cases e <;>
    first
    | omega
    | simp [appendFields, colonJoined, hexGroup, hexField, String.intercalate,
        String.intercalate.go, String.append_assoc]

/-- The sixteen bytes of an address as a list. -/
theorem ofFn16 (A : Fin 16 → Byte) :
    List.ofFn A = [A 0, A 1, A 2, A 3, A 4, A 5, A 6, A 7, A 8, A 9, A 10, A 11, A 12, A 13,
      A 14, A 15] := by
  simp [List.ofFn_succ]
  repeat' apply And.intro
  all_goals rfl

/-- The eight groups of an address, written out. -/
theorem groupsOf_eq (A : Fin 16 → Byte) :
    groupsOf A = [(A 0).val * 256 + (A 1).val, (A 2).val * 256 + (A 3).val,
      (A 4).val * 256 + (A 5).val, (A 6).val * 256 + (A 7).val,
      (A 8).val * 256 + (A 9).val, (A 10).val * 256 + (A 11).val,
      (A 12).val * 256 + (A 13).val, (A 14).val * 256 + (A 15).val] := by
  simp [groupsOf, List.ofFn_succ]

/-- An address is IPv4-mapped exactly when its first twelve bytes are those `ipString`
tests for. -/
theorem isV4Mapped_iff (A : Fin 16 → Byte) :
    IsV4Mapped A ↔
      [A 0, A 1, A 2, A 3, A 4, A 5, A 6, A 7, A 8, A 9, A 10, A 11]
        = [0, 0, 0, 0, 0, 0, 0, 0, 0, 0, 255, 255] := by
  unfold IsV4Mapped
  constructor
  · rintro ⟨h, h10, h11⟩
    simp [h 0 (by decide), h 1 (by decide), h 2 (by decide), h 3 (by decide), h 4 (by decide),
      h 5 (by decide), h 6 (by decide), h 7 (by decide), h 8 (by decide), h 9 (by decide),
      h10, h11]
  · intro h
    simp only [List.cons.injEq, and_true] at h
    obtain ⟨a0, a1, a2, a3, a4, a5, a6, a7, a8, a9, a10, a11⟩ := h
    refine ⟨?_, a10, a11⟩
    intro i hi
    have : i = 0 ∨ i = 1 ∨ i = 2 ∨ i = 3 ∨ i = 4 ∨ i = 5 ∨ i = 6 ∨ i = 7 ∨ i = 8 ∨ i = 9 := by
      omega
    rcases this with rfl | rfl | rfl | rfl | rfl | rfl | rfl | rfl | rfl | rfl <;> assumption

/-- The text `ipString` gives for a 16-byte address: dotted decimal of the last four bytes
for an IPv4-mapped address, else the output loop on the eight groups and the run the search
loop found. -/
theorem ipString_ofFn (A : Fin 16 → Byte) :
    ipString (List.ofFn A) =
      if IsV4Mapped A then dottedQuad (A 12) (A 13) (A 14) (A 15)
      else appendFields (groupsOf A) (longestZeroRun 0 (groupsOf A) (255, 255)).1
        (longestZeroRun 0 (groupsOf A) (255, 255)).2 8 0 "" := by
  rw [ofFn16, groupsOf_eq]
  by_cases h : IsV4Mapped A
  · rw [if_pos h]
    rw [isV4Mapped_iff] at h
    simp [ipString, h]
  · rw [if_neg h]
    rw [isV4Mapped_iff] at h
    simp only [ipString, List.length_cons, List.length_nil, List.take, h, if_true, if_false,
      v6Fields]

/-! ## Claims -/

/-- C1: in kill-switch mode `Finish` sets the verdict to INCONCLUSIVE when the baseline is
not online (whatever the deltas and the offline onset are), else FAIL when an exit delta
was recorded, else PASS when the offline onset is set, else NOT TESTED; `KillSwitch`
carries the same value as `Overall`. -/
theorem finish_kill_switch_verdict (r : RunReport) (h : r.Mode = RunModeKillSwitch) :
    r.Finish.Verdict.Overall =
        (if r.Baseline.Online = false then "INCONCLUSIVE"
         else if r.ExitDeltas ≠ [] then "FAIL"
         else if r.OfflineAtSec.isSome = true then "PASS"
         else "NOT TESTED")
      ∧ r.Finish.Verdict.KillSwitch = r.Finish.Verdict.Overall := by
  have hne : ¬ (RunModeKillSwitch = RunModeVPNOnly) := by decide
  unfold RunReport.Finish
  cases hb : r.Baseline.Online
  · simp [h]
  · cases hd : r.ExitDeltas with
    | nil =>
      cases ho : r.OfflineAtSec <;> simp [h, hne]
    | cons d ds => simp [h, hne]

/-- Witness of C1: a kill-switch report with an online baseline, one exit delta and an
offline onset gets FAIL. -/
theorem finish_kill_switch_verdict_witness :
    let r : RunReport :=
      { Mode := "kill-switch", Baseline := { Online := true },
        ExitDeltas := [{ Family := "ipv4" }], OfflineAtSec := some 7 }
    r.Mode = RunModeKillSwitch ∧ r.Finish.Verdict.Overall = "FAIL"
      ∧ r.Finish.Verdict.KillSwitch = "FAIL" := by
  intro r
  have h := finish_kill_switch_verdict r (by decide)
  refine ⟨by decide, ?_, ?_⟩
  · rw [h.1]; decide
  · rw [h.2, h.1]; decide

/-- C2 (fails on the code): the response below has a valid header declaring a 5-byte body
that holds one attribute of type 0x0001 with a 1-byte value and no padding. The length
check `4+l > len(attrs)` passes, the advance is rounded up to 8, and the slice expression
`attrs[adv:]` on the 5 remaining bytes panics, for every transaction id. -/
theorem parse_padded_advance_panics (txid : TxID) :
    parseXORMappedAddress
        [0x01, 0x01, 0x00, 0x05, 0x21, 0x12, 0xA4, 0x42,
         1, 2, 3, 4, 5, 6, 7, 8, 9, 10, 11, 12,
         0x00, 0x01, 0x00, 0x01, 0xAA] txid
      = .error .sliceBounds := by
  rfl

/-- C3: `parseXORMappedAddress` returns an error, and no address, for every packet that is
shorter than 20 bytes, or whose bytes 4..7 are not the magic cookie, or whose declared
body length exceeds the bytes present after the header, or whose declared body is a
sequence of well-formed attributes of other types followed by an attribute header whose
declared length exceeds the bytes that remain. -/
theorem parse_rejects_malformed (pkt : List Byte) (txid : TxID)
    (h : pkt.length < 20
      ∨ (pkt.drop 4).take 4 ≠ [0x21, 0x12, 0xA4, 0x42]
      ∨ pkt.length < 20 + declaredLen pkt
      ∨ ∃ pre t0 t1 l0 l1 rest,
          declaredBody pkt = encodeAttrs pre ++ t0 :: t1 :: l0 :: l1 :: rest
          ∧ (∀ a ∈ pre, a.WellFormed ∧ a.typ ≠ stunAttrXORMappedAddress)
          ∧ rest.length < l0.val * 256 + l1.val) :
    ∃ msg, parseXORMappedAddress pkt txid = .ok (.fail msg) := by
  rw [parseXORMappedAddress_eq]
  by_cases h1 : pkt.length < 20
  · exact ⟨_, if_pos h1⟩
  rw [if_neg h1]
  by_cases h2 : pkt.length < 20 + declaredLen pkt
  · exact ⟨_, if_pos h2⟩
  rw [if_neg h2]
  by_cases h3 : (pkt.drop 4).take 4 ≠ [0x21, 0x12, 0xA4, 0x42]
  · exact ⟨_, if_pos h3⟩
  rw [if_neg h3]
  rcases h with h | h | h | ⟨pre, t0, t1, l0, l1, rest, hb, hp, hl⟩
  · exact absurd h h1
  · exact absurd h h3
  · exact absurd h h2
  · rw [hb, scanAttrs_skip_all txid pre _ _ (by have := encodeAttrs_length pre; simp; omega) hp]
    have hfuel : (encodeAttrs pre ++ t0 :: t1 :: l0 :: l1 :: rest).length - pre.length
        = ((encodeAttrs pre).length + rest.length + 3 - pre.length) + 1 := by
      have := encodeAttrs_length pre
      simp only [List.length_append, List.length_cons]
      omega
    rw [hfuel, scanAttrs_cons, if_pos hl]
    exact ⟨_, rfl⟩

/-- Witness of C3: a response whose body is a 3-byte SOFTWARE attribute with one byte of
padding, then an XOR-MAPPED-ADDRESS header declaring 100 bytes with none left. -/
theorem parse_rejects_malformed_witness :
    (∃ pre t0 t1 l0 l1 rest,
        declaredBody ([0x01, 0x01, 0x00, 0x0C, 0x21, 0x12, 0xA4, 0x42,
                       1, 2, 3, 4, 5, 6, 7, 8, 9, 10, 11, 12,
                       0x80, 0x22, 0x00, 0x03, 0x61, 0x62, 0x63, 0x00,
                       0x00, 0x20, 0x00, 0x64] : List Byte)
          = encodeAttrs pre ++ t0 :: t1 :: l0 :: l1 :: rest
        ∧ (∀ a ∈ pre, a.WellFormed ∧ a.typ ≠ stunAttrXORMappedAddress)
        ∧ rest.length < l0.val * 256 + l1.val)
    ∧ ∃ msg, parseXORMappedAddress ([0x01, 0x01, 0x00, 0x0C, 0x21, 0x12, 0xA4, 0x42,
                       1, 2, 3, 4, 5, 6, 7, 8, 9, 10, 11, 12,
                       0x80, 0x22, 0x00, 0x03, 0x61, 0x62, 0x63, 0x00,
                       0x00, 0x20, 0x00, 0x64] : List Byte) (fun _ => 0) = .ok (.fail msg) := by
  have hyp : ∃ pre t0 t1 l0 l1 rest,
        declaredBody ([0x01, 0x01, 0x00, 0x0C, 0x21, 0x12, 0xA4, 0x42,
                       1, 2, 3, 4, 5, 6, 7, 8, 9, 10, 11, 12,
                       0x80, 0x22, 0x00, 0x03, 0x61, 0x62, 0x63, 0x00,
                       0x00, 0x20, 0x00, 0x64] : List Byte)
          = encodeAttrs pre ++ t0 :: t1 :: l0 :: l1 :: rest
        ∧ (∀ a ∈ pre, a.WellFormed ∧ a.typ ≠ stunAttrXORMappedAddress)
        ∧ rest.length < l0.val * 256 + l1.val := by
    refine ⟨[{ typ := 0x8022, val := [0x61, 0x62, 0x63], pad := [0x00] }], 0x00, 0x20, 0x00, 0x64,
      [], by decide, ?_, by decide⟩
    intro a ha
    rw [List.mem_singleton] at ha
    subst ha
    exact ⟨⟨by decide, by decide, by decide⟩, by decide⟩
  exact ⟨hyp, parse_rejects_malformed _ _ (Or.inr (Or.inr (Or.inr hyp)))⟩

/-- C4: IPv4 round trip. For all address bytes `a b c d`, port bytes `p1 p2`, first byte
`b0` and transaction id, decoding `[b0, 0x01, p1, p2]` followed by the big-endian word
`a.b.c.d XOR 0x2112A442` returns the dotted-decimal text of `a.b.c.d` with no error; in
particular the cookie-XORed bytes of 192.0.2.1 decode to "192.0.2.1". -/
theorem decode_ipv4_round_trip (b0 p1 p2 a b c d : Byte) (txid : TxID) :
    decodeXORMappedAddress
        ([b0, 0x01, p1, p2]
          ++ putUint32 ((a.val * 16777216 + b.val * 65536 + c.val * 256 + d.val)
                          ^^^ stunMagicCookie)) txid
      = .ok (.addr (toString a.val ++ "." ++ toString b.val ++ "." ++ toString c.val
                      ++ "." ++ toString d.val))
    ∧ decodeXORMappedAddress [0x00, 0x01, p1, p2, 0xE1, 0x12, 0xA6, 0x43] txid
      = .ok (.addr "192.0.2.1") := by
  have hw := be32_lt a b c d
  have hx : (a.val * 16777216 + b.val * 65536 + c.val * 256 + d.val) ^^^ stunMagicCookie < 2 ^ 32 :=
    Nat.xor_lt_two_pow hw (by decide)
  constructor
  · rw [decodeXORMappedAddress_eq]
    simp only [decodeClosed, putUint32, List.cons_append, List.nil_append, List.length_cons,
      List.length_nil, List.getD_cons_succ, List.getD_cons_zero]
    have e := be32_putUint32 _ hx
    simp only [putUint32] at e
    have e2 := putUint32_be32 a b c d
    simp only [putUint32] at e2
    rw [e, Nat.xor_assoc, Nat.xor_self, Nat.xor_zero, e2]
    rfl
  · rfl

/-- C5: IPv6 round trip. For every 16-byte address `A`, transaction id `T`, first byte and
port bytes, decoding the value whose bytes 4..7 are `A[0..3]` XOR `0x21 0x12 0xA4 0x42`
and whose bytes 8..19 are `A[4..15]` XOR `T[0..11]` recovers exactly the 16 bytes of `A`
and returns the address text of `A`, spelled out: for an IPv4-mapped `A` the dotted decimal
of its last four bytes; else the eight groups of `A` in lower-case hexadecimal without
leading zeros, separated by colons, where the leftmost of the longest runs of at least two
zero groups is replaced by a double colon (and nothing is replaced when no two adjacent
groups are zero); every address falls under one of these cases. In particular the encodings
of 2001:db8::1, of the zero address, of 2001:db8:0:0:1:0:0:1, of
2001:db8:85a3:8d3:1319:8a2e:370:7348 and of ::ffff:192.0.2.1 decode to "2001:db8::1", "::",
"2001:db8::1:0:0:1", "2001:db8:85a3:8d3:1319:8a2e:370:7348" and "192.0.2.1". -/
theorem decode_ipv6_round_trip (b0 p1 p2 : Byte) (A : Fin 16 → Byte) (T : TxID) :
    let v : List Byte :=
      [b0, 0x02, p1, p2, A 0 ^^^ 0x21, A 1 ^^^ 0x12, A 2 ^^^ 0xA4, A 3 ^^^ 0x42]
        ++ List.ofFn (fun i : Fin 12 => A ⟨4 + i.val, by omega⟩ ^^^ T i)
    let gs := groupsOf A
    decodeIPv6Bytes v T = .ok (List.ofFn A)
    ∧ decodeXORMappedAddress v T = .ok (.addr (ipString (List.ofFn A)))
    ∧ (IsV4Mapped A →
        decodeXORMappedAddress v T
          = .ok (.addr (toString (A 12).val ++ "." ++ toString (A 13).val ++ "."
                          ++ toString (A 14).val ++ "." ++ toString (A 15).val)))
    ∧ (¬ IsV4Mapped A → (∀ i, ¬ (gs[i]? = some 0 ∧ gs[i + 1]? = some 0)) →
        decodeXORMappedAddress v T = .ok (.addr (colonJoined gs)))
    ∧ (¬ IsV4Mapped A → ∀ s e, CompressedRun gs s e →
        decodeXORMappedAddress v T
          = .ok (.addr (colonJoined (gs.take s) ++ "::" ++ colonJoined (gs.drop e))))
    ∧ ((∀ i, ¬ (gs[i]? = some 0 ∧ gs[i + 1]? = some 0)) ∨ ∃ s e, CompressedRun gs s e)
    ∧ (List.ofFn A = [0x20, 0x01, 0x0d, 0xb8, 0, 0, 0, 0, 0, 0, 0, 0, 0, 0, 0, 1] →
        decodeXORMappedAddress v T = .ok (.addr "2001:db8::1"))
    ∧ (List.ofFn A = [0, 0, 0, 0, 0, 0, 0, 0, 0, 0, 0, 0, 0, 0, 0, 0] →
        decodeXORMappedAddress v T = .ok (.addr "::"))
    ∧ (List.ofFn A = [0x20, 0x01, 0x0d, 0xb8, 0, 0, 0, 0, 0, 1, 0, 0, 0, 0, 0, 1] →
        decodeXORMappedAddress v T = .ok (.addr "2001:db8::1:0:0:1"))
    ∧ (List.ofFn A = [0x20, 0x01, 0x0d, 0xb8, 0x85, 0xa3, 0x08, 0xd3, 0x13, 0x19, 0x8a, 0x2e,
                       0x03, 0x70, 0x73, 0x48] →
        decodeXORMappedAddress v T = .ok (.addr "2001:db8:85a3:8d3:1319:8a2e:370:7348"))
    ∧ (List.ofFn A = [0, 0, 0, 0, 0, 0, 0, 0, 0, 0, 0xff, 0xff, 192, 0, 2, 1] →
        decodeXORMappedAddress v T = .ok (.addr "192.0.2.1")) := by
  intro v gs
  have hlen : 20 ≤ v.length := by simp [v]
  have hbytes : decodeIPv6Bytes v T = .ok (List.ofFn A) := by
    rw [decodeIPv6Bytes_eq _ _ hlen, xorV6Bytes_encoded]
  have htext : decodeXORMappedAddress v T = .ok (.addr (ipString (List.ofFn A))) := by
    rw [decodeXORMappedAddress_eq]
    have h20 : ¬ (v.length < 20) := by omega
    have h4 : ¬ (v.length < 4) := by omega
    unfold decodeClosed
    rw [if_neg h4, xorV6Bytes_encoded, if_neg h20]
    rfl
  have hgs : gs = groupsOf A := rfl
  refine ⟨hbytes, htext, ?_, ?_, ?_, ?_, ?_, ?_, ?_, ?_, ?_⟩
  · intro hm
    rw [htext, ipString_ofFn, if_pos hm]
    rfl
  · intro hm hno
    rw [htext, ipString_ofFn, if_neg hm, (longestZeroRun_spec (groupsOf A)).2 hno, hgs,
      groupsOf_eq, appendFields_plain]
  · intro hm s e hrun
    have he : e ≤ 8 := by
      have := hrun.2.1
      rw [hgs, groupsOf_eq] at this
      simpa using this
    rw [htext, ipString_ofFn, if_neg hm, (longestZeroRun_spec (groupsOf A)).1 s e hrun, hgs,
      groupsOf_eq, appendFields_run _ _ _ _ _ _ _ _ s e hrun.1 he]
  · by_cases hp : ∃ i, gs[i]? = some 0 ∧ gs[i + 1]? = some 0
    · obtain ⟨i, hi⟩ := hp
      exact Or.inr (compressedRun_exists gs i hi)
    · exact Or.inl (fun i hi => hp ⟨i, hi⟩)
  all_goals
    intro hA
    rw [htext, hA]
    rfl

/-- Witness of C5: the address 2001:db8:0:0:0:0:abcd:1, whose groups 2..5 are the run to
compress, encoded with the transaction id 1..12, decodes to "2001:db8::abcd:1". -/
theorem decode_ipv6_round_trip_witness :
    let A : Fin 16 → Byte :=
      fun i => [0x20, 0x01, 0x0d, 0xb8, 0, 0, 0, 0, 0, 0, 0, 0, 0xab, 0xcd, 0, 1].getD i.val 0
    let T : TxID := fun i => ⟨i.val + 1, by omega⟩
    (¬ IsV4Mapped A) ∧ CompressedRun (groupsOf A) 2 6
    ∧ decodeXORMappedAddress
        [0x00, 0x02, 0x12, 0x34, 0x01, 0x13, 0xA9, 0xFA,
         1, 2, 3, 4, 5, 6, 7, 8, 0xA2, 0xC7, 11, 13] T
      = .ok (.addr "2001:db8::abcd:1") := by
  intro A T
  have hm : ¬ IsV4Mapped A := by decide
  have hrun : CompressedRun (groupsOf A) 2 6 := by decide
  have hv : ([0x00, 0x02, 0x12, 0x34, A 0 ^^^ 0x21, A 1 ^^^ 0x12, A 2 ^^^ 0xA4, A 3 ^^^ 0x42]
        ++ List.ofFn (fun i : Fin 12 => A ⟨4 + i.val, by omega⟩ ^^^ T i) : List Byte)
      = [0x00, 0x02, 0x12, 0x34, 0x01, 0x13, 0xA9, 0xFA,
         1, 2, 3, 4, 5, 6, 7, 8, 0xA2, 0xC7, 11, 13] := by decide
  have ht : colonJoined ((groupsOf A).take 2) ++ "::" ++ colonJoined ((groupsOf A).drop 6)
      = "2001:db8::abcd:1" := by decide
  have h := (decode_ipv6_round_trip 0x00 0x12 0x34 A T).2.2.2.2.1 hm 2 6 hrun
  rw [hv, ht] at h
  exact ⟨hm, hrun, h⟩

/-- C6: first-wins exit delta. Starting from a report with no exit deltas and calling
`MaybeRecordExitDelta` once per sample, in order, the report ends with, for each family,
exactly the one delta built from the first sample whose non-empty address differs from the
baseline's non-empty address (`To` is that sample's `ExitInfo`, `AtSec` its `AtSec`), and
with no delta for the family when no sample differs; later differing samples neither
change it nor add an entry. -/
theorem first_wins_exit_delta (r : RunReport) (baseline : ProbeSet) (samples : List ProbeSet)
    (h : r.ExitDeltas = []) :
    deltasOf "ipv4" (recordExitDeltas r baseline samples)
        = firstDelta "ipv4" ProbeSet.ExitV4 baseline samples
      ∧ deltasOf "ipv6" (recordExitDeltas r baseline samples)
        = firstDelta "ipv6" ProbeSet.ExitV6 baseline samples := by
  have e4 : deltasOf "ipv4" r = [] := by simp [deltasOf, h]
  have e6 : deltasOf "ipv6" r = [] := by simp [deltasOf, h]
  exact ⟨by rw [deltasOf_ipv4_fold, if_pos e4], by rw [deltasOf_ipv6_fold, if_pos e6]⟩

/-- Witness of C6: baseline IPv4 1.1.1.1, samples 2.2.2.2 then 3.3.3.3: the report holds one
ipv4 delta, to 2.2.2.2. -/
theorem first_wins_exit_delta_witness :
    let b : ProbeSet := { ExitV4 := { Family := "ipv4", IP := "1.1.1.1" } }
    let s1 : ProbeSet := { AtSec := 6, ExitV4 := { Family := "ipv4", IP := "2.2.2.2" } }
    let s2 : ProbeSet := { AtSec := 7, ExitV4 := { Family := "ipv4", IP := "3.3.3.3" } }
    let r : RunReport := {}
    r.ExitDeltas = [] ∧
    (recordExitDeltas r b [s1, s2]).ExitDeltas
        = [{ Family := "ipv4", From := b.ExitV4, To := s1.ExitV4, AtSec := 6 }] ∧
    deltasOf "ipv4" (recordExitDeltas r b [s1, s2])
        = [{ Family := "ipv4", From := b.ExitV4, To := s1.ExitV4, AtSec := 6 }] := by
  intro b s1 s2 r
  refine ⟨rfl, by decide, ?_⟩
  rw [(first_wins_exit_delta r b [s1, s2] rfl).1]
  decide

/-- C7: offline debounce. In a run whose baseline window had an online sample (so the
baseline is online), for every sequence `M` of main-phase samples the report's
`OfflineAtSec` is the `AtSec` of the second sample of the first pair of adjacent offline
samples of `M`: it is unset exactly when no two adjacent samples are both offline (a single
offline sample between online ones never sets it), when set it comes from a pair before
which no adjacent offline pair occurs, and samples that follow never change it. -/
theorem offline_debounce (runID : String) (startedUTC : Int) (opt : TestOptions)
    (B M : List ProbeSet) (hB : ∃ s ∈ B, s.Online = true) :
    (RunTest runID startedUTC opt B M).OfflineAtSec = firstOfflinePair M
    ∧ ((RunTest runID startedUTC opt B M).OfflineAtSec = none ↔ NoOfflinePair M)
    ∧ (∀ v, (RunTest runID startedUTC opt B M).OfflineAtSec = some v →
        ∃ pre a c post, M = pre ++ a :: c :: post ∧ a.Online = false ∧ c.Online = false
          ∧ v = c.AtSec ∧ NoOfflinePair (pre ++ [a]))
    ∧ (∀ v M', (RunTest runID startedUTC opt B M).OfflineAtSec = some v →
        (RunTest runID startedUTC opt B (M ++ M')).OfflineAtSec = some v) := by
  have h := runTest_offline runID startedUTC opt B M hB
  refine ⟨h, ?_, ?_, ?_⟩
  · rw [h]; exact firstOfflinePair_none_iff M
  · intro v hv
    rw [h] at hv
    exact firstOfflinePair_some M v hv
  · intro v M' hv
    rw [h] at hv
    rw [runTest_offline runID startedUTC opt B (M ++ M') hB]
    exact firstOfflinePair_append M M' v hv

/-- Witness of C7: main-phase samples online, offline, offline, online (seconds 5 to 8)
latch the offline onset at the second offline sample, second 7. -/
theorem offline_debounce_witness :
    let b : ProbeSet := { AtSec := 0, ExitV4 := { Family := "ipv4", IP := "1.1.1.1" }, Online := true }
    let on5 : ProbeSet := { AtSec := 5, ExitV4 := { Family := "ipv4", IP := "1.1.1.1" }, Online := true }
    let off6 : ProbeSet := { AtSec := 6, ExitV4 := { Family := "ipv4", Error := "timeout" } }
    let off7 : ProbeSet := { AtSec := 7, ExitV4 := { Family := "ipv4", Error := "timeout" } }
    let on8 : ProbeSet := { AtSec := 8, ExitV4 := { Family := "ipv4", IP := "1.1.1.1" }, Online := true }
    (∃ s ∈ [b], s.Online = true)
    ∧ (RunTest "run" 0 { Mode := RunModeKillSwitch } [b] [on5, off6, off7, on8]).OfflineAtSec
        = some 7 := by
  intro b on5 off6 off7 on8
  have hB : ∃ s ∈ [b], s.Online = true := ⟨b, by simp, rfl⟩
  refine ⟨hB, ?_⟩
  rw [(offline_debounce "run" 0 { Mode := RunModeKillSwitch } [b] [on5, off6, off7, on8] hB).1]
  decide

/-- C8: `DeriveOnline` sets `Online` to true exactly when the IPv4 exit has an address
and no error, or the IPv6 exit has an address and no error, or `StunObserved` is
non-empty, and to false otherwise; every other field is left as it was. -/
theorem derive_online_spec (ps : ProbeSet) :
    ps.DeriveOnline =
      { ps with Online := decide ((ps.ExitV4.IP ≠ "" ∧ ps.ExitV4.Error = "")
                  ∨ (ps.ExitV6.IP ≠ "" ∧ ps.ExitV6.Error = "")
                  ∨ ps.StunObserved ≠ []) } := by
  unfold ProbeSet.DeriveOnline
  by_cases h4 : ps.ExitV4.IP ≠ "" ∧ ps.ExitV4.Error = ""
  · simp [h4]
  · by_cases h6 : ps.ExitV6.IP ≠ "" ∧ ps.ExitV6.Error = ""
    · simp [h6]
    · cases hs : ps.StunObserved with
      | nil => simp [h4, h6, hs]
      | cons a l => simp [h4, h6, hs]

/-- C9: when the baseline window has at least one online sample, the `Baseline` of the
report `RunTest` returns is the last online sample of the window, and it is the value of
the local `baseline` that the main loop compares against; a later online sample
overwrites it and a later offline sample does not. -/
theorem baseline_is_last_online (runID : String) (startedUTC : Int) (opt : TestOptions)
    (B M : List ProbeSet) (hB : ∃ s ∈ B, s.Online = true) :
    lastOnline B = some (RunTest runID startedUTC opt B M).Baseline
    ∧ (∀ r : RunReport, (baselinePhase r {} B).2 = (RunTest runID startedUTC opt B M).Baseline)
    ∧ (∀ s : ProbeSet, s.Online = true →
        (RunTest runID startedUTC opt (B ++ [s]) M).Baseline = s)
    ∧ (∀ s : ProbeSet, s.Online = false →
        (RunTest runID startedUTC opt (B ++ [s]) M).Baseline
          = (RunTest runID startedUTC opt B M).Baseline) := by
  obtain ⟨b, hb, -, -⟩ := lastOnline_isSome B hB
  have hb' : lastOnline B = some (lastOnlineOr {} B) := by simp [lastOnlineOr, hb]
  refine ⟨?_, ?_, ?_, ?_⟩
  · rw [(runTest_baseline_notes runID startedUTC opt B M).1]; exact hb'
  · intro r
    rw [(runTest_baseline_notes runID startedUTC opt B M).1, baselinePhase_eq]
  · intro s hs
    rw [(runTest_baseline_notes runID startedUTC opt (B ++ [s]) M).1]
    simp [lastOnlineOr, lastOnline_append_online B s hs]
  · intro s hs
    rw [(runTest_baseline_notes runID startedUTC opt (B ++ [s]) M).1,
      (runTest_baseline_notes runID startedUTC opt B M).1]
    simp [lastOnlineOr, lastOnline_append_offline B s hs]

/-- Witness of C9: samples online (1.1.1.1), online (2.2.2.2), offline: the baseline is the
second sample. -/
theorem baseline_is_last_online_witness :
    let on1 : ProbeSet := { AtSec := 1, ExitV4 := { Family := "ipv4", IP := "1.1.1.1" }, Online := true }
    let on2 : ProbeSet := { AtSec := 2, ExitV4 := { Family := "ipv4", IP := "2.2.2.2" }, Online := true }
    let off3 : ProbeSet := { AtSec := 3, ExitV4 := { Family := "ipv4", Error := "timeout" } }
    (∃ s ∈ [on1, on2, off3], s.Online = true)
    ∧ (RunTest "run" 0 { Mode := RunModeKillSwitch } [on1, on2, off3] []).Baseline = on2 := by
  intro on1 on2 off3
  have hB : ∃ s ∈ [on1, on2, off3], s.Online = true := ⟨on1, by simp, rfl⟩
  refine ⟨hB, ?_⟩
  have h := (baseline_is_last_online "run" 0 { Mode := RunModeKillSwitch } [on1, on2, off3] [] hB).1
  have h2 : lastOnline [on1, on2, off3] = some on2 := by decide
  rw [h2] at h
  exact (Option.some.inj h).symm

/-- C10 as stated fails: with two offline samples in the baseline window the report's
`Baseline` is not the final sample of the window; it is the zero-valued `ProbeSet`. -/
theorem baseline_never_online_counterexample :
    let off1 : ProbeSet := { AtSec := 1, ExitV4 := { Family := "ipv4", Error := "timeout" } }
    let off2 : ProbeSet := { AtSec := 2, ExitV4 := { Family := "ipv4", Error := "timeout" } }
    (∀ s ∈ [off1, off2], s.Online = false)
    ∧ (RunTest "run" 0 { Mode := RunModeKillSwitch } [off1, off2] []).Baseline ≠ off2
    ∧ (RunTest "run" 0 { Mode := RunModeKillSwitch } [off1, off2] []).Baseline = {} := by
  decide

/-- C10, amended: when no sample of the baseline window is online, the report's `Baseline`
is the zero-valued `ProbeSet` (no sample is stored in it; the samples of the window are
kept in `Probes` only), and the note that the baseline probes did not succeed is the
report's one note. -/
theorem baseline_never_online (runID : String) (startedUTC : Int) (opt : TestOptions)
    (B M : List ProbeSet) (hB : ∀ s ∈ B, s.Online = false) :
    (RunTest runID startedUTC opt B M).Baseline = {}
    ∧ (RunTest runID startedUTC opt B M).Notes
        = ["baseline probes did not succeed (no connectivity or blocked)"]
    ∧ (RunTest runID startedUTC opt B M).Probes = B ++ M := by
  have h := runTest_baseline_notes runID startedUTC opt B M
  have hl : lastOnlineOr {} B = {} := by simp [lastOnlineOr, lastOnline_none B hB]
  rw [hl] at h
  exact ⟨h.1, by rw [h.2.1]; rfl, h.2.2⟩

/-- Witness of C10, amended: two offline samples in the baseline window. -/
theorem baseline_never_online_witness :
    let off1 : ProbeSet := { AtSec := 1, ExitV4 := { Family := "ipv4", Error := "timeout" } }
    let off2 : ProbeSet := { AtSec := 2, ExitV4 := { Family := "ipv4", Error := "timeout" } }
    (∀ s ∈ [off1, off2], s.Online = false)
    ∧ (RunTest "run" 0 { Mode := RunModeKillSwitch } [off1, off2] []).Notes
        = ["baseline probes did not succeed (no connectivity or blocked)"] := by
  intro off1 off2
  have hB : ∀ s ∈ [off1, off2], s.Online = false := by decide
  exact ⟨hB, (baseline_never_online "run" 0 { Mode := RunModeKillSwitch } [off1, off2] [] hB).2.1⟩

/-- C11: for every transaction id `t`, `buildBindingRequest t` is the 8 bytes
`00 01 00 00 21 12 A4 42` followed by the 12 bytes of `t`: it is 20 bytes long, bytes 0..1 are
the binding-request type, bytes 2..3 the zero body length, bytes 4..7 the magic cookie in
big-endian order, and bytes 8..19 equal `t`. -/
theorem buildBindingRequest_layout (t : TxID) :
    buildBindingRequest t
        = [0x00, 0x01, 0x00, 0x00, 0x21, 0x12, 0xA4, 0x42] ++ List.ofFn t
    ∧ (buildBindingRequest t).length = 20
    ∧ (buildBindingRequest t).take 2 = [0x00, 0x01]
    ∧ ((buildBindingRequest t).drop 2).take 2 = [0x00, 0x00]
    ∧ ((buildBindingRequest t).drop 4).take 4 = [0x21, 0x12, 0xA4, 0x42]
    ∧ (buildBindingRequest t).drop 8 = List.ofFn t
    ∧ ∀ i : Fin 12, (buildBindingRequest t)[8 + i.val]? = some (t i) := by
  have h : buildBindingRequest t
      = [0x00, 0x01, 0x00, 0x00, 0x21, 0x12, 0xA4, 0x42] ++ List.ofFn t := by
    have e1 : putUint16 stunBindingRequest = [0x00, 0x01] := by decide
    have e2 : putUint16 0 = [0x00, 0x00] := by decide
    have e3 : putUint32 stunMagicCookie = [0x21, 0x12, 0xA4, 0x42] := by decide
    simp only [buildBindingRequest, e1, e2, e3, List.cons_append, List.nil_append]
  refine ⟨h, ?_, ?_, ?_, ?_, ?_, ?_⟩
  · rw [h]; simp
  · rw [h]; rfl
  · rw [h]; rfl
  · rw [h]; rfl
  · rw [h]; rfl
  · intro i
    rw [h]
    have : ([0x00, 0x01, 0x00, 0x00, 0x21, 0x12, 0xA4, 0x42] ++ List.ofFn t : List Byte)[8 + i.val]?
        = (List.ofFn t)[i.val]? := by
      rw [List.getElem?_append_right (by simp)]
      simp
    rw [this, List.getElem?_eq_getElem (by simp), List.getElem_ofFn]

/-- C12: if a report has at most one exit delta per family, then after a call of
`MaybeRecordExitDelta` it still has, and the old list is a prefix of the new one;
`MaybeRecordDNSDelta` never replaces a DNS delta that is set; and every report `RunTest`
returns has at most one ipv4 delta, at most one ipv6 delta (at most one per family) and,
its `DNSDelta` being one nilable value, at most one DNS delta. -/
theorem exit_delta_invariant (r : RunReport) (baseline current : ProbeSet)
    (h : AtMostOnePerFamily r) :
    AtMostOnePerFamily (r.MaybeRecordExitDelta baseline current)
    ∧ r.ExitDeltas <+: (r.MaybeRecordExitDelta baseline current).ExitDeltas
    ∧ (∀ d, r.DNSDelta = some d →
        (r.MaybeRecordDNSDelta baseline current).DNSDelta = some d)
    ∧ (∀ (runID : String) (startedUTC : Int) (opt : TestOptions) (B M : List ProbeSet),
        (deltasOf "ipv4" (RunTest runID startedUTC opt B M)).length ≤ 1
        ∧ (deltasOf "ipv6" (RunTest runID startedUTC opt B M)).length ≤ 1
        ∧ AtMostOnePerFamily (RunTest runID startedUTC opt B M)
        ∧ (RunTest runID startedUTC opt B M).DNSDelta.toList.length ≤ 1) := by
  refine ⟨atMostOnePerFamily_step r baseline current h, ?_, ?_, ?_⟩
  · rw [maybeRecordExitDelta_list, List.append_assoc]
    exact List.prefix_append _ _
  · intro d hd
    unfold RunReport.MaybeRecordDNSDelta
    split_ifs with h1 h2
    · exact hd
    · rw [hd] at h2
      simp at h2
    · exact hd
  · intro runID startedUTC opt B M
    have hall : AtMostOnePerFamily (RunTest runID startedUTC opt B M) := by
      intro family
      unfold deltasOf
      rw [runTest_exitDeltas]
      exact atMostOnePerFamily_fold _ M {} (by intro f; simp [deltasOf]) family
    refine ⟨hall "ipv4", hall "ipv6", hall, ?_⟩
    cases (RunTest runID startedUTC opt B M).DNSDelta <;> simp

/-- Witness of C12: a report holding one ipv4 delta, and a sample that differs from the
baseline in both families: the ipv4 delta stays as it is and one ipv6 delta is appended. -/
theorem exit_delta_invariant_witness :
    let b : ProbeSet :=
      { ExitV4 := { Family := "ipv4", IP := "1.1.1.1" },
        ExitV6 := { Family := "ipv6", IP := "2001:db8::1" } }
    let s : ProbeSet :=
      { AtSec := 8, ExitV4 := { Family := "ipv4", IP := "3.3.3.3" },
        ExitV6 := { Family := "ipv6", IP := "2001:db8::2" } }
    let d4 : ExitDelta :=
      { Family := "ipv4", From := b.ExitV4, To := { Family := "ipv4", IP := "2.2.2.2" }, AtSec := 6 }
    let r : RunReport := { ExitDeltas := [d4] }
    AtMostOnePerFamily r
    ∧ AtMostOnePerFamily (r.MaybeRecordExitDelta b s)
    ∧ (r.MaybeRecordExitDelta b s).ExitDeltas
        = [d4, { Family := "ipv6", From := b.ExitV6, To := s.ExitV6, AtSec := 8 }] := by
  intro b s d4 r
  have hr : AtMostOnePerFamily r := by
    intro family
    simp only [deltasOf, r, d4, List.filter_cons, List.filter_nil]
    split_ifs <;> simp
  exact ⟨hr, (exit_delta_invariant r b s hr).1, by decide⟩

/-- C13: `MaybeRecordDNSDelta` sets `DNSDelta` to the delta from the baseline's recursors to
the current sample's, at the sample's second, exactly when both lists are non-empty,
`equalStringSets` finds them different and no delta is set yet; in every other case it
returns the report unchanged. Two lists that are permutations of each other never
produce a delta. -/
theorem maybeRecordDNSDelta_spec (r : RunReport) (baseline current : ProbeSet) :
    r.MaybeRecordDNSDelta baseline current =
        (if baseline.DNSRecursors ≠ [] ∧ current.DNSRecursors ≠ []
              ∧ equalStringSets baseline.DNSRecursors current.DNSRecursors = false
              ∧ r.DNSDelta = none then
          { r with DNSDelta := some { From := baseline.DNSRecursors, To := current.DNSRecursors,
                                      AtSec := current.AtSec } }
         else r)
    ∧ (baseline.DNSRecursors.Perm current.DNSRecursors →
        r.MaybeRecordDNSDelta baseline current = r) := by
  have hmain : r.MaybeRecordDNSDelta baseline current =
        (if baseline.DNSRecursors ≠ [] ∧ current.DNSRecursors ≠ []
              ∧ equalStringSets baseline.DNSRecursors current.DNSRecursors = false
              ∧ r.DNSDelta = none then
          { r with DNSDelta := some { From := baseline.DNSRecursors, To := current.DNSRecursors,
                                      AtSec := current.AtSec } }
         else r) := by
    unfold RunReport.MaybeRecordDNSDelta
    by_cases hb : baseline.DNSRecursors = []
    · simp [hb]
    · by_cases hc : current.DNSRecursors = []
      · simp [hc]
      · by_cases he : equalStringSets baseline.DNSRecursors current.DNSRecursors = true
        · simp [hb, hc, he]
        · have he' : equalStringSets baseline.DNSRecursors current.DNSRecursors = false := by
            simpa using he
          by_cases hd : r.DNSDelta = none
          · simp [hb, hc, he', hd]
          · simp [hb, hc, he', hd]
  refine ⟨hmain, fun hp => ?_⟩
  rw [hmain, if_neg]
  rintro ⟨-, -, he, -⟩
  rw [(equalStringSets_eq_true_iff _ _).mpr hp] at he
  exact Bool.noConfusion he

/-- Witness of C13: the same two addresses in the other order leave the report unchanged; a
different address records the delta. -/
theorem maybeRecordDNSDelta_spec_witness :
    (["1.1.1.1", "8.8.8.8"] : List String).Perm ["8.8.8.8", "1.1.1.1"]
    ∧ (({} : RunReport).MaybeRecordDNSDelta { DNSRecursors := ["1.1.1.1", "8.8.8.8"] }
          { AtSec := 9, DNSRecursors := ["8.8.8.8", "1.1.1.1"] }) = {}
    ∧ (({} : RunReport).MaybeRecordDNSDelta { DNSRecursors := ["1.1.1.1", "8.8.8.8"] }
          { AtSec := 9, DNSRecursors := ["9.9.9.9"] }).DNSDelta
        = some { From := ["1.1.1.1", "8.8.8.8"], To := ["9.9.9.9"], AtSec := 9 } := by
  have hp : (["1.1.1.1", "8.8.8.8"] : List String).Perm ["8.8.8.8", "1.1.1.1"] :=
    List.Perm.swap _ _ _
  refine ⟨hp, (maybeRecordDNSDelta_spec {} { DNSRecursors := ["1.1.1.1", "8.8.8.8"] }
      { AtSec := 9, DNSRecursors := ["8.8.8.8", "1.1.1.1"] }).2 hp, by decide⟩

/-- C14: `equalStringSets a b` is true exactly when `b` is a permutation of `a`, that is when
every string occurs equally often in both; so it is reflexive, symmetric, unchanged by
reordering either argument, and on duplicate-free lists it is equality of the sets of
elements. -/
theorem equalStringSets_multiset (a b : List String) :
    (equalStringSets a b = true ↔ a.Perm b)
    ∧ (equalStringSets a b = true ↔ ∀ s : String, a.count s = b.count s)
    ∧ equalStringSets a a = true
    ∧ equalStringSets a b = equalStringSets b a
    ∧ (∀ a' b' : List String, a.Perm a' → b.Perm b' →
        equalStringSets a b = equalStringSets a' b')
    ∧ (a.Nodup → b.Nodup → (equalStringSets a b = true ↔ ∀ s : String, s ∈ a ↔ s ∈ b)) := by
  refine ⟨equalStringSets_eq_true_iff a b, ?_, ?_, ?_, ?_, ?_⟩
  · rw [equalStringSets_eq_true_iff, List.perm_iff_count]
  · rw [equalStringSets_eq_true_iff]
  · rw [Bool.eq_iff_iff, equalStringSets_eq_true_iff, equalStringSets_eq_true_iff]
    exact ⟨List.Perm.symm, List.Perm.symm⟩
  · intro a' b' ha hb
    rw [Bool.eq_iff_iff, equalStringSets_eq_true_iff, equalStringSets_eq_true_iff]
    exact ⟨fun h => (ha.symm.trans h).trans hb, fun h => (ha.trans h).trans hb.symm⟩
  · intro ha hb
    rw [equalStringSets_eq_true_iff]
    exact List.perm_ext_iff_of_nodup ha hb

/-- Witness of C14: two duplicate-free lists with the same elements compare equal; lists of
equal length and equal sets of elements but different counts do not. -/
theorem equalStringSets_multiset_witness :
    (["1.1.1.1", "8.8.8.8"] : List String).Nodup ∧ (["8.8.8.8", "1.1.1.1"] : List String).Nodup
    ∧ equalStringSets ["1.1.1.1", "8.8.8.8"] ["8.8.8.8", "1.1.1.1"] = true
    ∧ equalStringSets ["1.1.1.1", "1.1.1.1", "8.8.8.8"] ["1.1.1.1", "8.8.8.8", "8.8.8.8"] = false := by
  have h1 : (["1.1.1.1", "8.8.8.8"] : List String).Nodup := by decide
  have h2 : (["8.8.8.8", "1.1.1.1"] : List String).Nodup := by decide
  refine ⟨h1, h2, ?_, by decide⟩
  rw [(equalStringSets_multiset _ _).2.2.2.2.2 h1 h2]
  intro s
  simp only [List.mem_cons, List.mem_singleton, List.not_mem_nil, or_false]
  exact Or.comm

/-- C15: in vpn-only mode `Finish` sets `Overall` to OK and leaves `KillSwitch` empty, whatever
the baseline, the deltas and the offline onset are; no other field changes. -/
theorem finish_vpn_only_verdict (r : RunReport) (h : r.Mode = RunModeVPNOnly) :
    r.Finish.Verdict.Overall = "OK" ∧ r.Finish.Verdict.KillSwitch = ""
      ∧ r.Finish =
          { r with
            Verdict := { Overall := "OK", KillSwitch := "",
                         Reason := "VPN test completed (no kill-switch validation)." } } := by
  have hne : ¬ (RunModeVPNOnly = RunModeKillSwitch) := by decide
  unfold RunReport.Finish
  simp [h, hne]

/-- Witness of C15: a vpn-only report with an offline baseline, an exit delta, a DNS delta and
an offline onset gets OK. -/
theorem finish_vpn_only_verdict_witness :
    let r : RunReport :=
      { Mode := "vpn-only", Baseline := { Online := false },
        ExitDeltas := [{ Family := "ipv4" }], DNSDelta := some {}, OfflineAtSec := some 7 }
    r.Mode = RunModeVPNOnly ∧ r.Finish.Verdict.Overall = "OK"
      ∧ r.Finish.Verdict.KillSwitch = "" := by
  intro r
  have h := finish_vpn_only_verdict r (by decide)
  exact ⟨by decide, h.1, h.2.1⟩

/-- C16: for a packet with a valid header whose declared body is a sequence of well-formed
attributes (type, length, value, padding to a multiple of 4), `parseXORMappedAddress`
returns the decoding of the value of the first attribute of type 0x0020, whatever follows
it, so a first XOR-MAPPED-ADDRESS that fails to decode fails the parse; with no such
attribute it fails with 'not found'. -/
theorem parse_scans_attributes (pkt : List Byte) (txid : TxID) (attrs : List Attr)
    (hlen : 20 ≤ pkt.length)
    (hcookie : (pkt.drop 4).take 4 = [0x21, 0x12, 0xA4, 0x42])
    (hdecl : 20 + declaredLen pkt ≤ pkt.length)
    (hbody : declaredBody pkt = encodeAttrs attrs)
    (hwf : ∀ a ∈ attrs, a.WellFormed) :
    parseXORMappedAddress pkt txid = scanSpec txid attrs
    ∧ (∀ pre a post, attrs = pre ++ a :: post →
        (∀ x ∈ pre, x.typ ≠ stunAttrXORMappedAddress) → a.typ = stunAttrXORMappedAddress →
        parseXORMappedAddress pkt txid = decodeXORMappedAddress a.val txid)
    ∧ ((∀ x ∈ attrs, x.typ ≠ stunAttrXORMappedAddress) →
        parseXORMappedAddress pkt txid = .ok (.fail "stun: xor-mapped-address not found")) := by
  have h : parseXORMappedAddress pkt txid = scanSpec txid attrs := by
    rw [parseXORMappedAddress_eq, if_neg (by omega), if_neg (by omega),
      if_neg (by simp [hcookie]), hbody]
    exact scanAttrs_encodeAttrs txid attrs _
      (by have := encodeAttrs_length attrs; omega) hwf
  refine ⟨h, ?_, ?_⟩
  · intro pre a post hsplit hpre ha
    rw [h, hsplit]
    unfold scanSpec
    rw [List.find?_append]
    have hnone : pre.find? (fun a => decide (a.typ = stunAttrXORMappedAddress)) = none := by
      rw [List.find?_eq_none]
      intro x hx
      simpa using hpre x hx
    simp [hnone, List.find?_cons, ha]
  · intro hno
    rw [h]
    unfold scanSpec
    have hnone : attrs.find? (fun a => decide (a.typ = stunAttrXORMappedAddress)) = none := by
      rw [List.find?_eq_none]
      intro x hx
      simpa using hno x hx
    rw [hnone]

/-- Witness of C16: a SOFTWARE attribute, an XOR-MAPPED-ADDRESS of family 3, and a valid
XOR-MAPPED-ADDRESS of 192.0.2.1: the parse fails on the first of the two. -/
theorem parse_scans_attributes_witness :
    let pkt : List Byte :=
      [0x01, 0x01, 0x00, 0x1C, 0x21, 0x12, 0xA4, 0x42, 1, 2, 3, 4, 5, 6, 7, 8, 9, 10, 11, 12,
       0x80, 0x22, 0x00, 0x03, 0x61, 0x62, 0x63, 0x00,
       0x00, 0x20, 0x00, 0x04, 0x00, 0x03, 0x00, 0x00,
       0x00, 0x20, 0x00, 0x08, 0x00, 0x01, 0x11, 0x22, 0xE1, 0x12, 0xA6, 0x43]
    let attrs : List Attr :=
      [{ typ := 0x8022, val := [0x61, 0x62, 0x63], pad := [0x00] },
       { typ := 0x0020, val := [0x00, 0x03, 0x00, 0x00], pad := [] },
       { typ := 0x0020, val := [0x00, 0x01, 0x11, 0x22, 0xE1, 0x12, 0xA6, 0x43], pad := [] }]
    (20 ≤ pkt.length ∧ (pkt.drop 4).take 4 = [0x21, 0x12, 0xA4, 0x42]
      ∧ 20 + declaredLen pkt ≤ pkt.length ∧ declaredBody pkt = encodeAttrs attrs
      ∧ ∀ a ∈ attrs, a.WellFormed)
    ∧ parseXORMappedAddress pkt (fun _ => 0) = .ok (.fail "stun: unsupported family")
    ∧ decodeXORMappedAddress [0x00, 0x01, 0x11, 0x22, 0xE1, 0x12, 0xA6, 0x43] (fun _ => 0)
        = .ok (.addr "192.0.2.1") := by
  intro pkt attrs
  have hwf : ∀ a ∈ attrs, a.WellFormed := by
    intro a ha
    simp only [attrs, List.mem_cons, List.mem_singleton, List.not_mem_nil, or_false] at ha
    rcases ha with rfl | rfl | rfl <;> exact ⟨by decide, by decide, by decide⟩
  have h1 : 20 ≤ pkt.length := by decide
  have h2 : (pkt.drop 4).take 4 = [0x21, 0x12, 0xA4, 0x42] := by decide
  have h3 : 20 + declaredLen pkt ≤ pkt.length := by decide
  have h4 : declaredBody pkt = encodeAttrs attrs := by decide
  refine ⟨⟨h1, h2, h3, h4, hwf⟩, ?_, by rfl⟩
  rw [(parse_scans_attributes pkt (fun _ => 0) attrs h1 h2 h3 h4 hwf).1]
  rfl

/-- C17: `decodeXORMappedAddress` returns an error and no address for a value shorter than 4
bytes, of family 0x01 and shorter than 8 bytes, of family 0x02 and shorter than 20 bytes,
or of another family; it returns an address for every value of family 0x01 with at least
8 bytes and of family 0x02 with at least 20 bytes. -/
theorem decode_errors_and_successes (val : List Byte) (txid : TxID) :
    ((val.length < 4
        ∨ (val[1]? = some stunFamilyIPv4 ∧ val.length < 8)
        ∨ (val[1]? = some stunFamilyIPv6 ∧ val.length < 20)
        ∨ (∃ f, val[1]? = some f ∧ f ≠ stunFamilyIPv4 ∧ f ≠ stunFamilyIPv6)) →
      ∃ msg, decodeXORMappedAddress val txid = .ok (.fail msg))
    ∧ (((val[1]? = some stunFamilyIPv4 ∧ 8 ≤ val.length)
        ∨ (val[1]? = some stunFamilyIPv6 ∧ 20 ≤ val.length)) →
      ∃ ip, decodeXORMappedAddress val txid = .ok (.addr ip)) := by
  have e64 : ¬ (stunFamilyIPv6 = stunFamilyIPv4) := by decide
  rw [decodeXORMappedAddress_eq]
  unfold decodeClosed
  constructor
  · rintro (h | ⟨hf, h⟩ | ⟨hf, h⟩ | ⟨f, hf, h1, h2⟩)
    · exact ⟨_, by rw [if_pos h]⟩
    · by_cases h4 : val.length < 4
      · exact ⟨_, by rw [if_pos h4]⟩
      · exact ⟨_, by rw [if_neg h4, if_pos (getD_of_getElem? val 1 _ hf), if_pos h]⟩
    · by_cases h4 : val.length < 4
      · exact ⟨_, by rw [if_pos h4]⟩
      · refine ⟨"stun: ipv6 addr too short", ?_⟩
        rw [if_neg h4, getD_of_getElem? val 1 _ hf, if_neg e64,
          if_pos (rfl : stunFamilyIPv6 = stunFamilyIPv6), if_pos h]
    · by_cases h4 : val.length < 4
      · exact ⟨_, by rw [if_pos h4]⟩
      · refine ⟨"stun: unsupported family", ?_⟩
        rw [if_neg h4, getD_of_getElem? val 1 _ hf, if_neg h1, if_neg h2]
  · rintro (⟨hf, h⟩ | ⟨hf, h⟩)
    · have h8 : ¬ val.length < 8 := by omega
      have h4 : ¬ val.length < 4 := by omega
      exact ⟨_, by rw [if_neg h4, if_pos (getD_of_getElem? val 1 _ hf), if_neg h8]⟩
    · have h20 : ¬ val.length < 20 := by omega
      have h4 : ¬ val.length < 4 := by omega
      exact ⟨_, by rw [if_neg h4, getD_of_getElem? val 1 _ hf, if_neg e64,
        if_pos (rfl : stunFamilyIPv6 = stunFamilyIPv6), if_neg h20]⟩

/-- Witness of C17: an IPv4 value of 6 bytes is an error, one of 8 bytes decodes. -/
theorem decode_errors_and_successes_witness :
    ((([0x00, 0x01, 0x11, 0x22, 0xE1, 0x12] : List Byte)[1]? = some stunFamilyIPv4
        ∧ ([0x00, 0x01, 0x11, 0x22, 0xE1, 0x12] : List Byte).length < 8)
      ∧ ∃ msg, decodeXORMappedAddress [0x00, 0x01, 0x11, 0x22, 0xE1, 0x12] (fun _ => 0)
                = .ok (.fail msg))
    ∧ ((([0x00, 0x01, 0x11, 0x22, 0xE1, 0x12, 0xA6, 0x43] : List Byte)[1]? = some stunFamilyIPv4
        ∧ 8 ≤ ([0x00, 0x01, 0x11, 0x22, 0xE1, 0x12, 0xA6, 0x43] : List Byte).length)
      ∧ ∃ ip, decodeXORMappedAddress [0x00, 0x01, 0x11, 0x22, 0xE1, 0x12, 0xA6, 0x43] (fun _ => 0)
                = .ok (.addr ip)) := by
  have h1 : ([0x00, 0x01, 0x11, 0x22, 0xE1, 0x12] : List Byte)[1]? = some stunFamilyIPv4
        ∧ ([0x00, 0x01, 0x11, 0x22, 0xE1, 0x12] : List Byte).length < 8 := by decide
  have h2 : ([0x00, 0x01, 0x11, 0x22, 0xE1, 0x12, 0xA6, 0x43] : List Byte)[1]? = some stunFamilyIPv4
        ∧ 8 ≤ ([0x00, 0x01, 0x11, 0x22, 0xE1, 0x12, 0xA6, 0x43] : List Byte).length := by decide
  exact ⟨⟨h1, (decode_errors_and_successes _ _).1 (Or.inr (Or.inl h1))⟩,
         ⟨h2, (decode_errors_and_successes _ _).2 (Or.inl h2)⟩⟩

/-- C18: two packets of the same length that agree on bytes 2..7 and from byte 20 on (they
differ in bytes 0..1 and 8..19 only) give the same result of `parseXORMappedAddress` for
the same `txid` argument. -/
theorem parse_ignores_type_and_header_txid (pkt1 pkt2 : List Byte) (txid : TxID)
    (hlen : pkt1.length = pkt2.length)
    (hmid : (pkt1.drop 2).take 6 = (pkt2.drop 2).take 6)
    (hbody : pkt1.drop 20 = pkt2.drop 20) :
    parseXORMappedAddress pkt1 txid = parseXORMappedAddress pkt2 txid := by
  have h23 : declaredLen pkt1 = declaredLen pkt2 := by
    have e : ∀ p : List Byte, declaredLen p
        = (((p.drop 2).take 6).getD 0 0).val * 256 + (((p.drop 2).take 6).getD 1 0).val := by
      intro p
      simp [declaredLen, List.getD, List.getElem?_take, List.getElem?_drop]
    rw [e pkt1, e pkt2, hmid]
  have hck : (pkt1.drop 4).take 4 = (pkt2.drop 4).take 4 := by
    have e : ∀ p : List Byte, (p.drop 4).take 4 = (((p.drop 2).take 6).drop 2).take 4 := by
      intro p
      simp [List.drop_take, List.take_take]
    rw [e pkt1, e pkt2, hmid]
  have hb : declaredBody pkt1 = declaredBody pkt2 := by
    unfold declaredBody
    rw [hbody, h23]
  rw [parseXORMappedAddress_eq, parseXORMappedAddress_eq, hlen, h23, hck, hb]

/-- Witness of C18: a binding response and an error response with another transaction id in
the header, same body: both give 192.0.2.1. -/
theorem parse_ignores_type_and_header_txid_witness :
    let body : List Byte := [0x00, 0x20, 0x00, 0x08, 0x00, 0x01, 0x11, 0x22, 0xE1, 0x12, 0xA6, 0x43]
    let pkt1 : List Byte :=
      [0x01, 0x01, 0x00, 0x0C, 0x21, 0x12, 0xA4, 0x42, 1, 2, 3, 4, 5, 6, 7, 8, 9, 10, 11, 12] ++ body
    let pkt2 : List Byte :=
      [0x01, 0x11, 0x00, 0x0C, 0x21, 0x12, 0xA4, 0x42, 0, 0, 0, 0, 0, 0, 0, 0, 0, 0, 0, 0] ++ body
    (pkt1.length = pkt2.length ∧ (pkt1.drop 2).take 6 = (pkt2.drop 2).take 6
      ∧ pkt1.drop 20 = pkt2.drop 20)
    ∧ parseXORMappedAddress pkt1 (fun i => toByte (i.val + 1))
        = parseXORMappedAddress pkt2 (fun i => toByte (i.val + 1))
    ∧ parseXORMappedAddress pkt2 (fun i => toByte (i.val + 1)) = .ok (.addr "192.0.2.1") := by
  intro body pkt1 pkt2
  have h1 : pkt1.length = pkt2.length := by decide
  have h2 : (pkt1.drop 2).take 6 = (pkt2.drop 2).take 6 := by decide
  have h3 : pkt1.drop 20 = pkt2.drop 20 := by decide
  exact ⟨⟨h1, h2, h3⟩, parse_ignores_type_and_header_txid pkt1 pkt2 _ h1 h2 h3, by rfl⟩

/-- C19: when every server's attempt is a failure or a decoded address, `StunObservedIPs`
returns the error 'no STUN responses' exactly when no server yields a non-empty address,
and otherwise the non-empty addresses of the successful servers in server order, each
distinct address once, at its first occurrence; taking a failing server out of the list
does not change the result. -/
theorem stunObservedIPs_spec (ios : List ServerTrace)
    (h : ∀ io ∈ ios, ∃ o, stunAttempt io = .ok o) :
    StunObservedIPs ios =
        .ok (if contributed ios = [] then .error "no STUN responses"
             else .ok (keepFirst (contributed ios)))
    ∧ ((∃ msg, StunObservedIPs ios = .ok (.error msg)) ↔
        ∀ io ∈ ios, ∀ ip, attemptAddr io = some ip → ip = "")
    ∧ (keepFirst (contributed ios)).Nodup
    ∧ (∀ x, x ∈ keepFirst (contributed ios) ↔ x ≠ "" ∧ ∃ io ∈ ios, attemptAddr io = some x)
    ∧ (∀ pre io post, ios = pre ++ io :: post → attemptAddr io = none →
        StunObservedIPs ios = StunObservedIPs (pre ++ post)) := by
  have hmain := stunObservedIPs_eq ios h
  have hmem : ∀ x, x ∈ contributed ios ↔ x ≠ "" ∧ ∃ io ∈ ios, attemptAddr io = some x := by
    intro x
    simp only [contributed, List.mem_filter, List.mem_filterMap, decide_eq_true_eq]
    exact And.comm
  refine ⟨hmain, ?_, nodup_keepFirst _, ?_, ?_⟩
  · rw [hmain]
    by_cases hc : contributed ios = []
    · rw [if_pos hc]
      constructor
      · intro _ io hio ip hip
        by_contra hne
        have : ip ∈ contributed ios := (hmem ip).mpr ⟨hne, io, hio, hip⟩
        rw [hc] at this
        exact absurd this (List.not_mem_nil ip)
      · intro _
        exact ⟨_, rfl⟩
    · rw [if_neg hc]
      constructor
      · rintro ⟨msg, e⟩
        simp at e
      · intro hall
        exfalso
        apply hc
        rw [List.eq_nil_iff_forall_not_mem]
        intro x hx
        obtain ⟨hne, io, hio, hip⟩ := (hmem x).mp hx
        exact hne (hall io hio x hip)
  · intro x
    rw [mem_keepFirst, hmem]
  · intro pre io post hsplit hnone
    have h' : ∀ x ∈ pre ++ post, ∃ o, stunAttempt x = .ok o := by
      intro x hx
      apply h x
      rw [hsplit]
      rcases List.mem_append.mp hx with hx | hx
      · exact List.mem_append_left _ hx
      · exact List.mem_append_right _ (List.mem_cons_of_mem io hx)
    have hc : contributed ios = contributed (pre ++ post) := by
      rw [hsplit]
      simp [contributed, List.filterMap_append, List.filterMap_cons, hnone]
    rw [hmain, stunObservedIPs_eq _ h', hc]

/-- Witness of C19: a dial error, 192.0.2.1, a short read, 198.51.113.11 and 192.0.2.1 again
give the two addresses in that order. -/
theorem stunObservedIPs_spec_witness :
    let good : List Byte :=
      [0x01, 0x01, 0x00, 0x0C, 0x21, 0x12, 0xA4, 0x42, 1, 2, 3, 4, 5, 6, 7, 8, 9, 10, 11, 12,
       0x00, 0x20, 0x00, 0x08, 0x00, 0x01, 0x11, 0x22, 0xE1, 0x12, 0xA6, 0x43]
    let other : List Byte :=
      [0x01, 0x01, 0x00, 0x0C, 0x21, 0x12, 0xA4, 0x42, 1, 2, 3, 4, 5, 6, 7, 8, 9, 10, 11, 12,
       0x00, 0x20, 0x00, 0x08, 0x00, 0x01, 0x11, 0x22, 0xE7, 0x21, 0xD5, 0x49]
    let ios : List ServerTrace :=
      [{ server := "a:3478", dialErr := true },
       { server := "b:3478", recv := good },
       { server := "c:3478", recv := [0x01, 0x01, 0x00] },
       { server := "d:3478", recv := other },
       { server := "e:3478", recv := good }]
    (∀ io ∈ ios, ∃ o, stunAttempt io = .ok o)
    ∧ StunObservedIPs ios = .ok (.ok ["192.0.2.1", "198.51.113.11"]) := by
  intro good other ios
  have h : ∀ io ∈ ios, ∃ o, stunAttempt io = .ok o := by
    intro io hio
    simp only [ios, List.mem_cons, List.mem_singleton, List.not_mem_nil, or_false] at hio
    rcases hio with rfl | rfl | rfl | rfl | rfl <;> exact ⟨_, rfl⟩
  refine ⟨h, ?_⟩
  rw [(stunObservedIPs_spec ios h).1]
  rfl

/-- C21: on a map whose values are all strings, `pickString` returns the trimmed value of
the first key of the list that is present with a value that is not blank after trimming
(keys before it that are absent or blank do not stop the search), and the empty string when
no key qualifies. -/
theorem pickString_spec (m : AnyMap) (keys : List String)
    (h : ∀ kv ∈ m, ∃ s, kv.2 = .str s) :
    pickString m keys = ((keys.filterMap (pickCandidate m)).head?).getD ""
    ∧ (∀ pre k post t, keys = pre ++ k :: post →
        (∀ x ∈ pre, pickCandidate m x = none) →
        m.get? k = some (.str t) → trimSpace t ≠ "" →
        pickString m keys = trimSpace t)
    ∧ ((∀ x ∈ keys, pickCandidate m x = none) → pickString m keys = "") := by
  have hmain : ∀ keys : List String,
      pickString m keys = ((keys.filterMap (pickCandidate m)).head?).getD "" := by
    intro keys
    induction keys with
    | nil => rfl
    | cons k rest ih =>
      rw [pickString_cons m h, List.filterMap_cons]
      cases hc : pickCandidate m k with
      | none => simpa using ih
      | some v => simp
  refine ⟨hmain keys, ?_, ?_⟩
  · intro pre k post t hsplit hpre hk ht
    have hnone : pre.filterMap (pickCandidate m) = [] := by
      rw [List.filterMap_eq_nil_iff]
      exact hpre
    have hc : pickCandidate m k = some (trimSpace t) := by
      simp [pickCandidate, hk, ht]
    rw [hmain, hsplit, List.filterMap_append, hnone, List.filterMap_cons, hc]
    rfl
  · intro hall
    have hnone : keys.filterMap (pickCandidate m) = [] := by
      rw [List.filterMap_eq_nil_iff]
      exact hall
    rw [hmain, hnone]
    rfl

/-- Witness of C21: the key `ip` is present with a blank value, `ip_address` and `address`
are absent, and `query` gives the trimmed address; with no qualifying key the result is
empty. -/
theorem pickString_spec_witness :
    let m : AnyMap := [("ip", .str "  "), ("query", .str " 203.0.113.7\n"), ("city", .str "Oslo")]
    (∀ kv ∈ m, ∃ s, kv.2 = JsonAny.str s)
    ∧ pickString m ["ip", "ip_address", "address", "query"] = "203.0.113.7"
    ∧ pickString m ["ip", "tz"] = "" := by
  intro m
  have h : ∀ kv ∈ m, ∃ s, kv.2 = JsonAny.str s := by
    intro kv hkv
    simp only [m, List.mem_cons, List.mem_singleton, List.not_mem_nil, or_false] at hkv
    rcases hkv with rfl | rfl | rfl <;> exact ⟨_, rfl⟩
  refine ⟨h, ?_, ?_⟩
  · rw [(pickString_spec m _ h).1]
    decide
  · rw [(pickString_spec m _ h).1]
    decide

/-- C22: `changed a b` is false exactly when the `PublicIPs` lists have equal length and
agree index by index on `Family`, `IP` and `Error`, the `DnsRecursors` are equal as
multisets, the `StunObserved` are equal as multisets, and the non-empty `IPAddress` values of
the `DnsLeak` lists are equal as multisets; two pairs of snapshots that agree on these
fields (whatever their timestamps, notes, sources and other `DnsLeak` fields) get the same
result; and the two cases of `monitor_test.go` come out as `true` (one public IP differs)
and `false` (same content at different times). -/
theorem changed_spec (a b : Snapshot) :
    (changed a b = false ↔
      (a.PublicIPs.length = b.PublicIPs.length
        ∧ ∀ (i : Nat) (x y : PublicIPResult), a.PublicIPs[i]? = some x → b.PublicIPs[i]? = some y →
            x.Family = y.Family ∧ x.IP = y.IP ∧ x.Error = y.Error)
      ∧ a.DnsRecursors.Perm b.DnsRecursors
      ∧ a.StunObserved.Perm b.StunObserved
      ∧ ((a.DnsLeak.map DnsLeakServer.IPAddress).filter (fun s => decide (s ≠ ""))).Perm
          ((b.DnsLeak.map DnsLeakServer.IPAddress).filter (fun s => decide (s ≠ ""))))
    ∧ (∀ a2 b2 : Snapshot,
        a2.PublicIPs.map PublicIPResult.compared = a.PublicIPs.map PublicIPResult.compared →
        b2.PublicIPs.map PublicIPResult.compared = b.PublicIPs.map PublicIPResult.compared →
        a2.DnsRecursors = a.DnsRecursors → b2.DnsRecursors = b.DnsRecursors →
        a2.StunObserved = a.StunObserved → b2.StunObserved = b.StunObserved →
        a2.DnsLeak.map DnsLeakServer.IPAddress = a.DnsLeak.map DnsLeakServer.IPAddress →
        b2.DnsLeak.map DnsLeakServer.IPAddress = b.DnsLeak.map DnsLeakServer.IPAddress →
        changed a2 b2 = changed a b)
    ∧ changed
        { TimestampUTC := 100,
          PublicIPs := [{ Source := "ipify", Family := "ipv4", IP := "1.1.1.1" }] }
        { TimestampUTC := 200,
          PublicIPs := [{ Source := "ipify", Family := "ipv4", IP := "2.2.2.2" }] } = true
    ∧ changed
        { TimestampUTC := 100,
          PublicIPs := [{ Source := "ipify", Family := "ipv4", IP := "1.1.1.1" }],
          DnsRecursors := ["9.9.9.9"], StunObserved := ["1.1.1.1"],
          DnsLeak := [{ IPAddress := "9.9.9.9" }] }
        { TimestampUTC := 200,
          PublicIPs := [{ Source := "ipify", Family := "ipv4", IP := "1.1.1.1" }],
          DnsRecursors := ["9.9.9.9"], StunObserved := ["1.1.1.1"],
          DnsLeak := [{ IPAddress := "9.9.9.9" }] } = false := by
  have hidx : ∀ a b : List PublicIPResult,
      List.Forall₂ PublicIPResult.Agrees a b ↔
        (a.length = b.length ∧ ∀ (i : Nat) (x y : PublicIPResult), a[i]? = some x → b[i]? = some y →
            x.Family = y.Family ∧ x.IP = y.IP ∧ x.Error = y.Error) := by
    intro a
    induction a with
    | nil =>
      intro b
      cases b with
      | nil => simp
      | cons y ys => simp
    | cons x xs ih =>
      intro b
      cases b with
      | nil => simp
      | cons y ys =>
        rw [List.forall₂_cons, ih ys]
        constructor
        · rintro ⟨hxy, hlen, hrest⟩
          refine ⟨by simp [hlen], ?_⟩
          intro i x' y' hx' hy'
          cases i with
          | zero =>
            simp only [List.getElem?_cons_zero, Option.some.injEq] at hx' hy'
            subst hx' hy'
            exact hxy
          | succ j =>
            simp only [List.getElem?_cons_succ] at hx' hy'
            exact hrest j x' y' hx' hy'
        · rintro ⟨hlen, hall⟩
          refine ⟨hall 0 x y (by simp) (by simp), by simpa using hlen, ?_⟩
          intro i x' y' hx' hy'
          exact hall (i + 1) x' y' (by simpa using hx') (by simpa using hy')
  refine ⟨?_, ?_, by decide, by decide⟩
  · rw [changed_eq_false_iff, hidx, leakIPs_eq, leakIPs_eq]
  · intro a2 b2 h1 h2 h3 h4 h5 h6 h7 h8
    have key : changed a2 b2 = false ↔ changed a b = false := by
      rw [changed_eq_false_iff, changed_eq_false_iff, forall₂_agrees_iff, forall₂_agrees_iff,
        leakIPs_eq, leakIPs_eq, leakIPs_eq, leakIPs_eq, h1, h2, h3, h4, h5, h6, h7, h8]
    cases h : changed a2 b2 <;> cases h' : changed a b <;> simp_all

/-- C23 as stated fails: none of the timeouts of `takeProbeSet` is shorter than the
interval `RunTest` substitutes by default, nor than the one the test command configures. -/
theorem probe_timeouts_counterexample :
    ¬ (exitV4Timeout < (TestOptions.withDefaults {}).Interval)
    ∧ ¬ (exitV6Timeout < (TestOptions.withDefaults {}).Interval)
    ∧ ¬ (stunTimeout < (TestOptions.withDefaults {}).Interval)
    ∧ ¬ (exitV4Timeout < (cliTestOptions false true []).withDefaults.Interval)
    ∧ ¬ (stunTimeout < (cliTestOptions true true []).withDefaults.Interval) := by
  decide

/-- C23, amended: the timeouts of `takeProbeSet` are 3 s (IPv4 exit lookup), 3 s (IPv6
exit lookup) and 6 s (STUN reflection); the interval `RunTest` substitutes when none is
given and the interval the test command configures are both 1 s; hence the interval is
strictly shorter than each of the three timeouts in both cases. -/
theorem probe_timeouts (opt : TestOptions) (nks enableSTUN : Bool) (stunServers : List String) :
    exitV4Timeout = 3 * timeSecond ∧ exitV6Timeout = 3 * timeSecond
    ∧ stunTimeout = 6 * timeSecond
    ∧ (opt.Interval ≤ 0 → opt.withDefaults.Interval = 1 * timeSecond)
    ∧ (cliTestOptions nks enableSTUN stunServers).withDefaults.Interval = 1 * timeSecond
    ∧ (opt.Interval ≤ 0 →
        opt.withDefaults.Interval < exitV4Timeout ∧ opt.withDefaults.Interval < exitV6Timeout
        ∧ opt.withDefaults.Interval < stunTimeout)
    ∧ ((cliTestOptions nks enableSTUN stunServers).withDefaults.Interval < exitV4Timeout
        ∧ (cliTestOptions nks enableSTUN stunServers).withDefaults.Interval < exitV6Timeout
        ∧ (cliTestOptions nks enableSTUN stunServers).withDefaults.Interval < stunTimeout) := by
  have hd : opt.Interval ≤ 0 → opt.withDefaults.Interval = 1 * timeSecond := by
    intro h
    unfold TestOptions.withDefaults
    simp only
    split_ifs <;> rfl
  have hc : (cliTestOptions nks enableSTUN stunServers).withDefaults.Interval = 1 * timeSecond := by
    cases nks <;> rfl
  refine ⟨rfl, rfl, rfl, hd, hc, ?_, ?_⟩
  · intro h
    rw [hd h]
    decide
  · rw [hc]
    decide

/-- Witness of C23, amended: the zero-valued options get the 1 s default, which is below
the IPv4 timeout, and the interval of the test command is below the STUN timeout. -/
theorem probe_timeouts_witness :
    (({} : TestOptions).Interval ≤ 0)
    ∧ (TestOptions.withDefaults {}).Interval = 1000000000
    ∧ (TestOptions.withDefaults {}).Interval < exitV4Timeout
    ∧ (cliTestOptions true true []).withDefaults.Interval < stunTimeout := by
  have h : ({} : TestOptions).Interval ≤ 0 := by decide
  have t := probe_timeouts {} true true []
  exact ⟨h, t.2.2.2.1 h, (t.2.2.2.2.2.1 h).1, t.2.2.2.2.2.2.2.2⟩

/-- C24: for a run of `RunTest` in kill-switch mode over baseline samples `B` with last
online sample `b` and main samples `M`, the verdict is FAIL exactly when some sample of `M`
has, in the ipv4 or the ipv6 family, an address that is non-empty and different from the
non-empty address of `b`; it is PASS exactly when there is no such sample and `M` has two
adjacent offline samples; it is NOT TESTED exactly when neither holds; `KillSwitch` carries
the same value. -/
theorem end_to_end_verdict (runID : String) (startedUTC : Int) (opt : TestOptions)
    (B M : List ProbeSet) (b : ProbeSet)
    (hmode : opt.Mode = RunModeKillSwitch) (hb : lastOnline B = some b) :
    let v := (RunTest runID startedUTC opt B M).Verdict
    let leak : Prop := ∃ m ∈ M,
      (b.ExitV4.IP ≠ "" ∧ m.ExitV4.IP ≠ "" ∧ b.ExitV4.IP ≠ m.ExitV4.IP)
      ∨ (b.ExitV6.IP ≠ "" ∧ m.ExitV6.IP ≠ "" ∧ b.ExitV6.IP ≠ m.ExitV6.IP)
    let drop : Prop := ∃ pre x y post,
      M = pre ++ x :: y :: post ∧ x.Online = false ∧ y.Online = false
    (v.Overall = "FAIL" ↔ leak)
    ∧ (v.Overall = "PASS" ↔ ¬ leak ∧ drop)
    ∧ (v.Overall = "NOT TESTED" ↔ ¬ leak ∧ ¬ drop)
    ∧ v.KillSwitch = v.Overall := by
  intro v leak drop
  obtain ⟨hbB, hbon⟩ := lastOnline_some B b hb
  have hbase : lastOnlineOr {} B = b := by simp [lastOnlineOr, hb]
  have hfin := finish_overall_online
    ({ (RunTest runID startedUTC opt B M) with Verdict := {} } : RunReport)
    (by simpa using (runTest_mode runID startedUTC opt B M).trans hmode)
    (by
      have := (runTest_baseline_notes runID startedUTC opt B M).1
      simp only
      rw [this, hbase]; exact hbon)
  rw [← runTest_verdict] at hfin
  simp only at hfin
  rw [runTest_exitDeltas, runTest_offline runID startedUTC opt B M ⟨b, hbB, hbon⟩, hbase] at hfin
  have hleak : (recordExitDeltas {} b M).ExitDeltas ≠ [] ↔ leak := by
    rw [Ne, recordExitDeltas_nil_iff]
    simp only [true_and, not_forall, Bool.not_eq_false]
    constructor
    · rintro ⟨m, hm, hl⟩
      exact ⟨m, hm, (leaks_eq_true_iff b m).mp hl⟩
    · rintro ⟨m, hm, hl⟩
      exact ⟨m, hm, (leaks_eq_true_iff b m).mpr hl⟩
  have hdrop : firstOfflinePair M ≠ none ↔ drop := offlinePair_iff M
  refine ⟨?_, ?_, ?_, hfin.2⟩
  · show v.Overall = "FAIL" ↔ leak
    rw [← hleak]
    show (RunTest runID startedUTC opt B M).Verdict.Overall = "FAIL" ↔ _
    rw [hfin.1]
    by_cases h1 : (recordExitDeltas {} b M).ExitDeltas ≠ []
    · simp [h1]
    · by_cases h2 : firstOfflinePair M ≠ none
      · simp [h1, h2]
      · simp [h1, h2]
  · show v.Overall = "PASS" ↔ ¬ leak ∧ drop
    rw [← hleak, ← hdrop]
    show (RunTest runID startedUTC opt B M).Verdict.Overall = "PASS" ↔ _
    rw [hfin.1]
    by_cases h1 : (recordExitDeltas {} b M).ExitDeltas ≠ []
    · simp [h1]
    · by_cases h2 : firstOfflinePair M ≠ none
      · simp [h1, h2]
      · simp [h1, h2]
  · show v.Overall = "NOT TESTED" ↔ ¬ leak ∧ ¬ drop
    rw [← hleak, ← hdrop]
    show (RunTest runID startedUTC opt B M).Verdict.Overall = "NOT TESTED" ↔ _
    rw [hfin.1]
    by_cases h1 : (recordExitDeltas {} b M).ExitDeltas ≠ []
    · simp [h1]
    · by_cases h2 : firstOfflinePair M ≠ none
      · simp [h1, h2]
      · simp [h1, h2]

/-- Witness of C24: with an online baseline sample, a main phase whose second sample has
another IPv4 address gives FAIL (even though two offline samples follow), and a main phase
without address change and with two adjacent offline samples gives PASS. -/
theorem end_to_end_verdict_witness :
    let b : ProbeSet := { AtSec := 2, ExitV4 := { IP := "198.51.100.7" }, Online := true }
    let B : List ProbeSet := [{ AtSec := 0 }, b, { AtSec := 4 }]
    let M1 : List ProbeSet :=
      [{ AtSec := 5, ExitV4 := { IP := "198.51.100.7" }, Online := true },
       { AtSec := 6, ExitV4 := { IP := "203.0.113.9" }, Online := true },
       { AtSec := 7 }, { AtSec := 8 }]
    let M2 : List ProbeSet :=
      [{ AtSec := 5, ExitV4 := { IP := "198.51.100.7" }, Online := true },
       { AtSec := 6 }, { AtSec := 7 }]
    let opt : TestOptions := { Mode := RunModeKillSwitch }
    opt.Mode = RunModeKillSwitch ∧ lastOnline B = some b
    ∧ (RunTest "run" 0 opt B M1).Verdict.Overall = "FAIL"
    ∧ (RunTest "run" 0 opt B M2).Verdict.Overall = "PASS" := by
  intro b B M1 M2 opt
  have hm : opt.Mode = RunModeKillSwitch := by decide
  have hb : lastOnline B = some b := by decide
  refine ⟨hm, hb, ?_, ?_⟩
  · exact (end_to_end_verdict "run" 0 opt B M1 b hm hb).1.mpr
      ⟨{ AtSec := 6, ExitV4 := { IP := "203.0.113.9" }, Online := true },
        by simp [M1], Or.inl ⟨by decide, by decide, by decide⟩⟩
  · refine (end_to_end_verdict "run" 0 opt B M2 b hm hb).2.1.mpr ⟨?_, ?_⟩
    · rintro ⟨m, hmem, hl⟩
      simp only [M2, List.mem_cons, List.mem_singleton, List.not_mem_nil, or_false] at hmem
      rcases hmem with rfl | rfl | rfl <;> simp [b] at hl
    · exact ⟨[{ AtSec := 5, ExitV4 := { IP := "198.51.100.7" }, Online := true }],
        { AtSec := 6 }, { AtSec := 7 }, [], rfl, rfl, rfl⟩

/-- C25: when no sample of the baseline loop is online, the report of `RunTest` has no
exit delta, no DNS delta and no offline onset, whatever the samples of the main loop
are. -/
theorem unconfirmed_baseline_records_nothing (runID : String) (startedUTC : Int)
    (opt : TestOptions) (B M : List ProbeSet) (h : ∀ s ∈ B, s.Online = false) :
    (RunTest runID startedUTC opt B M).ExitDeltas = []
    ∧ (RunTest runID startedUTC opt B M).DNSDelta = none
    ∧ (RunTest runID startedUTC opt B M).OfflineAtSec = none := by
  have hbase : lastOnlineOr {} B = {} := by simp [lastOnlineOr, lastOnline_none B h]
  rw [runTest_eq]
  simp only
  rw [finish_frame, hbase]
  simp only
  obtain ⟨a1, a2, a3⟩ := mainPhase_unconfirmed {} rfl rfl rfl rfl M
    { r := markBaseline
        { NewRunReport runID startedUTC opt.withDefaults.Mode opt.withDefaults.Duration
            opt.withDefaults.Interval opt.withDefaults.Baseline with
          Probes := B, Baseline := {} } {},
      last := {}, consecutiveOffline := 0 }
  rw [a1, a2, a3]
  simp [markBaseline, NewRunReport]

/-- Witness of C25: the only baseline sample failed; the main samples change address and
resolvers and then go offline twice, and nothing is recorded. -/
theorem unconfirmed_baseline_records_nothing_witness :
    let B : List ProbeSet := [{ AtSec := 0, ExitV4 := { Error := "timeout" } }]
    let M : List ProbeSet :=
      [{ AtSec := 5, ExitV4 := { IP := "198.51.100.7" }, DNSRecursors := ["10.0.0.1"],
         Online := true },
       { AtSec := 6, ExitV4 := { IP := "203.0.113.9" }, ExitV6 := { IP := "2001:db8::1" },
         DNSRecursors := ["192.0.2.53"], Online := true },
       { AtSec := 7 }, { AtSec := 8 }]
    (∀ s ∈ B, s.Online = false)
    ∧ (RunTest "run" 0 { Mode := RunModeKillSwitch } B M).ExitDeltas = []
    ∧ (RunTest "run" 0 { Mode := RunModeKillSwitch } B M).DNSDelta = none
    ∧ (RunTest "run" 0 { Mode := RunModeKillSwitch } B M).OfflineAtSec = none := by
  intro B M
  have hB : ∀ s ∈ B, s.Online = false := by decide
  exact ⟨hB, unconfirmed_baseline_records_nothing "run" 0 { Mode := RunModeKillSwitch } B M hB⟩

/-- C26: the deltas one call of `MaybeRecordExitDelta` appends each have family ipv4 or
ipv6 with `From` and `To` the addresses of the baseline and of the current sample for that
family, `AtSec` that of the current sample, and `From.IP`, `To.IP` non-empty and different;
when no delta was recorded yet and the sample differs in both families, the ipv4 delta is
appended before the ipv6 delta. -/
theorem recorded_deltas_genuine (r : RunReport) (baseline current : ProbeSet) :
    (∃ added, (r.MaybeRecordExitDelta baseline current).ExitDeltas = r.ExitDeltas ++ added
      ∧ ∀ d ∈ added,
          ((d.Family = "ipv4" ∧ d.From = baseline.ExitV4 ∧ d.To = current.ExitV4)
            ∨ (d.Family = "ipv6" ∧ d.From = baseline.ExitV6 ∧ d.To = current.ExitV6))
          ∧ d.AtSec = current.AtSec
          ∧ d.From.IP ≠ "" ∧ d.To.IP ≠ "" ∧ d.From.IP ≠ d.To.IP)
    ∧ (deltasOf "ipv4" r = [] → deltasOf "ipv6" r = [] →
        ipDiffers baseline.ExitV4 current.ExitV4 = true →
        ipDiffers baseline.ExitV6 current.ExitV6 = true →
        (r.MaybeRecordExitDelta baseline current).ExitDeltas =
          r.ExitDeltas ++
            [{ Family := "ipv4", From := baseline.ExitV4, To := current.ExitV4,
               AtSec := current.AtSec },
             { Family := "ipv6", From := baseline.ExitV6, To := current.ExitV6,
               AtSec := current.AtSec }]) := by
  have hl := maybeRecordExitDelta_list r baseline current
  constructor
  · refine ⟨_, by rw [hl, List.append_assoc], ?_⟩
    intro d hd
    rw [List.mem_append] at hd
    rcases hd with hd | hd
    · split_ifs at hd with hc
      · rw [List.mem_singleton] at hd
        subst hd
        obtain ⟨h1, h2, h3⟩ := (ipDiffers_iff _ _).mp hc.1
        exact ⟨Or.inl ⟨rfl, rfl, rfl⟩, rfl, h1, h2, h3⟩
      · simp at hd
    · split_ifs at hd with hc
      · rw [List.mem_singleton] at hd
        subst hd
        obtain ⟨h1, h2, h3⟩ := (ipDiffers_iff _ _).mp hc.1
        exact ⟨Or.inr ⟨rfl, rfl, rfl⟩, rfl, h1, h2, h3⟩
      · simp at hd
  · intro e4 e6 h4 h6
    rw [hl, if_pos ⟨h4, e4⟩, if_pos ⟨h6, e6⟩, List.append_assoc]
    rfl

/-- Witness of C26: a sample that differs from the baseline in both families on a fresh
report gives the ipv4 delta followed by the ipv6 delta. -/
theorem recorded_deltas_genuine_witness :
    let b : ProbeSet :=
      { ExitV4 := { Family := "ipv4", IP := "1.1.1.1" },
        ExitV6 := { Family := "ipv6", IP := "2001:db8::1" } }
    let s : ProbeSet :=
      { AtSec := 8, ExitV4 := { Family := "ipv4", IP := "3.3.3.3" },
        ExitV6 := { Family := "ipv6", IP := "2001:db8::2" } }
    let r : RunReport := {}
    (deltasOf "ipv4" r = [] ∧ deltasOf "ipv6" r = []
      ∧ ipDiffers b.ExitV4 s.ExitV4 = true ∧ ipDiffers b.ExitV6 s.ExitV6 = true)
    ∧ (r.MaybeRecordExitDelta b s).ExitDeltas =
        [{ Family := "ipv4", From := b.ExitV4, To := s.ExitV4, AtSec := 8 },
         { Family := "ipv6", From := b.ExitV6, To := s.ExitV6, AtSec := 8 }] := by
  intro b s r
  have h1 : deltasOf "ipv4" r = [] := by decide
  have h2 : deltasOf "ipv6" r = [] := by decide
  have h3 : ipDiffers b.ExitV4 s.ExitV4 = true := by decide
  have h4 : ipDiffers b.ExitV6 s.ExitV6 = true := by decide
  exact ⟨⟨h1, h2, h3, h4⟩, (recorded_deltas_genuine r b s).2 h1 h2 h3 h4⟩

end VpnLeak
